import Mathlib

/-!
# hc-scaffold quick start: the projection between the form and the document

A shallow embedding of `src/quick/quick-main.js` (class `QuickStart`).

* JavaScript values are the type `JsVal`; strings are Lean strings, with
  `length` and `indexOf` counted in UTF-16 code units as JavaScript does.
* The browser (DOM, `localStorage`, `location`) and the object's own fields
  are one record, `QuickStart`, passed explicitly; a method is a function
  from a state to an outcome `Res`, which is either a normal completion or a
  thrown error, in both cases with the state reached.
* The modules the file requires but which are not part of the sources
  (`hc-i18n`, `scaffold-json-to-yaml`, `yaml-js`, the precompiled templates)
  and the platform functions whose result is implementation-defined are the
  fields of `Env`.
-/

namespace Scaffold

/-! ## JavaScript values -/

/-- A JavaScript number, identified by its IEEE 754 binary64 bit pattern
(sign, eleven exponent bits, fifty-two fraction bits). Arithmetic on numbers
and their rendering in a radix are platform functions, fields of `Env`. -/
structure JsNumber where
  bits : Nat
  deriving DecidableEq, Repr

/-- The values a JSON or YAML parser can return, and `undefined`. An object
is the list of its own properties in insertion order, without repeated keys. -/
inductive JsVal where
  | undefined
  | null
  | bool (b : Bool)
  | num (n : JsNumber)
  | str (s : String)
  | arr (items : List JsVal)
  | obj (props : List (String × JsVal))

/-- The errors the embedded code can raise. `unmodelled` marks a request
that the source never makes and the embedding gives no meaning to. -/
inductive JsError where
  | typeError
  | uriError
  | notFoundError
  | error (message : String)
  | unmodelled
  deriving DecidableEq, Repr

namespace JsNumber

/-- The numbers that count as false: `+0`, `-0` (no magnitude bit set) and
NaN (exponent all ones, fraction non-zero). -/
def isFalsy (n : JsNumber) : Bool :=
  n.bits % 0x8000000000000000 == 0 || decide (0x7FF0000000000000 < n.bits % 0x8000000000000000)

end JsNumber

/-! ## Strings -/

/-- Number of UTF-16 code units of a character. -/
def utf16Units (c : Char) : Nat := if c.toNat < 0x10000 then 1 else 2

/-- The `length` of a string: its number of UTF-16 code units. -/
def jsLength (s : String) : Nat := (s.data.map utf16Units).sum

/-- WhiteSpace and LineTerminator code points, the characters `trim` strips. -/
def isJsWhitespace (c : Char) : Bool :=
  let n := c.toNat
  n == 0x09 || n == 0x0A || n == 0x0B || n == 0x0C || n == 0x0D || n == 0x20
    || n == 0xA0 || n == 0x1680 || (0x2000 ≤ n && n ≤ 0x200A)
    || n == 0x2028 || n == 0x2029 || n == 0x202F || n == 0x205F
    || n == 0x3000 || n == 0xFEFF

/-- JavaScript's `String.prototype.trim`. -/
def jsTrim (s : String) : String :=
  ⟨((s.data.dropWhile isJsWhitespace).reverse.dropWhile isJsWhitespace).reverse⟩

/-- Index in code units of the first occurrence of `c` in `cs`, counted from
`i`; `-1` when there is none. -/
def indexOfFrom (c : Char) : List Char → Nat → Int
  | [], _ => -1
  | d :: ds, i => if d = c then (i : Int) else indexOfFrom c ds (i + utf16Units d)

/-- JavaScript's `s.indexOf(c)` for a one-character search string. -/
def jsIndexOf (s : String) (c : Char) : Int := indexOfFrom c s.data 0

/-! ## Operations on values -/

namespace JsVal

/-- ToBoolean. -/
def truthy : JsVal → Bool
  | undefined => false
  | null => false
  | bool b => b
  | num n => !n.isFalsy
  | str s => decide (jsLength s ≠ 0)
  | arr _ => true
  | obj _ => true

/-- The expression `a || b`. -/
def orElse (a b : JsVal) : JsVal := if a.truthy then a else b

/-- Own property lookup in a property list. -/
def lookup (k : String) : List (String × JsVal) → JsVal
  | [] => undefined
  | (k1, v) :: rest => if k1 = k then v else lookup k rest

/-- The member expression `v.k` for the property names the source reads
(none of them is defined on a prototype): a `TypeError` on `undefined` and
`null`, the own property of an object, `undefined` on everything else. -/
def getProp (v : JsVal) (k : String) : Except JsError JsVal :=
  match v with
  | undefined => .error .typeError
  | null => .error .typeError
  | obj props => .ok (lookup k props)
  | _ => .ok undefined

/-- The values a `for (... of v)` loop visits: the items of an array, the
code points of a string; everything else is not iterable. -/
def iterate : JsVal → Except JsError (List JsVal)
  | arr items => .ok items
  | str s => .ok (s.data.map fun c => str (String.singleton c))
  | _ => .error .typeError

/-- The value of own property `k`, when the property list has one. -/
def find? (k : String) : List (String × JsVal) → Option JsVal
  | [] => none
  | (k1, v) :: rest => if k1 = k then some v else find? k rest

mutual
/-- Deep equality of values, objects compared as maps from keys to values
(the order of keys is immaterial), arrays item by item in order. -/
def deepEq : JsVal → JsVal → Bool
  | undefined, undefined => true
  | null, null => true
  | bool a, bool b => a == b
  | num a, num b => decide (a = b)
  | str a, str b => decide (a = b)
  | arr a, arr b => deepEqItems a b
  | obj a, obj b => decide (a.length = b.length) && deepEqProps a b
  | _, _ => false
/-- Item by item deep equality of two arrays. -/
def deepEqItems : List JsVal → List JsVal → Bool
  | [], [] => true
  | x :: xs, y :: ys => deepEq x y && deepEqItems xs ys
  | _, _ => false
/-- Every property of the first list has a deep-equal property of the same
key in the second list. -/
def deepEqProps : List (String × JsVal) → List (String × JsVal) → Bool
  | [], _ => true
  | (k, x) :: xs, ys =>
    (match find? k ys with
      | some y => deepEq x y
      | none => false) && deepEqProps xs ys
end

end JsVal

/-! ## The form

The precompiled templates (`gen/templates`) are not part of the sources. The
form is modelled by the elements the source selects in what a template
renders: a zome block (`.zome`) holds its two text fields and two tables
(`#zomeentries-<id>`, `#zomefunctions-<id>`, `<id>` being the identifier of
the zome's template instance), and each entry or function template is one
table row (`.zome-entry-row`, `.zome-function-row`) with its controls. A
control is a cell holding a string (`value`) or a boolean (`checked`).
-/

/-- A row of a zome's entries table. -/
structure EntryRow where
  node : Nat
  tplId : String
  name : String
  dataFormat : String
  sharing : String
  create : Bool
  read : Bool
  update : Bool
  delete : Bool
  deriving DecidableEq, Repr

/-- A row of a zome's functions table. -/
structure FunctionRow where
  node : Nat
  tplId : String
  name : String
  callingType : String
  exposure : String
  deriving DecidableEq, Repr

/-- A zome block of the form. -/
structure ZomeElem where
  node : Nat
  tplId : String
  zomename : String
  zomedesc : String
  entryRows : List EntryRow
  functionRows : List FunctionRow
  deriving DecidableEq, Repr

/-- The containers templates are instantiated into: the root element, the
zomes container of the page, and the two tables of the zome block `zome`. -/
inductive Parent where
  | root
  | zomesDiv
  | entriesTable (zome : Nat)
  | functionsTable (zome : Nat)
  deriving DecidableEq, Repr

/-- The record `_genTemplates` keeps of a template instance. -/
structure Template where
  id : String
  name : String
  parent : Parent
  elems : List Nat
  data : List (String × String)
  deriving DecidableEq, Repr

/-- A child of the root element. -/
inductive RootChild where
  | page (node : Nat)
  | langButton (node : Nat) (locale langName : String)
  deriving DecidableEq, Repr

/-- The modules and platform functions the source calls but does not define. -/
structure Env where
  /-- The function `i18n.listLocales()`. -/
  locales : List String
  /-- The function `i18n.getText(key)` under a given locale: locale, key, text. -/
  getText : String → String → String
  /-- JavaScript's `JSON.parse`; `none` when it throws. -/
  jsonParse : String → Option JsVal
  /-- The function `YAML.load`; `none` when it throws. -/
  yamlLoad : String → Option JsVal
  /-- JavaScript's `JSON.stringify`. -/
  jsonStringify : JsVal → String
  /-- The function `toYaml` of `scaffold-json-to-yaml`. -/
  toYaml : JsVal → String
  /-- The value returned by the call number `k` of `Math.random()`. -/
  random : Nat → JsNumber
  /-- The `+` of two numbers. -/
  numAdd : JsNumber → JsNumber → JsNumber
  /-- JavaScript's `Number.prototype.toString(36)`. -/
  toString36 : JsNumber → String
  /-- Conversion to a string of a value that is not a string, as done when
  such a value is assigned to the `value` of a control. -/
  coerce : JsVal → String
  /-- Initial content of the controls of the `page` template. -/
  pageAppName : String
  pageAppDesc : String
  /-- Initial content of the controls of the `zome` template. -/
  zomeName : String
  zomeDesc : String
  /-- Initial content of the controls of the `zome-entry` template. -/
  entryName : String
  entryDataFormat : String
  entrySharing : String
  entryCreate : Bool
  entryRead : Bool
  entryUpdate : Bool
  entryDelete : Bool
  /-- Initial content of the controls of the `zome-function` template. -/
  functionName : String
  functionCallingType : String
  functionExposure : String

/-- The state: the fields of the `QuickStart` object and the parts of the
browser it acts on. -/
structure QuickStart where
  /-- The field `this.nextTemplateId`. -/
  nextTemplateId : JsNumber
  /-- The field `this.templates`, latest assignment first. -/
  templates : List (String × Template)
  /-- The field `this.uuid`. -/
  uuid : JsVal
  /-- Whether `this.page`, `this.yamlDisplay`, `this.appName`, `this.appDesc`
  and `this.zomesDiv` have been assigned their elements. -/
  pageReady : Bool
  /-- Children of `this.ROOT`, in document order. -/
  root : List RootChild
  /-- The `value` of `#appname` and of `#appdesc`. -/
  appName : String
  appDesc : String
  /-- The zome blocks inside `#zomes`, in document order. -/
  zomes : List ZomeElem
  /-- Zome blocks that were removed from the document. -/
  detached : List ZomeElem
  /-- The text shown in `.yaml-display`. -/
  yamlDisplay : String
  /-- The locale `i18n.getLocale()` returns. -/
  locale : String
  /-- The expression `localStorage.getItem('hc-scaffold-save-json')`; `none` for `null`. -/
  storage : Option String
  /-- Number of `location.reload()` calls. -/
  reloads : Nat
  /-- Number of `Math.random()` calls so far. -/
  randomCalls : Nat
  /-- Number of DOM nodes created so far; the next node gets this number. -/
  nextNode : Nat

/-- The outcome of running a method: normal completion with a value, or a
thrown error; both with the state reached. -/
inductive Res (α : Type) where
  | ok (a : α) (s : QuickStart)
  | threw (e : JsError) (s : QuickStart)

/-- A method body: from the state before to the outcome. -/
def M (α : Type) : Type := QuickStart → Res α

namespace M

/-- Normal completion with a value. -/
def ret {α : Type} (a : α) : M α := fun s => .ok a s

/-- Sequencing: the second part runs only if the first completes normally. -/
def andThen {α β : Type} (m : M α) (f : α → M β) : M β := fun s =>
  match m s with
  | .ok a s1 => f a s1
  | .threw e s1 => .threw e s1

instance : Monad M where
  pure := ret
  bind := andThen

/-- The statement `throw e`. -/
def raise {α : Type} (e : JsError) : M α := fun s => .threw e s

/-- Read the state. -/
def read : M QuickStart := fun s => .ok s s

/-- Update the state. -/
def modify (f : QuickStart → QuickStart) : M Unit := fun s => .ok () (f s)

/-- An expression that may throw, evaluated without changing the state. -/
def lift {α : Type} : Except JsError α → M α
  | .ok a => ret a
  | .error e => raise e

/-- The loop `for (let x of xs) { body }`. -/
def forEach {α : Type} : List α → (α → M Unit) → M Unit
  | [], _ => ret ()
  | x :: xs, body => andThen (body x) fun _ => forEach xs body

end M

/-! ## From the form to the document -/

/-- The test `!name.trim().length` the source uses to skip a row. -/
def blankName (name : String) : Bool := jsLength (jsTrim name) == 0

/-- The method `_genZomeEntryJson(parent)`: the Entries of a zome block. -/
def _genZomeEntryJson (parent : ZomeElem) : List JsVal :=
  parent.entryRows.foldl (fun data row =>
    let name := row.name
    if blankName name then data
    else
      let hint := ""
      let hint := if row.create then hint ++ "c" else hint
      let hint := if row.read then hint ++ "r" else hint
      let hint := if row.update then hint ++ "u" else hint
      let hint := if row.delete then hint ++ "d" else hint
      let hint := if jsLength hint == 0 then "-" else hint
      data ++ [JsVal.obj [("Name", .str name), ("DataFormat", .str row.dataFormat),
        ("Sharing", .str row.sharing), ("_", .str hint)]]) []

/-- The inner function `addFunction` of `_genZomeFunctionJson`: push one
function object; the `_` property is set only for a truthy hint. -/
def addFunction (data : List JsVal) (name callingType exposure : String)
    (hint : Option String) : List JsVal :=
  let obj : List (String × JsVal) :=
    [("Name", .str name), ("CallingType", .str callingType), ("Exposure", .str exposure)]
  let obj := match hint with
    | some h => if (JsVal.str h).truthy then obj ++ [("_", .str h)] else obj
    | none => obj
  data ++ [JsVal.obj obj]

/-- The method `_genZomeFunctionJson(parent)`: the Functions of a zome block. -/
def _genZomeFunctionJson (parent : ZomeElem) : List JsVal :=
  let data : List JsVal := []
  let data := parent.entryRows.foldl (fun data row =>
    let name := row.name
    if blankName name then data
    else
      let data := if row.create then
        addFunction data (name ++ "Create") row.dataFormat row.sharing (some ("c:" ++ name))
        else data
      let data := if row.read then
        addFunction data (name ++ "Read") row.dataFormat row.sharing (some ("r:" ++ name))
        else data
      let data := if row.update then
        addFunction data (name ++ "Update") row.dataFormat row.sharing (some ("u:" ++ name))
        else data
      let data := if row.delete then
        addFunction data (name ++ "Delete") row.dataFormat row.sharing (some ("d:" ++ name))
        else data
      data) data
  parent.functionRows.foldl (fun data row =>
    let name := row.name
    if blankName name then data
    else addFunction data name row.callingType row.exposure none) data

/-- The method `_genZomesJson()`: one object per zome block, in document order. -/
def _genZomesJson (zomes : List ZomeElem) : List JsVal :=
  zomes.foldl (fun data zome =>
    data ++ [JsVal.obj [("Name", .str zome.zomename), ("Description", .str zome.zomedesc),
      ("Entries", .arr (_genZomeEntryJson zome)),
      ("Functions", .arr (_genZomeFunctionJson zome))]]) []

/-! ## Template instances -/

/-- The expression `str.replace(/\./g, '-')`. -/
def replaceDots (s : String) : String :=
  ⟨s.data.map fun c => if c = '.' then '-' else c⟩

/-- The value of `this.templates[id]`; `none` for `undefined`. -/
def lookupTemplate (id : String) : List (String × Template) → Option Template
  | [] => none
  | (k, t) :: rest => if k = id then some t else lookupTemplate id rest

/-- The value of `data[key]` in the data passed to a template. -/
def dataValue (key : String) : List (String × String) → String
  | [] => ""
  | (k, v) :: rest => if k = key then v else dataValue key rest

/-- Apply `f` to the zome blocks whose node is `z`. -/
def mapZome (z : Nat) (f : ZomeElem → ZomeElem) (zs : List ZomeElem) : List ZomeElem :=
  zs.map fun e => if e.node = z then f e else e

/-- The block with `row` appended to the body of its entries table. -/
def ZomeElem.pushEntry (row : EntryRow) (e : ZomeElem) : ZomeElem :=
  { e with entryRows := e.entryRows ++ [row] }

/-- The block with `row` appended to the body of its functions table. -/
def ZomeElem.pushFunction (row : FunctionRow) (e : ZomeElem) : ZomeElem :=
  { e with functionRows := e.functionRows ++ [row] }

/-- The block without the rows `node` of its entries table. -/
def ZomeElem.dropEntry (node : Nat) (e : ZomeElem) : ZomeElem :=
  { e with entryRows := e.entryRows.filter fun r => r.node ≠ node }

/-- The block without the rows `node` of its functions table. -/
def ZomeElem.dropFunction (node : Nat) (e : ZomeElem) : ZomeElem :=
  { e with functionRows := e.functionRows.filter fun r => r.node ≠ node }

/-- Whether a root child is a rendered page. -/
def RootChild.isPage : RootChild → Bool
  | .page _ => true
  | _ => false

/-- The node of a root child. -/
def RootChild.node : RootChild → Nat
  | .page n => n
  | .langButton n _ _ => n

/-- The method `_genId()`: the current counter in base 36 with dots replaced, after
which the counter grows by a random amount. -/
def _genId (env : Env) : M String := fun s =>
  let out := replaceDots (env.toString36 s.nextTemplateId)
  .ok out { s with
    nextTemplateId := env.numAdd s.nextTemplateId (env.random s.randomCalls)
    randomCalls := s.randomCalls + 1 }

/-- Modelled from the spec: the precompiled templates (`gen/templates`) are
missing from the sources; what each one renders is taken from the Template
Registry and the data model of the specification and from the selectors the
source applies to the result. This is the part of `_genTemplates` that
renders template `name` for the instance `id` and moves what it rendered
into `parent`; the result is the list pushed to `template.elems`. The source
requests five combinations of container and template in the part embedded
here: `page` and `lang-button` into the root, `zome` into the zomes
container, `zome-entry` and `zome-function` into the tables of a zome block.
A first `page` carries the controls the object then works on. -/
def renderInto (env : Env) (parent : Parent) (name id : String)
    (data : List (String × String)) : M (List Nat) := fun s =>
  let n := s.nextNode
  match parent, name with
  | .root, "page" =>
    if s.root.any RootChild.isPage then
      .ok [n] { s with nextNode := n + 1, root := s.root ++ [.page n] }
    else
      .ok [n] { s with
        nextNode := n + 1
        root := s.root ++ [.page n]
        appName := env.pageAppName
        appDesc := env.pageAppDesc
        zomes := []
        yamlDisplay := "" }
  | .root, "lang-button" =>
    .ok [n] { s with
      nextNode := n + 1
      root := s.root ++ [.langButton n (dataValue "locale" data) (dataValue "langName" data)] }
  | .zomesDiv, "zome" =>
    let block : ZomeElem :=
      { node := n, tplId := id, zomename := env.zomeName, zomedesc := env.zomeDesc
        entryRows := [], functionRows := [] }
    .ok [n] { s with
      nextNode := n + 1
      zomes := s.zomes ++ [block] }
  | .entriesTable z, "zome-entry" =>
    let row : EntryRow :=
      { node := n, tplId := id, name := env.entryName
        dataFormat := env.entryDataFormat, sharing := env.entrySharing
        create := env.entryCreate, read := env.entryRead
        update := env.entryUpdate, delete := env.entryDelete }
    .ok [n] { s with
      nextNode := n + 1
      zomes := mapZome z (ZomeElem.pushEntry row) s.zomes
      detached := mapZome z (ZomeElem.pushEntry row) s.detached }
  | .functionsTable z, "zome-function" =>
    let row : FunctionRow :=
      { node := n, tplId := id, name := env.functionName
        callingType := env.functionCallingType, exposure := env.functionExposure }
    .ok [n] { s with
      nextNode := n + 1
      zomes := mapZome z (ZomeElem.pushFunction row) s.zomes
      detached := mapZome z (ZomeElem.pushFunction row) s.detached }
  | _, _ => .threw .unmodelled s

/-- The method `_genTemplates(parent, name, data)`; `parent` is `none` when the source
passes `null` or `undefined`, on which reading `parent.nodeName` throws
(after the identifier has been generated). -/
def _genTemplates (env : Env) (parent : Option Parent) (name : String)
    (data : List (String × String)) : M Template := do
  let id := name ++ "-" ++ (← _genId env)
  match parent with
  | none => M.raise .typeError
  | some p =>
    let elems ← renderInto env p name id data
    let template : Template :=
      { id := id, name := name, parent := p, elems := elems, data := data }
    M.modify fun s => { s with templates := (id, template) :: s.templates }
    pure template

/-- The expression `parent.removeChild(node)` on the body of the entries table of zome
block `z`: a `NotFoundError` when the node is not a row of that table. -/
def removeEntryRow (z node : Nat) : M Unit := fun s =>
  if (s.zomes ++ s.detached).any (fun e => e.node = z ∧ e.entryRows.any (fun r => r.node = node)) then
    .ok () { s with
      zomes := mapZome z (ZomeElem.dropEntry node) s.zomes
      detached := mapZome z (ZomeElem.dropEntry node) s.detached }
  else .threw .notFoundError s

/-- The expression `parent.removeChild(node)` on the body of the functions table of zome
block `z`. -/
def removeFunctionRow (z node : Nat) : M Unit := fun s =>
  if (s.zomes ++ s.detached).any (fun e => e.node = z ∧ e.functionRows.any (fun r => r.node = node)) then
    .ok () { s with
      zomes := mapZome z (ZomeElem.dropFunction node) s.zomes
      detached := mapZome z (ZomeElem.dropFunction node) s.detached }
  else .threw .notFoundError s

/-- The expression `parent.removeChild(node)` on the zomes container: the block leaves the
document. -/
def removeZome (node : Nat) : M Unit := fun s =>
  if s.zomes.any (fun e => e.node = node) then
    .ok () { s with
      zomes := s.zomes.filter (fun e => e.node ≠ node)
      detached := s.detached ++ s.zomes.filter (fun e => e.node = node) }
  else .threw .notFoundError s

/-- The expression `parent.removeChild(node)` on the root element. -/
def removeRootChild (node : Nat) : M Unit := fun s =>
  if s.root.any (fun c => c.node = node) then
    .ok () { s with root := s.root.filter (fun c => c.node ≠ node) }
  else .threw .notFoundError s

/-- The method `_rmTemplate(id)`. -/
def _rmTemplate (id : String) : M Unit := do
  let s ← M.read
  match lookupTemplate id s.templates with
  | none => M.raise .typeError
  | some template =>
    match template.parent with
    | .entriesTable z => M.forEach template.elems (removeEntryRow z)
    | .functionsTable z => M.forEach template.elems (removeFunctionRow z)
    | .zomesDiv => M.forEach template.elems removeZome
    | .root => M.forEach template.elems removeRootChild
    M.modify fun s => { s with templates := s.templates.filter (fun kt => kt.1 ≠ template.id) }

/-- The block whose tables carry the identifier `id`, as
`querySelector('#zomeentries-' + id)` finds it below `scope`: the first such
block in document order when `scope` contains the zomes, nothing inside a
table. -/
def findZome (s : QuickStart) (scope : Parent) (id : String) : Option Nat :=
  match scope with
  | .zomesDiv => (s.zomes.find? fun e => e.tplId = id).map (·.node)
  | .root =>
    if s.root.any RootChild.isPage then (s.zomes.find? fun e => e.tplId = id).map (·.node)
    else none
  | _ => none

/-- The method `_addZomeEntry(zomeTemplateId)`. -/
def _addZomeEntry (env : Env) (zomeTemplateId : String) : M Template := do
  let s ← M.read
  match lookupTemplate zomeTemplateId s.templates with
  | none => M.raise .typeError
  | some parentTemplate =>
    _genTemplates env
      ((findZome s parentTemplate.parent zomeTemplateId).map Parent.entriesTable)
      "zome-entry" []

/-- The method `_addZomeFunction(zomeTemplateId)`. -/
def _addZomeFunction (env : Env) (zomeTemplateId : String) : M Template := do
  let s ← M.read
  match lookupTemplate zomeTemplateId s.templates with
  | none => M.raise .typeError
  | some parentTemplate =>
    _genTemplates env
      ((findZome s parentTemplate.parent zomeTemplateId).map Parent.functionsTable)
      "zome-function" []

/-! ## Controls -/

/-- The string a control holds after `control.value = v`. -/
def toValue (env : Env) : JsVal → String
  | .str s => s
  | v => env.coerce v

/-- Reading or writing through `this.appName`, `this.appDesc`,
`this.yamlDisplay` or `this.zomesDiv` throws until they are assigned. -/
def requirePage : M Unit := fun s =>
  if s.pageReady then .ok () s else .threw .typeError s

/-- The expression `tpl.elems[0]`, on which the source then calls `querySelector`: a
`TypeError` when the list is empty. -/
def firstElem (tpl : Template) : M Nat :=
  match tpl.elems with
  | n :: _ => M.ret n
  | [] => M.raise .typeError

/-- Apply `f` to the entry rows whose node is `node`. -/
def mapEntryRow (node : Nat) (f : EntryRow → EntryRow) (zs : List ZomeElem) : List ZomeElem :=
  zs.map fun e =>
    { e with entryRows := e.entryRows.map fun r => if r.node = node then f r else r }

/-- Apply `f` to the function rows whose node is `node`. -/
def mapFunctionRow (node : Nat) (f : FunctionRow → FunctionRow) (zs : List ZomeElem) :
    List ZomeElem :=
  zs.map fun e =>
    { e with functionRows := e.functionRows.map fun r => if r.node = node then f r else r }

/-- Apply `f` to the zome block `node` of the document (the controls of a
block are reached with `querySelector` from the block): a `TypeError` when
there is no such block. -/
def updateZome (node : Nat) (f : ZomeElem → ZomeElem) : M Unit := fun s =>
  if s.zomes.any (fun e => e.node = node) then
    .ok () { s with zomes := mapZome node f s.zomes }
  else .threw .typeError s

/-- Apply `f` to the entry row `node`: a `TypeError` when no block of the
document has such a row. -/
def updateEntryRow (node : Nat) (f : EntryRow → EntryRow) : M Unit := fun s =>
  if s.zomes.any (fun e => e.entryRows.any (fun r => r.node = node)) then
    .ok () { s with zomes := mapEntryRow node f s.zomes }
  else .threw .typeError s

/-- Apply `f` to the function row `node`: a `TypeError` when no block of the
document has such a row. -/
def updateFunctionRow (node : Nat) (f : FunctionRow → FunctionRow) : M Unit := fun s =>
  if s.zomes.any (fun e => e.functionRows.any (fun r => r.node = node)) then
    .ok () { s with zomes := mapFunctionRow node f s.zomes }
  else .threw .typeError s

/-! ## The document and its display -/

/-- The object `json` that `_genYaml` builds from the form. -/
def documentOf (s : QuickStart) : JsVal :=
  .obj [("UUID", s.uuid), ("Name", .str s.appName),
    ("Properties", .obj [("description", .str s.appDesc), ("language", .str s.locale)]),
    ("Zomes", .arr (_genZomesJson s.zomes))]

/-- The method `_genYaml()`: build the document, save its serialization under the save
key, return its YAML text. -/
def _genYaml (env : Env) : M String := do
  requirePage
  let json := documentOf (← M.read)
  M.modify fun s => { s with storage := some (env.jsonStringify json) }
  pure (env.toYaml json)

/-- The method `_displayYaml()`. -/
def _displayYaml (env : Env) : M Unit := do
  requirePage
  let text ← _genYaml env
  M.modify fun s => { s with yamlDisplay := text }

/-! ## From the document to the form -/

/-- The body of the loop of `_loadJsonEntries`, for one `entry`. -/
def loadJsonEntry (env : Env) (zomeTemplateId : String) (entry : JsVal) : M Unit := do
  let tpl ← _addZomeEntry env zomeTemplateId
  let row ← firstElem tpl
  let name ← M.lift (entry.getProp "Name")
  updateEntryRow row fun r => { r with name := toValue env (name.orElse (.str "")) }
  let dataFormat ← M.lift (entry.getProp "DataFormat")
  updateEntryRow row fun r =>
    { r with dataFormat := toValue env (dataFormat.orElse (.str "json")) }
  let sharing ← M.lift (entry.getProp "Sharing")
  updateEntryRow row fun r =>
    { r with sharing := toValue env (sharing.orElse (.str "public")) }
  match (← M.lift (entry.getProp "_")) with
  | .str hint =>
    updateEntryRow row fun r => { r with create := decide (jsIndexOf hint 'c' > -1) }
    updateEntryRow row fun r => { r with read := decide (jsIndexOf hint 'r' > -1) }
    updateEntryRow row fun r => { r with update := decide (jsIndexOf hint 'u' > -1) }
    updateEntryRow row fun r => { r with delete := decide (jsIndexOf hint 'd' > -1) }
  | _ => pure ()

/-- The method `_loadJsonEntries(json, zomeTemplateId)`. -/
def _loadJsonEntries (env : Env) (json : JsVal) (zomeTemplateId : String) : M Unit := do
  let entries ← M.lift (json.getProp "Entries")
  M.forEach (← M.lift entries.iterate) (loadJsonEntry env zomeTemplateId)

/-- The test of `_loadJsonFunctions` under which a function is passed over:
`typeof hint === 'string' && hint.indexOf(':') === 1`. -/
def skipsHint : JsVal → Bool
  | .str hint => decide (jsIndexOf hint ':' = 1)
  | _ => false

/-- The body of the loop of `_loadJsonFunctions`, for one `func`. -/
def loadJsonFunction (env : Env) (zomeTemplateId : String) (func : JsVal) : M Unit := do
  if skipsHint (← M.lift (func.getProp "_")) then
    pure ()
  else
    let tpl ← _addZomeFunction env zomeTemplateId
    let row ← firstElem tpl
    let name ← M.lift (func.getProp "Name")
    updateFunctionRow row fun r => { r with name := toValue env name }
    let callingType ← M.lift (func.getProp "CallingType")
    updateFunctionRow row fun r => { r with callingType := toValue env callingType }
    let exposure ← M.lift (func.getProp "Exposure")
    updateFunctionRow row fun r => { r with exposure := toValue env exposure }

/-- The method `_loadJsonFunctions(json, zomeTemplateId)`. -/
def _loadJsonFunctions (env : Env) (json : JsVal) (zomeTemplateId : String) : M Unit := do
  let functions ← M.lift (json.getProp "Functions")
  M.forEach (← M.lift functions.iterate) (loadJsonFunction env zomeTemplateId)

/-- The expression `this.zomesDiv` as an argument of `_genTemplates`. -/
def zomesDivRef (s : QuickStart) : Option Parent :=
  if s.pageReady then some .zomesDiv else none

/-- The body of the loop of `_loadJson`, for one `zome`. -/
def loadJsonZome (env : Env) (zome : JsVal) : M Unit := do
  let tpl ← _genTemplates env (zomesDivRef (← M.read)) "zome" []
  let block ← firstElem tpl
  let zomeName ← M.lift (zome.getProp "Name")
  updateZome block fun e => { e with zomename := toValue env zomeName }
  let zomeDesc ← M.lift (zome.getProp "Description")
  updateZome block fun e => { e with zomedesc := toValue env zomeDesc }
  _loadJsonEntries env zome tpl.id
  _loadJsonFunctions env zome tpl.id

/-- The method `_loadJson(json)`. -/
def _loadJson (env : Env) (json : JsVal) : M Unit := do
  let uuid ← M.lift (json.getProp "UUID")
  M.modify fun s => { s with uuid := uuid }
  requirePage
  let name ← M.lift (json.getProp "Name")
  M.modify fun s => { s with appName := toValue env (name.orElse (.str "")) }
  let properties ← M.lift (json.getProp "Properties")
  if properties.truthy then
    let description ← M.lift (properties.getProp "description")
    M.modify fun s => { s with appDesc := toValue env description }
  let zomes ← M.lift (json.getProp "Zomes")
  M.forEach (← M.lift zomes.iterate) (loadJsonZome env)
  _displayYaml env

/-! ## Handlers bound from the templates -/

/-- The handler `$addZome(params, evtData)`. -/
def addZome (env : Env) : M Unit := do
  let _ ← _genTemplates env (zomesDivRef (← M.read)) "zome" []
  _displayYaml env

/-- The handler `$deleteZome(params, evtData)`, `id` being `params.id`. -/
def deleteZome (env : Env) (id : String) : M Unit := do
  _rmTemplate id
  _displayYaml env

/-- The handler `$addZomeEntry(params, evtData)`, `id` being `params.id`. -/
def addZomeEntry (env : Env) (id : String) : M Unit := do
  let _ ← _addZomeEntry env id
  _displayYaml env

/-- The handler `$deleteZomeEntry(params, evtData)`, `id` being `params.id`. -/
def deleteZomeEntry (env : Env) (id : String) : M Unit := do
  _rmTemplate id
  _displayYaml env

/-- The handler `$addZomeFunction(params, evtData)`, `id` being `params.id`. -/
def addZomeFunction (env : Env) (id : String) : M Unit := do
  let _ ← _addZomeFunction env id
  _displayYaml env

/-- The handler `$deleteZomeFunction(params, evtData)`, `id` being `params.id`. -/
def deleteZomeFunction (env : Env) (id : String) : M Unit := do
  _rmTemplate id
  _displayYaml env

/-- The `reader.onload` callback of `$upload(params, evtData)`: `result` is
`reader.result` and `fileName` is `i.files[0].name`. -/
def uploadOnload (env : Env) (result fileName : String) : M Unit := do
  let json := JsVal.undefined
  let json := match env.jsonParse result with
    | some v => v
    | none => json
  let json := match env.yamlLoad result with
    | some v => v
    | none => json
  if !json.truthy then
    M.raise (.error ("Error Parsing File: " ++ fileName))
  else
    M.modify fun s => { s with storage := some (env.jsonStringify json) }
    M.modify fun s => { s with reloads := s.reloads + 1 }

/-! ## Startup -/

/-- The regular expression `/lang=([^&]+)/` tried at the start of `cs`: the
capture group when it matches there. -/
def matchLangHere : List Char → Option (List Char)
  | 'l' :: 'a' :: 'n' :: 'g' :: '=' :: rest =>
    match rest.takeWhile (fun c => c ≠ '&') with
    | [] => none
    | capture => some capture
  | _ => none

/-- The expression `search.match(/lang=([^&]+)/)`: the capture group of the leftmost match;
`none` when `match` returns `null`. -/
def matchLang : List Char → Option String
  | [] => none
  | c :: cs =>
    match matchLangHere (c :: cs) with
    | some capture => some ⟨capture⟩
    | none => matchLang cs

/-- Value of a hexadecimal digit. -/
def hexDigit (c : Char) : Option Nat :=
  let n := c.toNat
  if 48 ≤ n ∧ n ≤ 57 then some (n - 48)
  else if 65 ≤ n ∧ n ≤ 70 then some (n - 55)
  else if 97 ≤ n ∧ n ≤ 102 then some (n - 87)
  else none

/-- What `decodeURIComponent` reads: a character taken as it is, or the
octet of an escape `%XX`. -/
inductive UriToken where
  | lit (c : Char)
  | octet (b : Nat)
  deriving DecidableEq, Repr

/-- Split a string into characters and escapes; `none` (a `URIError`) when a
`%` is not followed by two hexadecimal digits. -/
def uriTokens : List Char → Option (List UriToken)
  | [] => some []
  | '%' :: h1 :: h2 :: rest =>
    match hexDigit h1, hexDigit h2, uriTokens rest with
    | some a, some b, some ts => some (.octet (16 * a + b) :: ts)
    | _, _, _ => none
  | '%' :: _ => none
  | c :: rest =>
    match uriTokens rest with
    | some ts => some (.lit c :: ts)
    | none => none

/-- Whether an octet is a UTF-8 continuation octet `10xxxxxx`. -/
def isContinuation (b : Nat) : Bool := 0x80 ≤ b && b < 0xC0

/-- Replace the escapes by the code points their octets encode in UTF-8;
`none` (a `URIError`) when the octets are not a valid encoding. -/
def decodeTokens : List UriToken → Option (List Char)
  | [] => some []
  | .lit c :: ts =>
    match decodeTokens ts with
    | some cs => some (c :: cs)
    | none => none
  | .octet b :: ts =>
    if b < 0x80 then
      match decodeTokens ts with
      | some cs => some (Char.ofNat b :: cs)
      | none => none
    else if 0xC0 ≤ b ∧ b < 0xE0 then
      match ts with
      | .octet c1 :: ts1 =>
        let v := (b % 0x20) * 0x40 + c1 % 0x40
        if isContinuation c1 ∧ 0x80 ≤ v then
          match decodeTokens ts1 with
          | some cs => some (Char.ofNat v :: cs)
          | none => none
        else none
      | _ => none
    else if 0xE0 ≤ b ∧ b < 0xF0 then
      match ts with
      | .octet c1 :: .octet c2 :: ts2 =>
        let v := (b % 0x10) * 0x1000 + (c1 % 0x40) * 0x40 + c2 % 0x40
        if isContinuation c1 ∧ isContinuation c2 ∧ 0x800 ≤ v ∧ ¬ (0xD800 ≤ v ∧ v < 0xE000) then
          match decodeTokens ts2 with
          | some cs => some (Char.ofNat v :: cs)
          | none => none
        else none
      | _ => none
    else if 0xF0 ≤ b ∧ b < 0xF8 then
      match ts with
      | .octet c1 :: .octet c2 :: .octet c3 :: ts3 =>
        let v := (b % 0x08) * 0x40000 + (c1 % 0x40) * 0x1000 + (c2 % 0x40) * 0x40 + c3 % 0x40
        if isContinuation c1 ∧ isContinuation c2 ∧ isContinuation c3
            ∧ 0x10000 ≤ v ∧ v < 0x110000 then
          match decodeTokens ts3 with
          | some cs => some (Char.ofNat v :: cs)
          | none => none
        else none
      | _ => none
    else none

/-- JavaScript's `decodeURIComponent(s)`; a `URIError` on a malformed escape sequence. -/
def decodeURIComponent (s : String) : Except JsError String :=
  match uriTokens s.data with
  | none => .error .uriError
  | some ts =>
    match decodeTokens ts with
    | some cs => .ok ⟨cs⟩
    | none => .error .uriError

/-- The function `i18n.setLocale(locale)`. -/
def setLocale (locale : String) : M Unit :=
  M.modify fun s => { s with locale := locale }

/-- The method `run()`, `search` being `location.search`. -/
def run (env : Env) (search : String) : M Unit := do
  let lang : Option String ←
    match matchLang search.data with
    | some capture =>
      if (JsVal.str capture).truthy then do
        let decoded ← M.lift (decodeURIComponent capture)
        pure (some (jsTrim decoded))
      else pure none
    | none => pure none
  if lang.any (fun l => l ∈ env.locales) then
    setLocale (lang.getD "")
    let _ ← _genTemplates env (some .root) "page" []
    M.modify fun s => { s with pageReady := s.root.any RootChild.isPage }
    let json := match env.jsonParse ((← M.read).storage.getD "null") with
      | some v => v
      | none => JsVal.undefined
    if json.truthy then
      _loadJson env json
    else
      _displayYaml env
  else
    M.forEach env.locales fun locale => do
      setLocale locale
      let _ ← _genTemplates env (some .root) "lang-button"
        [("locale", locale), ("langName", env.getText locale "langName")]

/-! ## The claims' own terms

Definitions that follow the wording of the specification, to compare with
the definitions above that follow the source.
-/

/-- The name contains at least one character that is not whitespace. -/
def nonBlank (name : String) : Bool := name.data.any fun c => !isJsWhitespace c

/-- The letters of the set flags, in the order c, r, u, d. -/
def flagLetters (create read update delete : Bool) : String :=
  ⟨([('c', create), ('r', read), ('u', update), ('d', delete)].filter (·.2)).map (·.1)⟩

/-- The hint of an entry as the specification words it: the letters of the
set flags in the order c, r, u, d, or `-` when no flag is set. -/
def specHint (create read update delete : Bool) : String :=
  if create = false ∧ read = false ∧ update = false ∧ delete = false then "-"
  else flagLetters create read update delete

/-- The four operations in their fixed order: the suffix of the function
name, the letter that starts the hint, the flag of the entry row. -/
def crudOps : List (String × String × (EntryRow → Bool)) :=
  [("Create", "c:", EntryRow.create), ("Read", "r:", EntryRow.read),
   ("Update", "u:", EntryRow.update), ("Delete", "d:", EntryRow.delete)]

/-- The functions an entry row gives rise to: one per set flag, in the
fixed order. -/
def specDerived (row : EntryRow) : List JsVal :=
  (crudOps.filter fun op => op.2.2 row).map fun op =>
    JsVal.obj [("Name", .str (row.name ++ op.1)), ("CallingType", .str row.dataFormat),
      ("Exposure", .str row.sharing), ("_", .str (op.2.1 ++ row.name))]

/-- The function a manual function row gives rise to: no hint. -/
def specManual (row : FunctionRow) : JsVal :=
  .obj [("Name", .str row.name), ("CallingType", .str row.callingType),
    ("Exposure", .str row.exposure)]

/-- The Functions of a zome as the specification words them: the derived
functions of the entry rows with a non-blank name, then the manual functions
with a non-blank name. -/
def specFunctions (parent : ZomeElem) : List JsVal :=
  ((parent.entryRows.filter fun r => nonBlank r.name).map specDerived).flatten
    ++ (parent.functionRows.filter fun r => nonBlank r.name).map specManual

/-- The own property `k` of an object; `undefined` when there is none. -/
def JsVal.prop (v : JsVal) (k : String) : JsVal :=
  match v with
  | .obj props => JsVal.lookup k props
  | _ => .undefined

/-- A zome block without its rows of blank name. -/
def dropBlankRows (parent : ZomeElem) : ZomeElem :=
  { parent with
    entryRows := parent.entryRows.filter fun r => nonBlank r.name
    functionRows := parent.functionRows.filter fun r => nonBlank r.name }

/-! ## Auxiliary notions for the statements about loading -/

/-- The test `v === undefined || v === null`: the values on which a member
expression throws. -/
def JsVal.isNullish : JsVal → Bool
  | .undefined => true
  | .null => true
  | _ => false

/-- What the document says of an entry row: its name, data format, sharing
and four flags. -/
def EntryRow.content (r : EntryRow) : String × String × String × Bool × Bool × Bool × Bool :=
  (r.name, r.dataFormat, r.sharing, r.create, r.read, r.update, r.delete)

/-- What the document says of a function row: its name, calling type and
exposure. -/
def FunctionRow.content (r : FunctionRow) : String × String × String :=
  (r.name, r.callingType, r.exposure)

/-- The content of the row that `_loadJsonEntries` fills for `entry`: the
three strings with their defaults, and the flags read off the hint when it
is a string (the controls keep what the template set otherwise). -/
def entryContentOf (env : Env) (entry : JsVal) :
    String × String × String × Bool × Bool × Bool × Bool :=
  (toValue env ((entry.prop "Name").orElse (.str "")),
   toValue env ((entry.prop "DataFormat").orElse (.str "json")),
   toValue env ((entry.prop "Sharing").orElse (.str "public")),
   match entry.prop "_" with
   | .str hint => (decide (jsIndexOf hint 'c' > -1), decide (jsIndexOf hint 'r' > -1),
       decide (jsIndexOf hint 'u' > -1), decide (jsIndexOf hint 'd' > -1))
   | _ => (env.entryCreate, env.entryRead, env.entryUpdate, env.entryDelete))

/-- The content of the row that `_loadJsonFunctions` fills for `func`. -/
def functionContentOf (env : Env) (func : JsVal) : String × String × String :=
  (toValue env (func.prop "Name"), toValue env (func.prop "CallingType"),
   toValue env (func.prop "Exposure"))

/-- The counter and the number of random draws after one `_genId()`. -/
def advanceId (env : Env) (p : JsNumber × Nat) : JsNumber × Nat :=
  (env.numAdd p.1 (env.random p.2), p.2 + 1)

/-- The counter and the number of random draws after `k` calls of `_genId()`. -/
def idAfter (env : Env) (p : JsNumber × Nat) : Nat → JsNumber × Nat
  | 0 => p
  | k + 1 => idAfter env (advanceId env p) k

/-- What the call number `k` (from zero) of `_genId()` returns, counted from
state `s`. -/
def genIdAt (env : Env) (s : QuickStart) (k : Nat) : String :=
  replaceDots (env.toString36 (idAfter env (s.nextTemplateId, s.randomCalls) k).1)

/-- The names of the templates instantiated while a document is loaded. -/
def templateNames : List String := ["zome", "zome-entry", "zome-function"]

/-- The identifiers of the next `n` template instances, whatever templates
of the form they are for, are pairwise different. -/
def DistinctIds (env : Env) (s : QuickStart) (n : Nat) : Prop :=
  ∀ j < n, ∀ i < j, ∀ a ∈ templateNames, ∀ b ∈ templateNames,
    a ++ "-" ++ genIdAt env s i ≠ b ++ "-" ++ genIdAt env s j

/-- Every node of the blocks and of their rows has a number below `n`. -/
def NodesBelow (n : Nat) (zs : List ZomeElem) : Prop :=
  ∀ e ∈ zs, e.node < n ∧ (∀ r ∈ e.entryRows, r.node < n) ∧ (∀ r ∈ e.functionRows, r.node < n)

/-- The zome block `zn` is the block of the template instance `zid`: the
page is in place, the instance is recorded with the zomes container as its
parent, `zn` is the first block of the document that carries `zid`, and
the nodes of the document are older than the next node. -/
structure Tracked (s : QuickStart) (zid : String) (zn : Nat) : Prop where
  page : s.pageReady = true
  recorded : ∃ t, lookupTemplate zid s.templates = some t ∧ t.parent = Parent.zomesDiv
  first : (s.zomes.find? fun e => e.tplId = zid).map (·.node) = some zn
  below : NodesBelow s.nextNode s.zomes

/-- State `s1` is state `s` after `k` template instantiations that left
the rest of the form, the storage and the page untouched. -/
structure Grown (env : Env) (s s1 : QuickStart) (k : Nat) : Prop where
  uuid : s1.uuid = s.uuid
  pageReady : s1.pageReady = s.pageReady
  root : s1.root = s.root
  appName : s1.appName = s.appName
  appDesc : s1.appDesc = s.appDesc
  yamlDisplay : s1.yamlDisplay = s.yamlDisplay
  locale : s1.locale = s.locale
  storage : s1.storage = s.storage
  reloads : s1.reloads = s.reloads
  nextNode : s1.nextNode = s.nextNode + k
  ids : (s1.nextTemplateId, s1.randomCalls) = idAfter env (s.nextTemplateId, s.randomCalls) k
  kept : ∀ id, (∀ i < k, ∀ a ∈ templateNames, a ++ "-" ++ genIdAt env s i ≠ id) →
    lookupTemplate id s1.templates = lookupTemplate id s.templates

/-- The block with `rows` appended to the body of its entries table. -/
def ZomeElem.pushEntries (rows : List EntryRow) (e : ZomeElem) : ZomeElem :=
  { e with entryRows := e.entryRows ++ rows }

/-- The block with `rows` appended to the body of its functions table. -/
def ZomeElem.pushFunctions (rows : List FunctionRow) (e : ZomeElem) : ZomeElem :=
  { e with functionRows := e.functionRows ++ rows }

/-- Whether `_loadJsonFunctions` gives the function a row: its hint does not
pass the test of the loop. -/
def loadsFunction (func : JsVal) : Bool := !skipsHint (func.prop "_")

/-- The items of an array; nothing for any other value. -/
def JsVal.items : JsVal → List JsVal
  | .arr xs => xs
  | _ => []

/-- A zome of a document whose Entries and Functions are arrays of values
other than `null`. -/
def WellShapedZome (zome : JsVal) : Prop :=
  zome.isNullish = false
    ∧ (∃ es, zome.prop "Entries" = .arr es ∧ ∀ e ∈ es, e.isNullish = false)
    ∧ (∃ fs, zome.prop "Functions" = .arr fs ∧ ∀ f ∈ fs, f.isNullish = false)

/-- Number of template instances that loading a zome creates: the block, a
row per entry, a row per function that is not passed over. -/
def zomeLoadCount (zome : JsVal) : Nat :=
  1 + (zome.prop "Entries").items.length
    + ((zome.prop "Functions").items.filter loadsFunction).length

/-- Number of template instances that loading a list of zomes creates. -/
def loadCount (zomes : List JsVal) : Nat := (zomes.map zomeLoadCount).sum

/-- What the document says of a zome block: its name, its description and
the contents of its rows. -/
def ZomeElem.content (b : ZomeElem) :
    String × String × List (String × String × String × Bool × Bool × Bool × Bool)
      × List (String × String × String) :=
  (b.zomename, b.zomedesc, b.entryRows.map EntryRow.content,
    b.functionRows.map FunctionRow.content)

/-- The content of the block that `_loadJson` builds for `zome`. -/
def zomeContentOf (env : Env) (zome : JsVal) :
    String × String × List (String × String × String × Bool × Bool × Bool × Bool)
      × List (String × String × String) :=
  (toValue env (zome.prop "Name"), toValue env (zome.prop "Description"),
    (zome.prop "Entries").items.map (entryContentOf env),
    ((zome.prop "Functions").items.filter loadsFunction).map (functionContentOf env))

/-! ## A concrete environment

`refEnv` gives the platform functions a definite value on the inputs the
examples below use: two locales, the parsers on a handful of texts, numbers
that are non-negative multiples of one half, `Math.random()` returning one
half at every call.
-/

/-- The state of an outcome. -/
def Res.state {α : Type} : Res α → QuickStart
  | .ok _ s => s
  | .threw _ s => s

/-- The error of an outcome; `none` for a normal completion. -/
def Res.thrown {α : Type} : Res α → Option JsError
  | .ok _ _ => none
  | .threw e _ => some e

/-- One digit in base 36. -/
def digit36 (d : Nat) : Char := if d < 10 then Char.ofNat (48 + d) else Char.ofNat (87 + d)

/-- The digits of `n` in base `b`, least significant first (`fuel` bounds
their number). -/
def digitsRev (b : Nat) : Nat → Nat → List Nat
  | 0, _ => []
  | fuel + 1, n => if n < b then [n] else (n % b) :: digitsRev b fuel (n / b)

/-- Position of the highest set bit of `t` (`fuel` bounds it). -/
def ilog2 : Nat → Nat → Nat
  | 0, _ => 0
  | fuel + 1, t => if t < 2 then 0 else 1 + ilog2 fuel (t / 2)

/-- Twice the value of a number that is a non-negative multiple of one half
(below `2^52`). -/
def doubled (n : JsNumber) : Nat :=
  let e := n.bits / 0x10000000000000
  let m := n.bits % 0x10000000000000
  if e = 0 then 0 else (0x10000000000000 + m) >>> (1074 - e)

/-- The number whose value is `t / 2`, for `t` below `2^53`. -/
def ofDoubled (t : Nat) : JsNumber :=
  if t = 0 then ⟨0⟩
  else
    let k := ilog2 64 t
    ⟨(1022 + k) * 0x10000000000000 + ((t <<< (52 - k)) - 0x10000000000000)⟩

/-- The number in base 36, for a non-negative multiple of one half. -/
def halfToString36 (n : JsNumber) : String :=
  let t := doubled n
  ⟨((digitsRev 36 64 (t / 2)).reverse.map digit36) ++ (if t % 2 = 1 then ['.', 'i'] else [])⟩

/-- The number in base 10, for a non-negative multiple of one half. -/
def halfToString (n : JsNumber) : String :=
  let t := doubled n
  ⟨((digitsRev 10 64 (t / 2)).reverse.map digit36) ++ (if t % 2 = 1 then ['.', '5'] else [])⟩

/-- A string between double quotes, `"` and `\` escaped. -/
def quoteString (s : String) : String :=
  ⟨['"'] ++ (s.data.map fun c => if c = '"' ∨ c = '\\' then ['\\', c] else [c]).flatten ++ ['"']⟩

mutual
/-- A serialization in the manner of `JSON.stringify`. -/
def stringify : JsVal → String
  | .undefined => "null"
  | .null => "null"
  | .bool b => if b then "true" else "false"
  | .num n => halfToString n
  | .str s => quoteString s
  | .arr items => "[" ++ stringifyItems items ++ "]"
  | .obj props => "\x7b" ++ stringifyProps props ++ "\x7d"
/-- The items of an array, separated by commas. -/
def stringifyItems : List JsVal → String
  | [] => ""
  | [x] => stringify x
  | x :: y :: rest => stringify x ++ "," ++ stringifyItems (y :: rest)
/-- The properties of an object, separated by commas. -/
def stringifyProps : List (String × JsVal) → String
  | [] => ""
  | [(k, v)] => quoteString k ++ ":" ++ stringify v
  | (k, v) :: p :: rest => quoteString k ++ ":" ++ stringify v ++ "," ++ stringifyProps (p :: rest)
end

/-- The concrete environment. -/
def refEnv : Env where
  locales := ["en", "ja"]
  getText := fun locale key =>
    if key = "langName" then (if locale = "ja" then "日本語" else "English") else key
  jsonParse := fun text =>
    if text = "null" then some .null
    else if text = "\x7b\x7d" then some (.obj [])
    else if text = "[]" then some (.arr [])
    else if text = "1e5" then some (.num ⟨0x40F86A0000000000⟩)
    else none
  yamlLoad := fun text =>
    if text = "null" then some .null
    else if text = "\x7b\x7d" then some (.obj [])
    else if text = "[]" then some (.arr [])
    else if text = "1e5" then some (.str "1e5")
    else if text = "a: b" then some (.obj [("a", .str "b")])
    else none
  jsonStringify := stringify
  toYaml := stringify
  random := fun _ => ⟨0x3FE0000000000000⟩
  numAdd := fun a b => ofDoubled (doubled a + doubled b)
  toString36 := halfToString36
  coerce := fun v =>
    match v with
    | .undefined => "undefined"
    | .null => ""
    | .bool b => if b then "true" else "false"
    | .num n => halfToString n
    | .str s => s
    | .arr _ => ""
    | .obj _ => "[object Object]"
  pageAppName := ""
  pageAppDesc := ""
  zomeName := ""
  zomeDesc := ""
  entryName := ""
  entryDataFormat := "json"
  entrySharing := "public"
  entryCreate := false
  entryRead := false
  entryUpdate := false
  entryDelete := false
  functionName := ""
  functionCallingType := "json"
  functionExposure := "public"

/-- A state right after the constructor: nothing rendered, nothing stored,
the counter at one half. -/
def bootState : QuickStart where
  nextTemplateId := ⟨0x3FE0000000000000⟩
  templates := []
  uuid := .str "3f2a9c1e-5b7d-4e80-9a6c-0d1f2e3a4b5c"
  pageReady := false
  root := []
  appName := ""
  appDesc := ""
  zomes := []
  detached := []
  yamlDisplay := ""
  locale := "en"
  storage := none
  reloads := 0
  randomCalls := 32
  nextNode := 0

instance (env : Env) (s : QuickStart) (n : Nat) : Decidable (DistinctIds env s n) := by
  unfold DistinctIds
  infer_instance

/-- Every item has a `Name` that is a string with a character that is not
whitespace. -/
def namesNonBlank (items : List JsVal) : Bool :=
  items.all fun x =>
    match x.prop "Name" with
    | .str n => nonBlank n
    | _ => false

/-- A document as the specification calls it well formed: its language is
`locale`, and every Entry and Function of every zome has a non-blank name. -/
def wellFormedDocument (locale : String) (doc : JsVal) : Bool :=
  (match (doc.prop "Properties").prop "language" with
    | .str l => decide (l = locale)
    | _ => false)
  && (doc.prop "Zomes").items.all fun zome =>
    namesNonBlank (zome.prop "Entries").items && namesNonBlank (zome.prop "Functions").items

/-- The empty form in the locale `en`: the state `run` reaches from
`bootState` on the query string `?lang=en`. -/
def emptyUi : QuickStart := (run refEnv "?lang=en" bootState).state

/-- A form holding what the fixture of the test suite describes: one zome,
one entry with its four flags set, one manual function. -/
def fixtureForm : QuickStart :=
  { emptyUi with
    uuid := .str "test-uuid"
    appName := "test-name"
    appDesc := "test-description"
    zomes := [ZomeElem.mk 1 "zome-1" "test-zome-name" "test-zome-description"
      [EntryRow.mk 2 "zome-entry-1-i" "test-entry" "json" "public" true true true true]
      [FunctionRow.mk 3 "zome-function-2" "test-function" "json" "public"]] }

/-- A well-formed document whose only entry has the create flag while its
zome lists no function. -/
def loneCreateDoc : JsVal :=
  .obj [("UUID", .str "test-uuid"), ("Name", .str "test-name"),
    ("Properties", .obj [("description", .str "test-description"), ("language", .str "en")]),
    ("Zomes", .arr [.obj [("Name", .str "test-zome-name"),
      ("Description", .str "test-zome-description"),
      ("Entries", .arr [.obj [("Name", .str "test-entry"), ("DataFormat", .str "json"),
        ("Sharing", .str "public"), ("_", .str "c")]]),
      ("Functions", .arr [])]])]

/-- The document the form gives back after `loneCreateDoc` was loaded: the
zome now lists the function derived from the create flag of its entry. -/
def loneCreateReloaded : JsVal :=
  .obj [("UUID", .str "test-uuid"), ("Name", .str "test-name"),
    ("Properties", .obj [("description", .str "test-description"), ("language", .str "en")]),
    ("Zomes", .arr [.obj [("Name", .str "test-zome-name"),
      ("Description", .str "test-zome-description"),
      ("Entries", .arr [.obj [("Name", .str "test-entry"), ("DataFormat", .str "json"),
        ("Sharing", .str "public"), ("_", .str "c")]]),
      ("Functions", .arr [.obj [("Name", .str "test-entryCreate"),
        ("CallingType", .str "json"), ("Exposure", .str "public"),
        ("_", .str "c:test-entry")]])]])]

instance (n : Nat) (zs : List ZomeElem) : Decidable (NodesBelow n zs) := by
  unfold NodesBelow
  infer_instance

/-- A hint of the form the specification gives for a derived function: one
of the letters c, r, u, d, then a colon, then a name. -/
def isCrudHint : JsVal → Bool
  | .str hint =>
    match hint.data with
    | letter :: ':' :: _ => letter == 'c' || letter == 'r' || letter == 'u' || letter == 'd'
    | _ => false
  | _ => false

/-- The form with one empty zome block: the state `$addZome` reaches from
the empty form. -/
def oneZomeUi : QuickStart := (addZome refEnv emptyUi).state

/-- A zome of a document with two functions: one whose hint `x:y` has no
operation letter, one without hint. -/
def oddHintZome : JsVal :=
  .obj [("Name", .str "z"), ("Description", .str ""), ("Entries", .arr []),
    ("Functions", .arr [
      .obj [("Name", .str "first"), ("CallingType", .str "json"), ("Exposure", .str "public"),
        ("_", .str "x:y")],
      .obj [("Name", .str "second"), ("CallingType", .str "json"),
        ("Exposure", .str "public")]])]

/-- The state right after the constructor with the text `{}` stored under
the save key. -/
def storedEmptyObject : QuickStart := { bootState with storage := some "\x7b\x7d" }

/-- The locale-selection view: one language button per locale, in the order
of the list, the first on node `n`. -/
def languageButtons (env : Env) : Nat → List String → List RootChild
  | _, [] => []
  | n, locale :: rest =>
    .langButton n locale (env.getText locale "langName") :: languageButtons env (n + 1) rest

/-! ## A scenario of the specification -/

/-- The user types `text` in the name control of the function row `node`. -/
def editFunctionName (node : Nat) (text : String) : M Unit :=
  updateFunctionRow node fun r => { r with name := text }

/-- The entry of template instance `entryId` is removed with its delete
button, a function row is added to the zome of template instance `zomeId`
with the add button, the user names the new row `foo`, and the display is
rendered again. -/
def removeEntryThenAddFoo (env : Env) (entryId zomeId : String) : M Unit := do
  deleteZomeEntry env entryId
  let node := (← M.read).nextNode
  addZomeFunction env zomeId
  editFunctionName node "foo"
  _displayYaml env

/-- The form with one zome block holding one entry row named `post` with
the create and delete flags set: reached from the one-zome form with the
add-entry button and the user's input. -/
def oneEntryUi : QuickStart :=
  (M.andThen (addZomeEntry refEnv "zome-1")
    (fun _ => updateEntryRow 2 fun r =>
      { r with name := "post", create := true, delete := true }) oneZomeUi).state

/-! ## Template instantiation, node by node

The methods `_genId` and `_genTemplates` once more, this time over the
document as a tree of nodes, so that the two loops which move what a
template rendered into its parent can be followed node by node. The
collections `childNodes` and `rows` are live: they are read again from the
tree each time the source reads them.
-/

/-- A DOM node: its identity, its `nodeName` (upper case for an element,
`#text` for a text node) and its child nodes in document order. -/
inductive Node where
  | mk (id : Nat) (nodeName : String) (childNodes : List Node)

namespace Node

/-- The identity of a node. -/
def id : Node → Nat
  | mk i _ _ => i

/-- The property `nodeName`. -/
def nodeName : Node → String
  | mk _ nm _ => nm

/-- The property `childNodes`. -/
def childNodes : Node → List Node
  | mk _ _ cs => cs

/-- The node with `cs` as its child nodes. -/
def withChildNodes (n : Node) (cs : List Node) : Node := mk n.id n.nodeName cs

/-- The call `n.appendChild(c)`, `c` having no parent. -/
def appendChild (n c : Node) : Node := n.withChildNodes (n.childNodes ++ [c])

/-- The `tr` children of a node. -/
def trChildren (n : Node) : List Node := n.childNodes.filter fun c => c.nodeName = "TR"

end Node

/-- The rows of the children named `tag` (`THEAD` or `TFOOT`) of a table
with child nodes `cs`. -/
def sectionRows (tag : String) (cs : List Node) : List Node :=
  (cs.filter fun c => c.nodeName = tag).flatMap Node.trChildren

/-- The rows of a table with child nodes `cs` that are its own children or
children of its `TBODY` children, in tree order. -/
def bodyRows (cs : List Node) : List Node :=
  cs.flatMap fun c =>
    if c.nodeName = "TR" then [c] else if c.nodeName = "TBODY" then c.trChildren else []

/-- The collection `table.rows` of a table with child nodes `cs`: the rows
of its `THEAD` children, then those of the table itself and of its `TBODY`
children, then those of its `TFOOT` children. -/
def rows (cs : List Node) : List Node :=
  sectionRows "THEAD" cs ++ bodyRows cs ++ sectionRows "TFOOT" cs

/-- A list of nodes without its first `tr`. -/
def dropFirstTr : List Node → List Node
  | [] => []
  | c :: cs => if c.nodeName = "TR" then cs else c :: dropFirstTr cs

/-- The child nodes `cs` of a table after the first row found in a child
named `tag` has been removed from that child. -/
def deleteSectionRow (tag : String) : List Node → List Node
  | [] => []
  | c :: cs =>
    if c.nodeName = tag && !c.trChildren.isEmpty then
      c.withChildNodes (dropFirstTr c.childNodes) :: cs
    else c :: deleteSectionRow tag cs

/-- The child nodes `cs` of a table after the first of its own rows or of
the rows of its `TBODY` children has been removed from its parent. -/
def deleteBodyRow : List Node → List Node
  | [] => []
  | c :: cs =>
    if c.nodeName = "TR" then cs
    else if c.nodeName = "TBODY" && !c.trChildren.isEmpty then
      c.withChildNodes (dropFirstTr c.childNodes) :: cs
    else c :: deleteBodyRow cs

/-- The call `table.deleteRow(0)` on a table with child nodes `cs` that has
a row: the first node of `table.rows` is removed from its parent. -/
def deleteRow0 (cs : List Node) : List Node :=
  if !(sectionRows "THEAD" cs).isEmpty then deleteSectionRow "THEAD" cs
  else if !(bodyRows cs).isEmpty then deleteBodyRow cs
  else deleteSectionRow "TFOOT" cs

mutual
/-- The call `n.querySelector('tbody').appendChild(r)`: `r` becomes the last
child of the first descendant of `n`, in tree order, that is named `TBODY`;
`none` when `n` has no such descendant and `querySelector` returns `null`. -/
def Node.appendToBody : Node → Node → Option Node
  | .mk i nm cs, r => (appendToBodyIn cs r).map (Node.mk i nm)
/-- The same among the nodes `cs` and their descendants. -/
def appendToBodyIn : List Node → Node → Option (List Node)
  | [], _ => none
  | c :: cs, r =>
    if c.nodeName = "TBODY" then some (c.appendChild r :: cs)
    else
      match Node.appendToBody c r with
      | some c1 => some (c1 :: cs)
      | none => (appendToBodyIn cs r).map (c :: ·)
end
/-- The object `template` that `_genTemplates` builds and records: its
identifier, the identity of the parent node, the nodes pushed to `elems` and
the data copied into it. -/
structure Instance where
  id : String
  parent : Nat
  elems : List Node
  data : List (String × String)

/-- The fields of the `QuickStart` object that template instantiation uses. -/
structure Session where
  /-- The field `this.nextTemplateId`. -/
  nextTemplateId : JsNumber
  /-- Number of `Math.random()` calls so far. -/
  randomCalls : Nat
  /-- The field `this.templates`, latest assignment first. -/
  templates : List (String × Instance)

/-- What a template renders, as the child nodes the scratch element `d` has
after `d.innerHTML = handlebars.templates[name](template)`: a function of
whether `d` is a `table`, of the template name, and of the identifier and
the data of the `template` object. -/
abbrev Rendering : Type := Bool → String → String → List (String × String) → List Node

namespace Nodes

/-- The method `_genId()`. -/
def _genId (env : Env) (s : Session) : String × Session :=
  let out := replaceDots (env.toString36 s.nextTemplateId)
  (out, { s with
    nextTemplateId := env.numAdd s.nextTemplateId (env.random s.randomCalls)
    randomCalls := s.randomCalls + 1 })

/-- The loop `while (d.rows.length) { ... }` of `_genTemplates`, on the child
nodes `d` of the scratch table: the first row of `d.rows` is deleted from
the scratch table, pushed to `elems` and appended to the first `tbody` below
the parent, a `TypeError` when there is none. The first argument bounds the
number of rounds. -/
def moveRows : Nat → List Node → List Node → Node → Except JsError (List Node × List Node × Node)
  | 0, d, elems, parent => .ok (d, elems, parent)
  | fuel + 1, d, elems, parent =>
    match rows d with
    | [] => .ok (d, elems, parent)
    | r :: _ =>
      match parent.appendToBody r with
      | none => .error .typeError
      | some parent1 => moveRows fuel (deleteRow0 d) (elems ++ [r]) parent1

/-- The loop `for (let c of d.childNodes) { ... }` of `_genTemplates`, on the
child nodes `d` of the scratch element. The iterator keeps an index into the
live list: each round reads the length of the list and the node at the
index, then the body removes that node from `d` (it is the child at the
index), pushes it to `elems` and appends it to the parent, and the index
moves on by one. -/
def moveChildNodes (index : Nat) (d elems : List Node) (parent : Node) :
    List Node × List Node × Node :=
  if h : index < d.length then
    let c := d[index]
    moveChildNodes (index + 1) (d.eraseIdx index) (elems ++ [c]) (parent.appendChild c)
  else (d, elems, parent)
termination_by d.length - index
decreasing_by
  rw [List.length_eraseIdx, if_pos h]
  omega

/-- The method `_genTemplates(parent, name, data)` for a parent that is an
element. The result is the recorded `template`, the parent as it is after
the call, and the object's fields. The call `_recBind(d)` only adds event
listeners and leaves every node where it is. -/
def _genTemplates (env : Env) (rendering : Rendering) (parent : Node) (name : String)
    (data : List (String × String)) (s : Session) : Except JsError (Instance × Node × Session) :=
  let (out, s1) := _genId env s
  let id := name ++ "-" ++ out
  if parent.nodeName = "TABLE" then
    let d := rendering true name id data
    match moveRows (rows d).length d [] parent with
    | .error e => .error e
    | .ok (_, elems, parent1) =>
      let template : Instance := { id := id, parent := parent.id, elems := elems, data := data }
      .ok (template, parent1, { s1 with templates := (id, template) :: s1.templates })
  else
    let d := rendering false name id data
    let (_, elems, parent1) := moveChildNodes 0 d [] parent
    let template : Instance := { id := id, parent := parent.id, elems := elems, data := data }
    .ok (template, parent1, { s1 with templates := (id, template) :: s1.templates })

end Nodes

/-- The value of `this.templates[id]` in a session; `none` for `undefined`. -/
def Session.lookup (id : String) (s : Session) : Option Instance :=
  (s.templates.find? fun kt => kt.1 = id).map (·.2)

/-- Every other item of a list, from the first on. -/
def everyOther {α : Type} : List α → List α
  | [] => []
  | [x] => [x]
  | x :: _ :: rest => x :: everyOther rest

mutual
/-- The value of `n.querySelector('tbody')`; `none` for `null`. -/
def Node.body? : Node → Option Node
  | .mk _ _ cs => bodyIn? cs
/-- The first node named `TBODY` among `cs` and their descendants, in tree
order. -/
def bodyIn? : List Node → Option Node
  | [] => none
  | c :: cs =>
    if c.nodeName = "TBODY" then some c
    else
      match Node.body? c with
      | some b => some b
      | none => bodyIn? cs
end
/-- A session right after the constructor, the counter at one half. -/
def bootSession : Session where
  nextTemplateId := ⟨0x3FE0000000000000⟩
  randomCalls := 1
  templates := []

/-- An empty `div` in the document, as the container of the zome blocks is
before the first zome is added. -/
def emptyContainer : Node := .mk 1 "DIV" []

/-- The first of two sibling blocks a template renders. -/
def firstBlock : Node := .mk 2 "DIV" [.mk 3 "#text" []]

/-- The second of two sibling blocks a template renders. -/
def secondBlock : Node := .mk 4 "DIV" [.mk 5 "#text" []]

/-- A template set in which every template renders two sibling blocks, as
from the text `<div>a</div><div>b</div>`. -/
def twoBlocks : Rendering := fun _ _ _ _ => [firstBlock, secondBlock]

/-! ## The identifiers of a session -/

/-- The names of the templates the source instantiates. -/
def sourceTemplateNames : List String :=
  ["page", "lang-button", "menu", "about", "zome", "zome-entry", "zome-function"]

/-- The identifiers that successive instantiations of the templates `names`
get, from state `s` on: each is `name + '-' + this._genId()`, and `_genId`
alone changes the counter. -/
def assignedIds (env : Env) : List String → QuickStart → List String
  | [], _ => []
  | name :: rest, s =>
    match _genId env s with
    | .ok out s1 => (name ++ "-" ++ out) :: assignedIds env rest s1
    | .threw _ _ => []

/-- The counter `this.nextTemplateId` after `k` calls of `_genId()` from
state `s`. -/
def counterAt (env : Env) (s : QuickStart) (k : Nat) : JsNumber :=
  (idAfter env (s.nextTemplateId, s.randomCalls) k).1

/-- The concrete environment with a random source that returns 0 at every
call. -/
def zeroRandomEnv : Env := { refEnv with random := fun _ => ⟨0⟩ }

/-- The state right after the constructor when `Math.random()` has returned
0 at every call: the counter is 0 and the UUID is made of the digits that 0
selects. -/
def zeroBoot : QuickStart :=
  { bootState with
    nextTemplateId := ⟨0⟩
    uuid := .str "00000000-0000-4000-8000-000000000000" }

/-! # Theorems -/

/-! ## Blank names -/

theorem utf16Units_pos (c : Char) : 0 < utf16Units c := by
  unfold utf16Units; split <;> decide

theorem jsLength_eq_zero_iff (s : String) : jsLength s = 0 ↔ s.data = [] := by
  unfold jsLength
  cases h : s.data with
  | nil => simp
  | cons c cs =>
    have := utf16Units_pos c
    simp only [List.map_cons, List.sum_cons, reduceCtorEq, iff_false]
    omega

theorem dropWhile_reverse_dropWhile_eq_nil_iff {α : Type} (p : α → Bool) (l : List α) :
    (l.dropWhile p).reverse.dropWhile p = [] ↔ ∀ x ∈ l, p x = true := by
  rw [List.dropWhile_eq_nil_iff]
  constructor
  · intro h
    rw [← List.dropWhile_eq_nil_iff]
    cases hd : l.dropWhile p with
    | nil => rfl
    | cons a t =>
      have hne : l.dropWhile p ≠ [] := by simp [hd]
      have h1 := List.head_dropWhile_not p l hne
      have h2 : p a = true := h a (by simp [hd])
      simp [hd] at h1
      simp [h1] at h2
  · intro h x hx
    have hx1 : x ∈ l.dropWhile p := List.mem_reverse.mp hx
    exact h x ((List.dropWhile_sublist p).subset hx1)

/-- The source's test for a blank name holds exactly of the names made of
whitespace only. -/
theorem blankName_eq_not_nonBlank (name : String) : blankName name = !nonBlank name := by
  have h1 : blankName name = true ↔ ∀ c ∈ name.data, isJsWhitespace c = true := by
    unfold blankName
    rw [beq_iff_eq, jsLength_eq_zero_iff]
    unfold jsTrim
    simp only [List.reverse_eq_nil_iff]
    exact dropWhile_reverse_dropWhile_eq_nil_iff _ _
  have h2 : nonBlank name = true ↔ ∃ c ∈ name.data, isJsWhitespace c = false := by
    unfold nonBlank; simp
  cases hn : nonBlank name
  · have : ∀ c ∈ name.data, isJsWhitespace c = true := by
      intro c hc
      cases hw : isJsWhitespace c
      · have := h2.mpr ⟨c, hc, hw⟩
        simp [hn] at this
      · rfl
    simpa using h1.mpr this
  · obtain ⟨c, hc, hw⟩ := h2.mp hn
    cases hb : blankName name
    · rfl
    · have := h1.mp hb c hc
      simp [hw] at this

/-! ## The loops of the generation functions -/

theorem foldl_push {α β : Type} (f : List β → α → List β) (g : α → List β)
    (hf : ∀ data x, f data x = data ++ g x) (l : List α) (init : List β) :
    l.foldl f init = init ++ (l.map g).flatten := by
  induction l generalizing init with
  | nil => simp
  | cons x xs ih => simp [List.foldl_cons, ih, hf, List.append_assoc]

theorem flatten_map_ite_filter {α β : Type} (p : α → Bool) (g : α → List β) (l : List α) :
    (l.map fun x => if p x then g x else []).flatten = ((l.filter p).map g).flatten := by
  induction l with
  | nil => rfl
  | cons x xs ih =>
    cases h : p x <;> simp [List.filter_cons, h, ih]

theorem flatten_map_singleton {α β : Type} (g : α → β) (l : List α) :
    (l.map fun x => [g x]).flatten = l.map g := by
  induction l with
  | nil => rfl
  | cons x xs ih => simp [ih]

theorem truthy_str_append_of_ne (a b : String) (h : a.data ≠ []) :
    (JsVal.str (a ++ b)).truthy = true := by
  simp only [JsVal.truthy, decide_eq_true_eq, ne_eq, jsLength_eq_zero_iff, String.data_append,
    List.append_eq_nil, not_and]
  intro h1
  exact absurd h1 h

/-- The hint the source accumulates letter by letter. -/
theorem sourceHint_eq_specHint (c r u d : Bool) :
    (let hint := ""
     let hint := if c then hint ++ "c" else hint
     let hint := if r then hint ++ "r" else hint
     let hint := if u then hint ++ "u" else hint
     let hint := if d then hint ++ "d" else hint
     if jsLength hint == 0 then "-" else hint) = specHint c r u d := by
  cases c <;> cases r <;> cases u <;> cases d <;> decide

/-- The entry loop keeps the rows of non-blank name, in order, and writes
one object for each. -/
theorem genZomeEntryJson_eq_map (parent : ZomeElem) :
    _genZomeEntryJson parent =
      (parent.entryRows.filter fun r => nonBlank r.name).map fun row =>
        JsVal.obj [("Name", .str row.name), ("DataFormat", .str row.dataFormat),
          ("Sharing", .str row.sharing),
          ("_", .str (specHint row.create row.read row.update row.delete))] := by
  unfold _genZomeEntryJson
  rw [foldl_push _ (fun row => if nonBlank row.name then
      [JsVal.obj [("Name", .str row.name), ("DataFormat", .str row.dataFormat),
          ("Sharing", .str row.sharing),
          ("_", .str (specHint row.create row.read row.update row.delete))]] else [])]
  · rw [flatten_map_ite_filter (fun r : EntryRow => nonBlank r.name)
      (fun row => [JsVal.obj [("Name", .str row.name), ("DataFormat", .str row.dataFormat),
          ("Sharing", .str row.sharing),
          ("_", .str (specHint row.create row.read row.update row.delete))]])]
    simp [flatten_map_singleton]
  · intro data row
    simp only [blankName_eq_not_nonBlank]
    cases hn : nonBlank row.name
    · simp
    · have hs := sourceHint_eq_specHint row.create row.read row.update row.delete
      simp only [Bool.not_true, Bool.false_eq_true, if_false, if_true]
      exact congrArg (fun h => data ++ [JsVal.obj [("Name", .str row.name),
        ("DataFormat", .str row.dataFormat), ("Sharing", .str row.sharing), ("_", .str h)]]) hs

/-- One pass of the entry loop of `_genZomeFunctionJson` appends the derived
functions of the row. -/
theorem derivedStep_eq (data : List JsVal) (row : EntryRow) :
    (let name := row.name
     if blankName name then data
     else
      let data := if row.create then
        addFunction data (name ++ "Create") row.dataFormat row.sharing (some ("c:" ++ name))
        else data
      let data := if row.read then
        addFunction data (name ++ "Read") row.dataFormat row.sharing (some ("r:" ++ name))
        else data
      let data := if row.update then
        addFunction data (name ++ "Update") row.dataFormat row.sharing (some ("u:" ++ name))
        else data
      let data := if row.delete then
        addFunction data (name ++ "Delete") row.dataFormat row.sharing (some ("d:" ++ name))
        else data
      data) = data ++ (if nonBlank row.name then specDerived row else []) := by
  have hc := truthy_str_append_of_ne "c:" row.name (by decide)
  have hr := truthy_str_append_of_ne "r:" row.name (by decide)
  have hu := truthy_str_append_of_ne "u:" row.name (by decide)
  have hd := truthy_str_append_of_ne "d:" row.name (by decide)
  simp only [blankName_eq_not_nonBlank]
  cases hn : nonBlank row.name
  · simp
  · obtain ⟨node, tplId, name, df, sh, c, r, u, d⟩ := row
    simp only at hc hr hu hd
    cases c <;> cases r <;> cases u <;> cases d <;>
      simp [addFunction, hc, hr, hu, hd, specDerived, crudOps, List.filter]

/-- The function loops: derived functions of the rows of non-blank name,
then manual functions of the rows of non-blank name. -/
theorem genZomeFunctionJson_eq_spec (parent : ZomeElem) :
    _genZomeFunctionJson parent = specFunctions parent := by
  unfold _genZomeFunctionJson specFunctions
  simp only
  rw [foldl_push _ (fun row : FunctionRow => if nonBlank row.name then [specManual row] else [])]
  · rw [foldl_push _ (fun row : EntryRow => if nonBlank row.name then specDerived row else [])]
    · rw [flatten_map_ite_filter (fun r : EntryRow => nonBlank r.name) specDerived,
        flatten_map_ite_filter (fun r : FunctionRow => nonBlank r.name) (fun r => [specManual r])]
      simp [flatten_map_singleton]
    · intro data row
      exact derivedStep_eq data row
  · intro data row
    simp only [blankName_eq_not_nonBlank]
    cases hn : nonBlank row.name
    · simp
    · simp [addFunction, specManual]

theorem genZomesJson_eq_map (zomes : List ZomeElem) :
    _genZomesJson zomes = zomes.map fun zome =>
      JsVal.obj [("Name", .str zome.zomename), ("Description", .str zome.zomedesc),
        ("Entries", .arr (_genZomeEntryJson zome)),
        ("Functions", .arr (_genZomeFunctionJson zome))] := by
  unfold _genZomesJson
  rw [foldl_push _ (fun zome => [JsVal.obj [("Name", .str zome.zomename),
        ("Description", .str zome.zomedesc),
        ("Entries", .arr (_genZomeEntryJson zome)),
        ("Functions", .arr (_genZomeFunctionJson zome))]])]
  · simp [flatten_map_singleton]
  · intro data zome
    rfl

/-! ## Generated Entries and Functions (C2, C3, C4) -/

theorem nonBlank_append_left (a b : String) (h : nonBlank a = true) :
    nonBlank (a ++ b) = true := by
  unfold nonBlank at *
  rw [String.data_append, List.any_append, h]
  rfl

theorem specDerived_length_le (row : EntryRow) : (specDerived row).length ≤ 4 := by
  unfold specDerived
  rw [List.length_map]
  exact (List.length_filter_le _ _).trans (by simp [crudOps])

theorem specDerived_hint (row : EntryRow) :
    ∀ f ∈ specDerived row, ∃ h, f.prop "_" = JsVal.str h := by
  intro f hf
  unfold specDerived at hf
  obtain ⟨op, _, rfl⟩ := List.mem_map.mp hf
  exact ⟨op.2.1 ++ row.name, by simp [JsVal.prop, JsVal.lookup]⟩

theorem specDerived_name (row : EntryRow) (hn : nonBlank row.name = true) :
    ∀ f ∈ specDerived row, ∃ n, f.prop "Name" = JsVal.str n ∧ nonBlank n = true := by
  intro f hf
  unfold specDerived at hf
  obtain ⟨op, _, rfl⟩ := List.mem_map.mp hf
  exact ⟨row.name ++ op.1, by simp [JsVal.prop, JsVal.lookup], nonBlank_append_left _ _ hn⟩

/-- C2: the Functions of a zome block are exactly, for each entry row of
non-blank name in row order, one function per set flag in the order create,
read, update, delete (named after the entry with the suffix Create, Read,
Update, Delete, with hint `c:`, `r:`, `u:`, `d:` and the entry name, calling
type the entry's data format, exposure the entry's sharing), followed by one
function without hint per manual function row of non-blank name in row
order. An entry gives at most four derived functions, every derived function
has a hint and stands before every manual function, and an entry with the
create flag gives `<EntryName>Create` with hint `c:<EntryName>` in the
derived part. -/
theorem genZomeFunctionJson_derived_then_manual (parent : ZomeElem) :
    _genZomeFunctionJson parent =
        ((parent.entryRows.filter fun r => nonBlank r.name).map specDerived).flatten
          ++ (parent.functionRows.filter fun r => nonBlank r.name).map specManual
      ∧ (∀ row : EntryRow, (specDerived row).length ≤ 4
          ∧ specDerived row =
            (if row.create then [JsVal.obj [("Name", .str (row.name ++ "Create")),
                ("CallingType", .str row.dataFormat), ("Exposure", .str row.sharing),
                ("_", .str ("c:" ++ row.name))]] else [])
            ++ (if row.read then [JsVal.obj [("Name", .str (row.name ++ "Read")),
                ("CallingType", .str row.dataFormat), ("Exposure", .str row.sharing),
                ("_", .str ("r:" ++ row.name))]] else [])
            ++ (if row.update then [JsVal.obj [("Name", .str (row.name ++ "Update")),
                ("CallingType", .str row.dataFormat), ("Exposure", .str row.sharing),
                ("_", .str ("u:" ++ row.name))]] else [])
            ++ (if row.delete then [JsVal.obj [("Name", .str (row.name ++ "Delete")),
                ("CallingType", .str row.dataFormat), ("Exposure", .str row.sharing),
                ("_", .str ("d:" ++ row.name))]] else []))
      ∧ (∀ f ∈ ((parent.entryRows.filter fun r => nonBlank r.name).map specDerived).flatten,
          ∃ h, f.prop "_" = JsVal.str h)
      ∧ (∀ f ∈ (parent.functionRows.filter fun r => nonBlank r.name).map specManual,
          f.prop "_" = JsVal.undefined)
      ∧ (∀ row ∈ parent.entryRows, nonBlank row.name = true → row.create = true →
          JsVal.obj [("Name", .str (row.name ++ "Create")),
            ("CallingType", .str row.dataFormat), ("Exposure", .str row.sharing),
            ("_", .str ("c:" ++ row.name))]
          ∈ ((parent.entryRows.filter fun r => nonBlank r.name).map specDerived).flatten) := by
  have hshape : ∀ row : EntryRow, specDerived row =
            (if row.create then [JsVal.obj [("Name", .str (row.name ++ "Create")),
                ("CallingType", .str row.dataFormat), ("Exposure", .str row.sharing),
                ("_", .str ("c:" ++ row.name))]] else [])
            ++ (if row.read then [JsVal.obj [("Name", .str (row.name ++ "Read")),
                ("CallingType", .str row.dataFormat), ("Exposure", .str row.sharing),
                ("_", .str ("r:" ++ row.name))]] else [])
            ++ (if row.update then [JsVal.obj [("Name", .str (row.name ++ "Update")),
                ("CallingType", .str row.dataFormat), ("Exposure", .str row.sharing),
                ("_", .str ("u:" ++ row.name))]] else [])
            ++ (if row.delete then [JsVal.obj [("Name", .str (row.name ++ "Delete")),
                ("CallingType", .str row.dataFormat), ("Exposure", .str row.sharing),
                ("_", .str ("d:" ++ row.name))]] else []) := by
    intro row
    obtain ⟨node, tplId, name, df, sh, c, r, u, d⟩ := row
    cases c <;> cases r <;> cases u <;> cases d <;>
      simp [specDerived, crudOps, List.filter]
  refine ⟨genZomeFunctionJson_eq_spec parent, fun row => ⟨specDerived_length_le row, hshape row⟩,
    ?_, ?_, ?_⟩
  · intro f hf
    obtain ⟨l, hl, hfl⟩ := List.mem_flatten.mp hf
    obtain ⟨row, _, rfl⟩ := List.mem_map.mp hl
    exact specDerived_hint row f hfl
  · intro f hf
    obtain ⟨row, _, rfl⟩ := List.mem_map.mp hf
    simp [specManual, JsVal.prop, JsVal.lookup]
  · intro row hrow hn hc
    refine List.mem_flatten.mpr ⟨specDerived row, ?_, ?_⟩
    · exact List.mem_map.mpr ⟨row, List.mem_filter.mpr ⟨hrow, by simpa using hn⟩, rfl⟩
    · rw [hshape row, hc]
      simp

/-- C3: for every zome block and whatever the four flags of a row are, the
`_` fields of the Entries that `_genZomeEntryJson` writes are, for the entry
rows of non-blank name in row order, the letters of the set flags in the
order c, r, u, d, and `-` when no flag is set. -/
theorem genZomeEntryJson_hint (parent : ZomeElem) :
    (_genZomeEntryJson parent).map (fun e => e.prop "_") =
        (parent.entryRows.filter fun r => nonBlank r.name).map (fun row =>
          JsVal.str (specHint row.create row.read row.update row.delete))
      ∧ (∀ c r u d : Bool, specHint c r u d =
          if c = false ∧ r = false ∧ u = false ∧ d = false then "-"
          else (if c then "c" else "") ++ (if r then "r" else "")
            ++ (if u then "u" else "") ++ (if d then "d" else "")) := by
  constructor
  · rw [genZomeEntryJson_eq_map, List.map_map]
    apply List.map_congr_left
    intro row _
    simp [JsVal.prop, JsVal.lookup]
  · intro c r u d
    cases c <;> cases r <;> cases u <;> cases d <;> decide

/-- C4: in the Zomes that `_genZomesJson` writes, every Entry and every
Function has a name with a character that is not whitespace; the rows of
blank name contribute nothing (the Entries and the Functions of a block are
those of the block without these rows), and every row of non-blank name is
kept, in order. -/
theorem genZomesJson_names_nonBlank (zomes : List ZomeElem) :
    _genZomesJson zomes = zomes.map (fun zome =>
        JsVal.obj [("Name", .str zome.zomename), ("Description", .str zome.zomedesc),
          ("Entries", .arr (_genZomeEntryJson zome)),
          ("Functions", .arr (_genZomeFunctionJson zome))])
      ∧ ∀ zome : ZomeElem,
        (∀ e ∈ _genZomeEntryJson zome, ∃ n, e.prop "Name" = JsVal.str n ∧ nonBlank n = true)
        ∧ (∀ f ∈ _genZomeFunctionJson zome,
            ∃ n, f.prop "Name" = JsVal.str n ∧ nonBlank n = true)
        ∧ _genZomeEntryJson zome = _genZomeEntryJson (dropBlankRows zome)
        ∧ _genZomeFunctionJson zome = _genZomeFunctionJson (dropBlankRows zome)
        ∧ (_genZomeEntryJson zome).map (fun e => e.prop "Name") =
            (zome.entryRows.filter fun r => nonBlank r.name).map (fun r => JsVal.str r.name)
        ∧ (∀ row ∈ zome.entryRows, nonBlank row.name = true →
            ∀ f ∈ specDerived row, f ∈ _genZomeFunctionJson zome)
        ∧ (∀ row ∈ zome.functionRows, nonBlank row.name = true →
            specManual row ∈ _genZomeFunctionJson zome) := by
  refine ⟨genZomesJson_eq_map zomes, fun zome => ⟨?_, ?_, ?_, ?_, ?_, ?_, ?_⟩⟩
  · intro e he
    rw [genZomeEntryJson_eq_map] at he
    obtain ⟨row, hrow, rfl⟩ := List.mem_map.mp he
    exact ⟨row.name, by simp [JsVal.prop, JsVal.lookup], (List.mem_filter.mp hrow).2⟩
  · intro f hf
    rw [genZomeFunctionJson_eq_spec] at hf
    rcases List.mem_append.mp hf with h | h
    · obtain ⟨l, hl, hfl⟩ := List.mem_flatten.mp h
      obtain ⟨row, hrow, rfl⟩ := List.mem_map.mp hl
      exact specDerived_name row (List.mem_filter.mp hrow).2 f hfl
    · obtain ⟨row, hrow, rfl⟩ := List.mem_map.mp h
      exact ⟨row.name, by simp [specManual, JsVal.prop, JsVal.lookup],
        (List.mem_filter.mp hrow).2⟩
  · simp [genZomeEntryJson_eq_map, dropBlankRows, List.filter_filter]
  · simp [genZomeFunctionJson_eq_spec, specFunctions, dropBlankRows, List.filter_filter]
  · rw [genZomeEntryJson_eq_map, List.map_map]
    apply List.map_congr_left
    intro row _
    simp [JsVal.prop, JsVal.lookup]
  · intro row hrow hn f hf
    rw [genZomeFunctionJson_eq_spec]
    refine List.mem_append.mpr (Or.inl (List.mem_flatten.mpr ⟨specDerived row, ?_, hf⟩))
    exact List.mem_map.mpr ⟨row, List.mem_filter.mpr ⟨hrow, by simpa using hn⟩, rfl⟩
  · intro row hrow hn
    rw [genZomeFunctionJson_eq_spec]
    refine List.mem_append.mpr (Or.inr ?_)
    exact List.mem_map.mpr ⟨row, List.mem_filter.mpr ⟨hrow, by simpa using hn⟩, rfl⟩

/-! ## Running the methods: basic rules -/

namespace M

@[simp] theorem bind_apply {α β : Type} (m : M α) (f : α → M β) (s : QuickStart) :
    (m >>= f) s = match m s with
      | .ok a s1 => f a s1
      | .threw e s1 => .threw e s1 := rfl

@[simp] theorem andThen_apply {α β : Type} (m : M α) (f : α → M β) (s : QuickStart) :
    andThen m f s = match m s with
      | .ok a s1 => f a s1
      | .threw e s1 => .threw e s1 := rfl

@[simp] theorem pure_apply {α : Type} (a : α) (s : QuickStart) :
    (pure a : M α) s = .ok a s := rfl

@[simp] theorem ret_apply {α : Type} (a : α) (s : QuickStart) : (ret a : M α) s = .ok a s := rfl

@[simp] theorem raise_apply {α : Type} (e : JsError) (s : QuickStart) :
    (raise e : M α) s = .threw e s := rfl

@[simp] theorem read_apply (s : QuickStart) : read s = .ok s s := rfl

@[simp] theorem modify_apply (f : QuickStart → QuickStart) (s : QuickStart) :
    modify f s = .ok () (f s) := rfl

@[simp] theorem lift_ok {α : Type} (a : α) (s : QuickStart) :
    lift (.ok a) s = .ok a s := rfl

@[simp] theorem lift_error {α : Type} (e : JsError) (s : QuickStart) :
    (lift (.error e) : M α) s = .threw e s := rfl

@[simp] theorem forEach_nil {α : Type} (body : α → M Unit) (s : QuickStart) :
    forEach [] body s = .ok () s := rfl

theorem forEach_cons {α : Type} (x : α) (xs : List α) (body : α → M Unit) (s : QuickStart) :
    forEach (x :: xs) body s = match body x s with
      | .ok _ s1 => forEach xs body s1
      | .threw e s1 => .threw e s1 := by
  simp only [forEach, andThen]
  cases body x s <;> rfl

end M

theorem getProp_of_not_nullish (v : JsVal) (k : String) (h : v.isNullish = false) :
    v.getProp k = .ok (v.prop k) := by
  cases v <;> simp_all [JsVal.getProp, JsVal.prop, JsVal.isNullish]

/-! ## Blocks and rows -/

theorem mapZome_mapZome (z : Nat) (f g : ZomeElem → ZomeElem) (zs : List ZomeElem)
    (hf : ∀ e, (f e).node = e.node) :
    mapZome z g (mapZome z f zs) = mapZome z (fun e => g (f e)) zs := by
  unfold mapZome
  rw [List.map_map]
  apply List.map_congr_left
  intro e _
  by_cases h : e.node = z
  · simp [h, hf]
  · simp [h]

theorem mapZome_id (z : Nat) (f : ZomeElem → ZomeElem) (zs : List ZomeElem)
    (h : ∀ e, f e = e) : mapZome z f zs = zs := by
  unfold mapZome
  conv_rhs => rw [← List.map_id zs]
  apply List.map_congr_left
  intro e _
  by_cases hz : e.node = z <;> simp [hz, h]

theorem mapZome_congr (z : Nat) (f g : ZomeElem → ZomeElem) (zs : List ZomeElem)
    (h : ∀ e ∈ zs, e.node = z → f e = g e) : mapZome z f zs = mapZome z g zs := by
  unfold mapZome
  apply List.map_congr_left
  intro e he
  by_cases hz : e.node = z
  · simp [hz, h e he hz]
  · simp [hz]

theorem find_mapZome (z : Nat) (f : ZomeElem → ZomeElem) (zs : List ZomeElem) (id : String)
    (hn : ∀ e, (f e).node = e.node) (ht : ∀ e, (f e).tplId = e.tplId) :
    ((mapZome z f zs).find? fun e => e.tplId = id).map (·.node)
      = (zs.find? fun e => e.tplId = id).map (·.node) := by
  induction zs with
  | nil => rfl
  | cons e es ih =>
    have hcons : mapZome z f (e :: es) = (if e.node = z then f e else e) :: mapZome z f es := rfl
    rw [hcons, List.find?_cons, List.find?_cons]
    by_cases hz : e.node = z
    · simp only [hz, if_true, ht]
      by_cases hid : e.tplId = id
      · simp [hid, hn, hz]
      · simpa [hid] using ih
    · simp only [hz, if_false]
      by_cases hid : e.tplId = id
      · simp [hid]
      · simpa [hid] using ih

theorem exists_node_of_first {zs : List ZomeElem} {id : String} {zn : Nat}
    (h : (zs.find? fun e => e.tplId = id).map (·.node) = some zn) :
    ∃ e ∈ zs, e.node = zn := by
  cases hf : zs.find? fun e => e.tplId = id with
  | none => simp [hf] at h
  | some e =>
    rw [hf] at h
    exact ⟨e, List.mem_of_find?_eq_some hf, by simpa using h⟩

theorem any_entry_pushEntry (zs : List ZomeElem) (zn n : Nat) (row : EntryRow)
    (hex : ∃ e ∈ zs, e.node = zn) (hrow : row.node = n) :
    (mapZome zn (ZomeElem.pushEntry row) zs).any
      (fun e => e.entryRows.any (fun r => r.node = n)) = true := by
  obtain ⟨e, he, hz⟩ := hex
  rw [List.any_eq_true]
  refine ⟨ZomeElem.pushEntry row e, ?_, ?_⟩
  · unfold mapZome
    exact List.mem_map.mpr ⟨e, he, by simp [hz]⟩
  · simp [ZomeElem.pushEntry, hrow]

theorem any_function_pushFunction (zs : List ZomeElem) (zn n : Nat) (row : FunctionRow)
    (hex : ∃ e ∈ zs, e.node = zn) (hrow : row.node = n) :
    (mapZome zn (ZomeElem.pushFunction row) zs).any
      (fun e => e.functionRows.any (fun r => r.node = n)) = true := by
  obtain ⟨e, he, hz⟩ := hex
  rw [List.any_eq_true]
  refine ⟨ZomeElem.pushFunction row e, ?_, ?_⟩
  · unfold mapZome
    exact List.mem_map.mpr ⟨e, he, by simp [hz]⟩
  · simp [ZomeElem.pushFunction, hrow]

theorem mapEntryRow_pushEntry (zs : List ZomeElem) (zn n : Nat) (row : EntryRow)
    (f : EntryRow → EntryRow) (hb : NodesBelow n zs) (hrow : row.node = n) :
    mapEntryRow n f (mapZome zn (ZomeElem.pushEntry row) zs)
      = mapZome zn (ZomeElem.pushEntry (f row)) zs := by
  unfold mapEntryRow mapZome
  rw [List.map_map]
  apply List.map_congr_left
  intro e he
  have hrows : e.entryRows.map (fun r => if r.node = n then f r else r) = e.entryRows := by
    conv_rhs => rw [← List.map_id e.entryRows]
    apply List.map_congr_left
    intro r hr
    have := (hb e he).2.1 r hr
    simp [Nat.ne_of_lt this]
  by_cases hz : e.node = zn
  · simp [hz, ZomeElem.pushEntry, hrows, hrow]
  · simp [hz, hrows]

theorem mapFunctionRow_pushFunction (zs : List ZomeElem) (zn n : Nat) (row : FunctionRow)
    (f : FunctionRow → FunctionRow) (hb : NodesBelow n zs) (hrow : row.node = n) :
    mapFunctionRow n f (mapZome zn (ZomeElem.pushFunction row) zs)
      = mapZome zn (ZomeElem.pushFunction (f row)) zs := by
  unfold mapFunctionRow mapZome
  rw [List.map_map]
  apply List.map_congr_left
  intro e he
  have hrows : e.functionRows.map (fun r => if r.node = n then f r else r)
      = e.functionRows := by
    conv_rhs => rw [← List.map_id e.functionRows]
    apply List.map_congr_left
    intro r hr
    have := (hb e he).2.2 r hr
    simp [Nat.ne_of_lt this]
  by_cases hz : e.node = zn
  · simp [hz, ZomeElem.pushFunction, hrows, hrow]
  · simp [hz, hrows]

theorem nodesBelow_pushEntry (zs : List ZomeElem) (zn n : Nat) (row : EntryRow)
    (hb : NodesBelow n zs) (hrow : row.node = n) :
    NodesBelow (n + 1) (mapZome zn (ZomeElem.pushEntry row) zs) := by
  intro e he
  unfold mapZome at he
  obtain ⟨e0, he0, rfl⟩ := List.mem_map.mp he
  obtain ⟨h1, h2, h3⟩ := hb e0 he0
  by_cases hz : e0.node = zn
  · simp only [hz, if_true, ZomeElem.pushEntry]
    refine ⟨by omega, ?_, fun r hr => by have := h3 r hr; omega⟩
    intro r hr
    rcases List.mem_append.mp hr with h | h
    · have := h2 r h; omega
    · simp at h; subst h; omega
  · simp only [hz, if_false]
    exact ⟨by omega, fun r hr => by have := h2 r hr; omega,
      fun r hr => by have := h3 r hr; omega⟩

theorem nodesBelow_pushFunction (zs : List ZomeElem) (zn n : Nat) (row : FunctionRow)
    (hb : NodesBelow n zs) (hrow : row.node = n) :
    NodesBelow (n + 1) (mapZome zn (ZomeElem.pushFunction row) zs) := by
  intro e he
  unfold mapZome at he
  obtain ⟨e0, he0, rfl⟩ := List.mem_map.mp he
  obtain ⟨h1, h2, h3⟩ := hb e0 he0
  by_cases hz : e0.node = zn
  · simp only [hz, if_true, ZomeElem.pushFunction]
    refine ⟨by omega, fun r hr => by have := h2 r hr; omega, ?_⟩
    intro r hr
    rcases List.mem_append.mp hr with h | h
    · have := h3 r h; omega
    · simp at h; subst h; omega
  · simp only [hz, if_false]
    exact ⟨by omega, fun r hr => by have := h2 r hr; omega,
      fun r hr => by have := h3 r hr; omega⟩

/-! ## Loading rows into a tracked block -/

theorem lookupTemplate_cons_ne (id k : String) (t : Template) (ts : List (String × Template))
    (h : k ≠ id) : lookupTemplate id ((k, t) :: ts) = lookupTemplate id ts := by
  simp [lookupTemplate, h]

theorem find_pushEntry (zn : Nat) (row : EntryRow) (zs : List ZomeElem) (id : String) :
    ((mapZome zn (ZomeElem.pushEntry row) zs).find? fun e => e.tplId = id).map (·.node)
      = (zs.find? fun e => e.tplId = id).map (·.node) :=
  find_mapZome zn (ZomeElem.pushEntry row) zs id (fun _ => rfl) (fun _ => rfl)

theorem find_pushFunction (zn : Nat) (row : FunctionRow) (zs : List ZomeElem) (id : String) :
    ((mapZome zn (ZomeElem.pushFunction row) zs).find? fun e => e.tplId = id).map (·.node)
      = (zs.find? fun e => e.tplId = id).map (·.node) :=
  find_mapZome zn (ZomeElem.pushFunction row) zs id (fun _ => rfl) (fun _ => rfl)

theorem genIdAt_zero (env : Env) (s : QuickStart) :
    genIdAt env s 0 = replaceDots (env.toString36 s.nextTemplateId) := rfl

theorem idAfter_add (env : Env) (p : JsNumber × Nat) (k m : Nat) :
    idAfter env p (k + m) = idAfter env (idAfter env p k) m := by
  induction k generalizing p with
  | zero => simp [idAfter]
  | succ k ih =>
    have : k + 1 + m = (k + m) + 1 := by omega
    rw [this]
    simp only [idAfter]
    exact ih _

theorem Grown.genIdAt_eq {env : Env} {s s1 : QuickStart} {k : Nat} (h : Grown env s s1 k)
    (i : Nat) : genIdAt env s1 i = genIdAt env s (k + i) := by
  unfold genIdAt
  rw [h.ids, idAfter_add]

theorem Grown.refl (env : Env) (s : QuickStart) : Grown env s s 0 :=
  ⟨rfl, rfl, rfl, rfl, rfl, rfl, rfl, rfl, rfl, rfl, rfl, fun _ _ => rfl⟩

theorem Grown.trans {env : Env} {s s1 s2 : QuickStart} {k m : Nat}
    (h1 : Grown env s s1 k) (h2 : Grown env s1 s2 m) : Grown env s s2 (k + m) := by
  refine ⟨h2.uuid.trans h1.uuid, h2.pageReady.trans h1.pageReady, h2.root.trans h1.root,
    h2.appName.trans h1.appName, h2.appDesc.trans h1.appDesc,
    h2.yamlDisplay.trans h1.yamlDisplay, h2.locale.trans h1.locale,
    h2.storage.trans h1.storage, h2.reloads.trans h1.reloads, ?_, ?_, ?_⟩
  · rw [h2.nextNode, h1.nextNode]; omega
  · rw [h2.ids, h1.ids, idAfter_add]
  · intro id hid
    rw [h2.kept id, h1.kept id]
    · intro i hi a ha
      exact hid i (by omega) a ha
    · intro i hi a ha
      rw [h1.genIdAt_eq]
      exact hid (k + i) (by omega) a ha

theorem loadJsonEntry_ok (env : Env) (s : QuickStart) (zid : String) (zn : Nat) (entry : JsVal)
    (ht : Tracked s zid zn) (hne : entry.isNullish = false)
    (hfresh : "zome-entry" ++ "-" ++ genIdAt env s 0 ≠ zid) :
    ∃ s1 row, loadJsonEntry env zid entry s = .ok () s1
      ∧ s1.zomes = mapZome zn (ZomeElem.pushEntry row) s.zomes
      ∧ row.content = entryContentOf env entry
      ∧ Grown env s s1 1
      ∧ Tracked s1 zid zn := by
  obtain ⟨t, hlook, hpar⟩ := ht.recorded
  have hex := exists_node_of_first ht.first
  have hfind : findZome s .zomesDiv zid = some zn := ht.first
  have hb := ht.below
  have hpage := ht.page
  have hfirst := ht.first
  rw [genIdAt_zero] at hfresh
  have hfresh1 : "zome-entry-" ++ replaceDots (env.toString36 s.nextTemplateId) ≠ zid := hfresh
  cases hhint : entry.prop "_" <;>
  · simp [loadJsonEntry, _addZomeEntry, hlook, hpar, hfind, _genTemplates, _genId, renderInto,
      firstElem, updateEntryRow, getProp_of_not_nullish _ _ hne, hhint,
      any_entry_pushEntry _ _ _ _ hex, mapEntryRow_pushEntry _ _ _ _ _ hb]
    refine ⟨_, rfl, ?_, ?_, ?_⟩
    · simp [EntryRow.content, entryContentOf, hhint]
    · refine ⟨rfl, rfl, rfl, rfl, rfl, rfl, rfl, rfl, rfl, rfl, rfl, ?_⟩
      intro id hid
      have h0 := hid 0 (by omega) "zome-entry" (by simp [templateNames])
      rw [genIdAt_zero] at h0
      exact lookupTemplate_cons_ne _ _ _ _ h0
    · refine ⟨hpage, ⟨t, ?_, hpar⟩, ?_, ?_⟩
      · simp only [lookupTemplate_cons_ne _ _ _ _ hfresh1, hlook]
      · exact (find_pushEntry _ _ _ _).trans hfirst
      · exact nodesBelow_pushEntry _ _ _ _ hb rfl

theorem loadJsonFunction_skip (env : Env) (s : QuickStart) (zid : String) (func : JsVal)
    (hne : func.isNullish = false) (hskip : skipsHint (func.prop "_") = true) :
    loadJsonFunction env zid func s = .ok () s := by
  simp [loadJsonFunction, getProp_of_not_nullish _ _ hne, hskip]

theorem loadJsonFunction_ok (env : Env) (s : QuickStart) (zid : String) (zn : Nat) (func : JsVal)
    (ht : Tracked s zid zn) (hne : func.isNullish = false)
    (hskip : skipsHint (func.prop "_") = false)
    (hfresh : "zome-function" ++ "-" ++ genIdAt env s 0 ≠ zid) :
    ∃ s1 row, loadJsonFunction env zid func s = .ok () s1
      ∧ s1.zomes = mapZome zn (ZomeElem.pushFunction row) s.zomes
      ∧ row.content = functionContentOf env func
      ∧ Grown env s s1 1
      ∧ Tracked s1 zid zn := by
  obtain ⟨t, hlook, hpar⟩ := ht.recorded
  have hex := exists_node_of_first ht.first
  have hfind : findZome s .zomesDiv zid = some zn := ht.first
  have hb := ht.below
  have hpage := ht.page
  have hfirst := ht.first
  rw [genIdAt_zero] at hfresh
  have hfresh1 : "zome-function-" ++ replaceDots (env.toString36 s.nextTemplateId) ≠ zid := hfresh
  simp [loadJsonFunction, _addZomeFunction, hlook, hpar, hfind, _genTemplates, _genId,
    renderInto, firstElem, updateFunctionRow, getProp_of_not_nullish _ _ hne, hskip,
    any_function_pushFunction _ _ _ _ hex, mapFunctionRow_pushFunction _ _ _ _ _ hb]
  refine ⟨_, rfl, ?_, ?_, ?_⟩
  · simp [FunctionRow.content, functionContentOf]
  · refine ⟨rfl, rfl, rfl, rfl, rfl, rfl, rfl, rfl, rfl, rfl, rfl, ?_⟩
    intro id hid
    have h0 := hid 0 (by omega) "zome-function" (by simp [templateNames])
    rw [genIdAt_zero] at h0
    exact lookupTemplate_cons_ne _ _ _ _ h0
  · refine ⟨hpage, ⟨t, ?_, hpar⟩, ?_, ?_⟩
    · simp only [lookupTemplate_cons_ne _ _ _ _ hfresh1, hlook]
    · exact (find_pushFunction _ _ _ _).trans hfirst
    · exact nodesBelow_pushFunction _ _ _ _ hb rfl

theorem loadEntries_ok (env : Env) (zid : String) (zn : Nat) (entries : List JsVal) :
    ∀ s : QuickStart, Tracked s zid zn → (∀ e ∈ entries, e.isNullish = false) →
      (∀ i < entries.length, "zome-entry" ++ "-" ++ genIdAt env s i ≠ zid) →
      ∃ s1 rows, M.forEach entries (loadJsonEntry env zid) s = .ok () s1
        ∧ s1.zomes = mapZome zn (ZomeElem.pushEntries rows) s.zomes
        ∧ rows.map EntryRow.content = entries.map (entryContentOf env)
        ∧ Grown env s s1 entries.length
        ∧ Tracked s1 zid zn := by
  induction entries with
  | nil =>
    intro s ht _ _
    refine ⟨s, [], rfl, ?_, rfl, Grown.refl env s, ht⟩
    exact (mapZome_id zn _ s.zomes (fun e => by cases e; simp [ZomeElem.pushEntries])).symm
  | cons entry rest ih =>
    intro s ht hne hfresh
    obtain ⟨s1, row, hrun, hz, hc, hg, ht1⟩ := loadJsonEntry_ok env s zid zn entry ht
      (hne entry (List.mem_cons_self _ _)) (hfresh 0 (by simp))
    obtain ⟨s2, rows, hrun2, hz2, hc2, hg2, ht2⟩ := ih s1 ht1
      (fun e he => hne e (List.mem_cons_of_mem _ he))
      (fun i hi => by
        rw [hg.genIdAt_eq]
        exact hfresh (1 + i) (by simp only [List.length_cons]; omega))
    refine ⟨s2, row :: rows, ?_, ?_, ?_, ?_, ht2⟩
    · rw [M.forEach_cons, hrun]
      exact hrun2
    · rw [hz2, hz, mapZome_mapZome zn (ZomeElem.pushEntry row)
        (ZomeElem.pushEntries rows) _ (fun _ => rfl)]
      apply mapZome_congr
      intro e _ _
      simp [ZomeElem.pushEntries, ZomeElem.pushEntry]
    · simp [hc, hc2]
    · have := hg.trans hg2
      simpa [Nat.add_comm] using this

theorem loadFunctions_ok (env : Env) (zid : String) (zn : Nat) (functions : List JsVal) :
    ∀ s : QuickStart, Tracked s zid zn → (∀ f ∈ functions, f.isNullish = false) →
      (∀ i < (functions.filter loadsFunction).length,
        "zome-function" ++ "-" ++ genIdAt env s i ≠ zid) →
      ∃ s1 rows, M.forEach functions (loadJsonFunction env zid) s = .ok () s1
        ∧ s1.zomes = mapZome zn (ZomeElem.pushFunctions rows) s.zomes
        ∧ rows.map FunctionRow.content
            = (functions.filter loadsFunction).map (functionContentOf env)
        ∧ Grown env s s1 (functions.filter loadsFunction).length
        ∧ Tracked s1 zid zn := by
  induction functions with
  | nil =>
    intro s ht _ _
    refine ⟨s, [], rfl, ?_, rfl, Grown.refl env s, ht⟩
    exact (mapZome_id zn _ s.zomes (fun e => by cases e; simp [ZomeElem.pushFunctions])).symm
  | cons func rest ih =>
    intro s ht hne hfresh
    have hne0 := hne func (List.mem_cons_self _ _)
    cases hskip : skipsHint (func.prop "_") with
    | true =>
      have hl : loadsFunction func = false := by simp [loadsFunction, hskip]
      have hfilter : (func :: rest).filter loadsFunction = rest.filter loadsFunction := by
        simp [List.filter_cons, hl]
      rw [hfilter] at hfresh ⊢
      obtain ⟨s2, rows, hrun2, hz2, hc2, hg2, ht2⟩ := ih s ht
        (fun e he => hne e (List.mem_cons_of_mem _ he)) hfresh
      refine ⟨s2, rows, ?_, hz2, hc2, hg2, ht2⟩
      rw [M.forEach_cons, loadJsonFunction_skip env s zid func hne0 hskip]
      exact hrun2
    | false =>
      have hl : loadsFunction func = true := by simp [loadsFunction, hskip]
      have hfilter : (func :: rest).filter loadsFunction
          = func :: rest.filter loadsFunction := by
        simp [List.filter_cons, hl]
      rw [hfilter] at hfresh ⊢
      obtain ⟨s1, row, hrun, hz, hc, hg, ht1⟩ := loadJsonFunction_ok env s zid zn func ht
        hne0 hskip (hfresh 0 (by simp))
      obtain ⟨s2, rows, hrun2, hz2, hc2, hg2, ht2⟩ := ih s1 ht1
        (fun e he => hne e (List.mem_cons_of_mem _ he))
        (fun i hi => by
          rw [hg.genIdAt_eq]
          exact hfresh (1 + i) (by simp only [List.length_cons]; omega))
      refine ⟨s2, row :: rows, ?_, ?_, ?_, ?_, ht2⟩
      · rw [M.forEach_cons, hrun]
        exact hrun2
      · rw [hz2, hz, mapZome_mapZome zn (ZomeElem.pushFunction row)
          (ZomeElem.pushFunctions rows) _ (fun _ => rfl)]
        apply mapZome_congr
        intro e _ _
        simp [ZomeElem.pushFunctions, ZomeElem.pushFunction]
      · simp [hc, hc2]
      · have := hg.trans hg2
        simpa [Nat.add_comm] using this

/-! ## Loading a zome -/

theorem lookupTemplate_cons_self (k : String) (t : Template) (ts : List (String × Template)) :
    lookupTemplate k ((k, t) :: ts) = some t := by
  simp [lookupTemplate]

theorem mapZome_append_new (n : Nat) (f : ZomeElem → ZomeElem) (zs : List ZomeElem)
    (b : ZomeElem) (hb : NodesBelow n zs) (hn : b.node = n) :
    mapZome n f (zs ++ [b]) = zs ++ [f b] := by
  unfold mapZome
  rw [List.map_append]
  congr 1
  · conv_rhs => rw [← List.map_id zs]
    apply List.map_congr_left
    intro e he
    have := (hb e he).1
    simp [Nat.ne_of_lt this]
  · simp [hn]

theorem find_append_new (zs : List ZomeElem) (b : ZomeElem) (id : String)
    (hold : ∀ e ∈ zs, e.tplId ≠ id) (hid : b.tplId = id) :
    ((zs ++ [b]).find? fun e => e.tplId = id).map (·.node) = some b.node := by
  rw [List.find?_append]
  have : zs.find? (fun e => decide (e.tplId = id)) = none := by
    rw [List.find?_eq_none]
    intro e he
    simpa using hold e he
  simp [this, hid]

theorem nodesBelow_append_new (n : Nat) (zs : List ZomeElem) (b : ZomeElem)
    (hb : NodesBelow n zs) (hn : b.node = n) (he : b.entryRows = [])
    (hf : b.functionRows = []) : NodesBelow (n + 1) (zs ++ [b]) := by
  intro e hmem
  rcases List.mem_append.mp hmem with h | h
  · obtain ⟨h1, h2, h3⟩ := hb e h
    exact ⟨by omega, fun r hr => by have := h2 r hr; omega,
      fun r hr => by have := h3 r hr; omega⟩
  · simp at h
    subst h
    simp [hn, he, hf]

theorem loadJsonZome_ok (env : Env) (s : QuickStart) (zome : JsVal) (es fs : List JsVal)
    (hpage : s.pageReady = true) (hb : NodesBelow s.nextNode s.zomes)
    (hz : zome.isNullish = false)
    (hes : zome.prop "Entries" = .arr es) (hfs : zome.prop "Functions" = .arr fs)
    (hesn : ∀ e ∈ es, e.isNullish = false) (hfsn : ∀ f ∈ fs, f.isNullish = false)
    (hold : ∀ e ∈ s.zomes, e.tplId ≠ "zome" ++ "-" ++ genIdAt env s 0)
    (hfresh : ∀ i, 0 < i → i < 1 + es.length + (fs.filter loadsFunction).length →
      ∀ a ∈ templateNames, a ++ "-" ++ genIdAt env s i ≠ "zome" ++ "-" ++ genIdAt env s 0) :
    ∃ s1 b, loadJsonZome env zome s = .ok () s1
      ∧ s1.zomes = s.zomes ++ [b]
      ∧ b.tplId = "zome" ++ "-" ++ genIdAt env s 0
      ∧ b.zomename = toValue env (zome.prop "Name")
      ∧ b.zomedesc = toValue env (zome.prop "Description")
      ∧ b.entryRows.map EntryRow.content = es.map (entryContentOf env)
      ∧ b.functionRows.map FunctionRow.content
          = (fs.filter loadsFunction).map (functionContentOf env)
      ∧ Grown env s s1 (1 + es.length + (fs.filter loadsFunction).length)
      ∧ NodesBelow s1.nextNode s1.zomes := by
  have hzid : "zome" ++ "-" ++ genIdAt env s 0
      = "zome-" ++ replaceDots (env.toString36 s.nextTemplateId) := rfl
  rw [hzid] at hold
  simp only [hzid] at hfresh ⊢
  simp [loadJsonZome, zomesDivRef, hpage, _genTemplates, _genId, renderInto, firstElem,
    updateZome, getProp_of_not_nullish _ _ hz, _loadJsonEntries, _loadJsonFunctions, hes, hfs,
    JsVal.iterate, mapZome_append_new _ _ _ _ hb]
  generalize hsA : QuickStart.mk _ _ _ _ _ _ _ _ _ _ _ _ _ _ _ = sA
  have hgA : Grown env s sA 1 := by
    rw [← hsA]
    refine ⟨rfl, hpage.symm, rfl, rfl, rfl, rfl, rfl, rfl, rfl, rfl, rfl, ?_⟩
    intro id hid
    have h0 := hid 0 (by omega) "zome" (by simp [templateNames])
    rw [genIdAt_zero] at h0
    exact lookupTemplate_cons_ne _ _ _ _ h0
  have hTA : Tracked sA ("zome-" ++ replaceDots (env.toString36 s.nextTemplateId))
      s.nextNode := by
    rw [← hsA]
    refine ⟨rfl, ⟨_, lookupTemplate_cons_self _ _ _, rfl⟩, ?_, ?_⟩
    · exact find_append_new _ _ _ hold rfl
    · exact nodesBelow_append_new _ _ _ hb rfl rfl rfl
  have hzA : sA.zomes = s.zomes ++ [ZomeElem.mk s.nextNode
      ("zome-" ++ replaceDots (env.toString36 s.nextTemplateId))
      (toValue env (zome.prop "Name")) (toValue env (zome.prop "Description")) [] []] := by
    rw [← hsA]
  obtain ⟨sB, rows, hrunB, hzB, hcB, hgB, hTB⟩ := loadEntries_ok env _ s.nextNode es sA hTA hesn
    (fun i hi => by
      rw [hgA.genIdAt_eq]
      exact hfresh (1 + i) (by omega) (by omega) "zome-entry" (by simp [templateNames]))
  obtain ⟨sC, frows, hrunC, hzC, hcC, hgC, hTC⟩ := loadFunctions_ok env _ s.nextNode fs sB hTB
    hfsn (fun i hi => by
      rw [hgB.genIdAt_eq, hgA.genIdAt_eq]
      exact hfresh (1 + (es.length + i)) (by omega) (by omega) "zome-function"
        (by simp [templateNames]))
  refine ⟨sC, ?_, ?_⟩
  · rw [hrunB]
    exact hrunC
  · refine ⟨ZomeElem.mk s.nextNode ("zome-" ++ replaceDots (env.toString36 s.nextTemplateId))
      (toValue env (zome.prop "Name")) (toValue env (zome.prop "Description")) rows frows,
      ?_, rfl, rfl, rfl, hcB, hcC, ?_, hTC.below⟩
    · rw [hzC, hzB, hzA, mapZome_append_new _ _ _ _ hb rfl, mapZome_append_new _ _ _ _ hb rfl]
      simp [ZomeElem.pushEntries, ZomeElem.pushFunctions]
    · have := (hgA.trans hgB).trans hgC
      simpa [Nat.add_assoc] using this

theorem DistinctIds.symm_zero {env : Env} {s : QuickStart} {n : Nat} (h : DistinctIds env s n)
    (i : Nat) (h0 : 0 < i) (hi : i < n) (a : String) (ha : a ∈ templateNames) :
    a ++ "-" ++ genIdAt env s i ≠ "zome" ++ "-" ++ genIdAt env s 0 :=
  fun heq => h i hi 0 h0 "zome" (by simp [templateNames]) a ha heq.symm

theorem loadZomes_ok (env : Env) (zomes : List JsVal) :
    ∀ s : QuickStart, s.pageReady = true → NodesBelow s.nextNode s.zomes →
      (∀ z ∈ zomes, WellShapedZome z) →
      (∀ e ∈ s.zomes, ∀ i < loadCount zomes, e.tplId ≠ "zome" ++ "-" ++ genIdAt env s i) →
      DistinctIds env s (loadCount zomes) →
      ∃ s1, M.forEach zomes (loadJsonZome env) s = .ok () s1
        ∧ s1.zomes.map ZomeElem.content
            = s.zomes.map ZomeElem.content ++ zomes.map (zomeContentOf env)
        ∧ Grown env s s1 (loadCount zomes)
        ∧ NodesBelow s1.nextNode s1.zomes := by
  induction zomes with
  | nil =>
    intro s _ hb _ _ _
    exact ⟨s, rfl, by simp, Grown.refl env s, hb⟩
  | cons zome rest ih =>
    intro s hpage hb hshape hold hdist
    obtain ⟨hz, ⟨es, hes, hesn⟩, ⟨fs, hfs, hfsn⟩⟩ := hshape zome (List.mem_cons_self _ _)
    have hcount : loadCount (zome :: rest)
        = (1 + es.length + (fs.filter loadsFunction).length) + loadCount rest := by
      simp [loadCount, zomeLoadCount, hes, hfs, JsVal.items]
    rw [hcount] at hold hdist ⊢
    obtain ⟨s1, b, hrun, hzs, hid, hname, hdesc, hec, hfc, hg, hb1⟩ :=
      loadJsonZome_ok env s zome es fs hpage hb hz hes hfs hesn hfsn
        (fun e he => hold e he 0 (by omega))
        (fun i h0 hi a ha => hdist.symm_zero i h0 (by omega) a ha)
    obtain ⟨s2, hrun2, hc2, hg2, hb2⟩ := ih s1 (hg.pageReady.trans hpage) hb1
      (fun z hz => hshape z (List.mem_cons_of_mem _ hz))
      (fun e he i hi => by
        rw [hg.genIdAt_eq]
        rw [hzs] at he
        rcases List.mem_append.mp he with h | h
        · exact hold e h _ (by omega)
        · simp at h
          subst h
          rw [hid]
          exact hdist _ (by omega) 0 (by omega) "zome" (by simp [templateNames]) "zome"
            (by simp [templateNames]))
      (fun j hj i hi a ha b hb => by
        rw [hg.genIdAt_eq, hg.genIdAt_eq]
        exact hdist _ (by omega) _ (by omega) a ha b hb)
    refine ⟨s2, ?_, ?_, hg.trans hg2, hb2⟩
    · rw [M.forEach_cons, hrun]
      exact hrun2
    · rw [hc2, hzs]
      simp [ZomeElem.content, zomeContentOf, hname, hdesc, hec, hfc, hes, hfs, JsVal.items]

/-! ## Loading a document -/

theorem not_nullish_of_truthy (v : JsVal) (h : v.truthy = true) : v.isNullish = false := by
  cases v <;> simp_all [JsVal.truthy, JsVal.isNullish]

theorem displayYaml_ok (env : Env) (s : QuickStart) (hpage : s.pageReady = true) :
    _displayYaml env s = .ok ()
      { s with storage := some (env.jsonStringify (documentOf s))
               yamlDisplay := env.toYaml (documentOf s) } := by
  simp [_displayYaml, _genYaml, requirePage, hpage]

theorem documentOf_congr (s s1 : QuickStart) (h1 : s1.uuid = s.uuid)
    (h2 : s1.appName = s.appName) (h3 : s1.appDesc = s.appDesc) (h4 : s1.locale = s.locale)
    (h5 : s1.zomes = s.zomes) : documentOf s1 = documentOf s := by
  simp [documentOf, h1, h2, h3, h4, h5]

theorem loadJson_tail (env : Env) (s : QuickStart) (zomes : List JsVal)
    (hpage : s.pageReady = true) (hb : NodesBelow s.nextNode s.zomes)
    (hshape : ∀ z ∈ zomes, WellShapedZome z)
    (hold : ∀ e ∈ s.zomes, ∀ i < loadCount zomes, e.tplId ≠ "zome" ++ "-" ++ genIdAt env s i)
    (hdist : DistinctIds env s (loadCount zomes)) :
    ∃ s1, (M.forEach zomes (loadJsonZome env) >>= fun _ => _displayYaml env) s = .ok () s1
      ∧ s1.uuid = s.uuid ∧ s1.appName = s.appName ∧ s1.appDesc = s.appDesc
      ∧ s1.locale = s.locale
      ∧ s1.zomes.map ZomeElem.content
          = s.zomes.map ZomeElem.content ++ zomes.map (zomeContentOf env)
      ∧ s1.storage = some (env.jsonStringify (documentOf s1))
      ∧ s1.yamlDisplay = env.toYaml (documentOf s1) := by
  obtain ⟨s2, hrun, hc, hg, _⟩ := loadZomes_ok env zomes s hpage hb hshape hold hdist
  rw [M.bind_apply, hrun]
  simp only
  rw [displayYaml_ok env s2 (hg.pageReady.trans hpage)]
  refine ⟨_, rfl, hg.uuid, hg.appName, hg.appDesc, hg.locale, hc, ?_, ?_⟩
  · exact congrArg (fun d => some (env.jsonStringify d))
      (documentOf_congr _ _ rfl rfl rfl rfl rfl).symm
  · exact congrArg env.toYaml (documentOf_congr _ _ rfl rfl rfl rfl rfl).symm

theorem loadJson_ok (env : Env) (s : QuickStart) (json : JsVal) (zomes : List JsVal)
    (hpage : s.pageReady = true) (hb : NodesBelow s.nextNode s.zomes)
    (hj : json.isNullish = false) (hzs : json.prop "Zomes" = .arr zomes)
    (hshape : ∀ z ∈ zomes, WellShapedZome z)
    (hold : ∀ e ∈ s.zomes, ∀ i < loadCount zomes, e.tplId ≠ "zome" ++ "-" ++ genIdAt env s i)
    (hdist : DistinctIds env s (loadCount zomes)) :
    ∃ s1, _loadJson env json s = .ok () s1
      ∧ s1.uuid = json.prop "UUID"
      ∧ s1.appName = toValue env ((json.prop "Name").orElse (.str ""))
      ∧ s1.appDesc = (if (json.prop "Properties").truthy
          then toValue env ((json.prop "Properties").prop "description") else s.appDesc)
      ∧ s1.locale = s.locale
      ∧ s1.zomes.map ZomeElem.content
          = s.zomes.map ZomeElem.content ++ zomes.map (zomeContentOf env)
      ∧ s1.storage = some (env.jsonStringify (documentOf s1))
      ∧ s1.yamlDisplay = env.toYaml (documentOf s1) := by
  by_cases hp : (json.prop "Properties").truthy = true
  · simp [_loadJson, getProp_of_not_nullish _ _ hj, requirePage, hpage, hp,
      getProp_of_not_nullish _ _ (not_nullish_of_truthy _ hp), hzs, JsVal.iterate]
    generalize hsA : QuickStart.mk _ _ _ _ _ _ _ _ _ _ _ _ _ _ _ = sA
    obtain ⟨s1, hrun, h1, h2, h3, h4, h5, h6, h7⟩ := loadJson_tail env sA zomes
      (by rw [← hsA]) (by rw [← hsA]; exact hb) hshape (by rw [← hsA]; exact hold)
      (by rw [← hsA]; exact hdist)
    refine ⟨s1, (M.bind_apply _ _ _).symm.trans hrun, ?_, ?_, ?_, ?_, ?_, h6, h7⟩
    · rw [h1, ← hsA]
    · rw [h2, ← hsA]
    · rw [h3, ← hsA]
    · rw [h4, ← hsA]
    · rw [h5, ← hsA]
  · simp [_loadJson, getProp_of_not_nullish _ _ hj, requirePage, hpage, hp, hzs,
      JsVal.iterate]
    generalize hsA : QuickStart.mk _ _ _ _ _ _ _ _ _ _ _ _ _ _ _ = sA
    obtain ⟨s1, hrun, h1, h2, h3, h4, h5, h6, h7⟩ := loadJson_tail env sA zomes
      (by rw [← hsA]) (by rw [← hsA]; exact hb) hshape (by rw [← hsA]; exact hold)
      (by rw [← hsA]; exact hdist)
    refine ⟨s1, (M.bind_apply _ _ _).symm.trans hrun, ?_, ?_, ?_, ?_, ?_, h6, h7⟩
    · rw [h1, ← hsA]
    · rw [h2, ← hsA]
    · rw [h3, ← hsA]
    · rw [h4, ← hsA]
    · rw [h5, ← hsA]

/-! ## The document depends on the content of the form only -/

theorem filter_map_eq_of_map_eq {α β γ : Type} (c : α → γ) (p : α → Bool) (g : α → β)
    (hp : ∀ a b, c a = c b → p a = p b) (hg : ∀ a b, c a = c b → g a = g b) :
    ∀ l1 l2 : List α, l1.map c = l2.map c → (l1.filter p).map g = (l2.filter p).map g := by
  intro l1
  induction l1 with
  | nil =>
    intro l2 h
    cases l2 with
    | nil => rfl
    | cons b bs => simp at h
  | cons a as ih =>
    intro l2 h
    cases l2 with
    | nil => simp at h
    | cons b bs =>
      simp only [List.map_cons, List.cons.injEq] at h
      have hpab := hp a b h.1
      have hgab := hg a b h.1
      have hrest := ih bs h.2
      cases hb : p b
      · simp [List.filter_cons, hpab, hb, hrest]
      · simp [List.filter_cons, hpab, hb, hrest, hgab]

theorem genZomeEntryJson_congr (z1 z2 : ZomeElem)
    (h : z1.entryRows.map EntryRow.content = z2.entryRows.map EntryRow.content) :
    _genZomeEntryJson z1 = _genZomeEntryJson z2 := by
  rw [genZomeEntryJson_eq_map, genZomeEntryJson_eq_map]
  apply filter_map_eq_of_map_eq EntryRow.content _ _ _ _ _ _ h
  · intro a b hab
    simp only [EntryRow.content, Prod.mk.injEq] at hab
    simp [hab.1]
  · intro a b hab
    simp only [EntryRow.content, Prod.mk.injEq] at hab
    obtain ⟨h1, h2, h3, h4, h5, h6, h7⟩ := hab
    simp [h1, h2, h3, h4, h5, h6, h7]

theorem specDerived_congr (a b : EntryRow) (hab : a.content = b.content) :
    specDerived a = specDerived b := by
  simp only [EntryRow.content, Prod.mk.injEq] at hab
  obtain ⟨h1, h2, h3, h4, h5, h6, h7⟩ := hab
  obtain ⟨_, _, _, _, _, _, _, _, _⟩ := a
  obtain ⟨_, _, _, _, _, _, _, _, _⟩ := b
  simp only at h1 h2 h3 h4 h5 h6 h7
  subst h1 h2 h3 h4 h5 h6 h7
  rfl

theorem genZomeFunctionJson_congr (z1 z2 : ZomeElem)
    (he : z1.entryRows.map EntryRow.content = z2.entryRows.map EntryRow.content)
    (hf : z1.functionRows.map FunctionRow.content = z2.functionRows.map FunctionRow.content) :
    _genZomeFunctionJson z1 = _genZomeFunctionJson z2 := by
  rw [genZomeFunctionJson_eq_spec, genZomeFunctionJson_eq_spec]
  unfold specFunctions
  congr 1
  · congr 1
    apply filter_map_eq_of_map_eq EntryRow.content _ _ _ _ _ _ he
    · intro a b hab
      simp only [EntryRow.content, Prod.mk.injEq] at hab
      simp [hab.1]
    · exact specDerived_congr
  · apply filter_map_eq_of_map_eq FunctionRow.content _ _ _ _ _ _ hf
    · intro a b hab
      simp only [FunctionRow.content, Prod.mk.injEq] at hab
      simp [hab.1]
    · intro a b hab
      simp only [FunctionRow.content, Prod.mk.injEq] at hab
      simp [specManual, hab.1, hab.2.1, hab.2.2]

theorem genZomesJson_congr :
    ∀ zs1 zs2 : List ZomeElem, zs1.map ZomeElem.content = zs2.map ZomeElem.content →
      _genZomesJson zs1 = _genZomesJson zs2 := by
  intro zs1 zs2 h
  rw [genZomesJson_eq_map, genZomesJson_eq_map]
  have := filter_map_eq_of_map_eq ZomeElem.content (fun _ => true)
    (fun zome : ZomeElem =>
      JsVal.obj [("Name", .str zome.zomename), ("Description", .str zome.zomedesc),
        ("Entries", .arr (_genZomeEntryJson zome)),
        ("Functions", .arr (_genZomeFunctionJson zome))])
    (fun _ _ _ => rfl)
    (fun a b hab => by
      simp only [ZomeElem.content, Prod.mk.injEq] at hab
      obtain ⟨h1, h2, h3, h4⟩ := hab
      simp [h1, h2, genZomeEntryJson_congr a b h3, genZomeFunctionJson_congr a b h3 h4])
    zs1 zs2 h
  simpa using this

theorem genZomesJson_dropBlankRows (zs : List ZomeElem) :
    _genZomesJson (zs.map dropBlankRows) = _genZomesJson zs := by
  rw [genZomesJson_eq_map, genZomesJson_eq_map, List.map_map]
  apply List.map_congr_left
  intro z _
  have he : _genZomeEntryJson (dropBlankRows z) = _genZomeEntryJson z := by
    simp [genZomeEntryJson_eq_map, dropBlankRows, List.filter_filter]
  have hf : _genZomeFunctionJson (dropBlankRows z) = _genZomeFunctionJson z := by
    simp [genZomeFunctionJson_eq_spec, specFunctions, dropBlankRows, List.filter_filter]
  have hn : (dropBlankRows z).zomename = z.zomename := rfl
  have hd : (dropBlankRows z).zomedesc = z.zomedesc := rfl
  simp only [Function.comp, he, hf, hn, hd]

/-! ## Loading what the form itself produced -/

theorem truthy_str_of_ne_empty (s : String) (h : s ≠ "") : (JsVal.str s).truthy = true := by
  simp only [JsVal.truthy, decide_eq_true_eq, ne_eq, jsLength_eq_zero_iff]
  intro hd
  apply h
  cases s
  simp_all

theorem ne_empty_of_nonBlank (s : String) (h : nonBlank s = true) : s ≠ "" := by
  intro he
  subst he
  simp [nonBlank] at h

theorem specHint_flags (c r u d : Bool) :
    decide (jsIndexOf (specHint c r u d) 'c' > -1) = c
      ∧ decide (jsIndexOf (specHint c r u d) 'r' > -1) = r
      ∧ decide (jsIndexOf (specHint c r u d) 'u' > -1) = u
      ∧ decide (jsIndexOf (specHint c r u d) 'd' > -1) = d := by
  cases c <;> cases r <;> cases u <;> cases d <;> decide

theorem entryContentOf_entry (env : Env) (row : EntryRow) (hn : nonBlank row.name = true)
    (hd : row.dataFormat ≠ "") (hs : row.sharing ≠ "") :
    entryContentOf env (JsVal.obj [("Name", .str row.name), ("DataFormat", .str row.dataFormat),
        ("Sharing", .str row.sharing),
        ("_", .str (specHint row.create row.read row.update row.delete))])
      = row.content := by
  obtain ⟨h1, h2, h3, h4⟩ := specHint_flags row.create row.read row.update row.delete
  simp [entryContentOf, JsVal.prop, JsVal.lookup, JsVal.orElse, toValue,
    truthy_str_of_ne_empty _ (ne_empty_of_nonBlank _ hn), truthy_str_of_ne_empty _ hd,
    truthy_str_of_ne_empty _ hs, EntryRow.content, h1, h2, h3, h4]

theorem loadsFunction_specDerived (row : EntryRow) :
    ∀ f ∈ specDerived row, loadsFunction f = false := by
  intro f hf
  unfold specDerived at hf
  obtain ⟨op, hop, rfl⟩ := List.mem_map.mp hf
  have hop1 := (List.mem_filter.mp hop).1
  simp only [crudOps, List.mem_cons, List.mem_singleton, List.not_mem_nil, or_false] at hop1
  rcases hop1 with h | h | h | h <;>
    · subst h
      simp [loadsFunction, JsVal.prop, JsVal.lookup, skipsHint, jsIndexOf, indexOfFrom,
        utf16Units]

theorem loadsFunction_specManual (row : FunctionRow) : loadsFunction (specManual row) = true := by
  simp [loadsFunction, specManual, JsVal.prop, JsVal.lookup, skipsHint]

theorem functionContentOf_specManual (env : Env) (row : FunctionRow) :
    functionContentOf env (specManual row) = row.content := by
  simp [functionContentOf, specManual, JsVal.prop, JsVal.lookup, toValue, FunctionRow.content]

theorem filter_loadsFunction_specFunctions (z : ZomeElem) :
    (specFunctions z).filter loadsFunction
      = (z.functionRows.filter fun r => nonBlank r.name).map specManual := by
  unfold specFunctions
  rw [List.filter_append]
  have h1 : (((z.entryRows.filter fun r => nonBlank r.name).map specDerived).flatten).filter
      loadsFunction = [] := by
    rw [List.filter_eq_nil_iff]
    intro f hf
    obtain ⟨l, hl, hfl⟩ := List.mem_flatten.mp hf
    obtain ⟨row, _, rfl⟩ := List.mem_map.mp hl
    simp [loadsFunction_specDerived row f hfl]
  have h2 : ((z.functionRows.filter fun r => nonBlank r.name).map specManual).filter
      loadsFunction = (z.functionRows.filter fun r => nonBlank r.name).map specManual := by
    rw [List.filter_eq_self]
    intro f hf
    obtain ⟨row, _, rfl⟩ := List.mem_map.mp hf
    exact loadsFunction_specManual row
  rw [h1, h2, List.nil_append]

theorem wellShaped_genZomesJson (zs : List ZomeElem) :
    ∀ z ∈ _genZomesJson zs, WellShapedZome z := by
  intro z hz
  rw [genZomesJson_eq_map] at hz
  obtain ⟨e, _, rfl⟩ := List.mem_map.mp hz
  refine ⟨rfl, ⟨_genZomeEntryJson e, by simp [JsVal.prop, JsVal.lookup], ?_⟩,
    ⟨_genZomeFunctionJson e, by simp [JsVal.prop, JsVal.lookup], ?_⟩⟩
  · intro x hx
    rw [genZomeEntryJson_eq_map] at hx
    obtain ⟨row, _, rfl⟩ := List.mem_map.mp hx
    rfl
  · intro x hx
    rw [genZomeFunctionJson_eq_spec] at hx
    rcases List.mem_append.mp hx with h | h
    · obtain ⟨l, hl, hfl⟩ := List.mem_flatten.mp h
      obtain ⟨row, _, rfl⟩ := List.mem_map.mp hl
      unfold specDerived at hfl
      obtain ⟨op, _, rfl⟩ := List.mem_map.mp hfl
      rfl
    · obtain ⟨row, _, rfl⟩ := List.mem_map.mp h
      rfl

theorem zomeContentOf_genZome (env : Env) (z : ZomeElem)
    (hfmt : ∀ r ∈ z.entryRows, nonBlank r.name = true → r.dataFormat ≠ "" ∧ r.sharing ≠ "") :
    zomeContentOf env (JsVal.obj [("Name", .str z.zomename), ("Description", .str z.zomedesc),
        ("Entries", .arr (_genZomeEntryJson z)),
        ("Functions", .arr (_genZomeFunctionJson z))])
      = (dropBlankRows z).content := by
  have he : (_genZomeEntryJson z).map (entryContentOf env)
      = (z.entryRows.filter fun r => nonBlank r.name).map EntryRow.content := by
    rw [genZomeEntryJson_eq_map, List.map_map]
    apply List.map_congr_left
    intro row hrow
    obtain ⟨hmem, hn⟩ := List.mem_filter.mp hrow
    obtain ⟨hd, hs⟩ := hfmt row hmem hn
    exact entryContentOf_entry env row hn hd hs
  have hf : ((_genZomeFunctionJson z).filter loadsFunction).map (functionContentOf env)
      = (z.functionRows.filter fun r => nonBlank r.name).map FunctionRow.content := by
    rw [genZomeFunctionJson_eq_spec, filter_loadsFunction_specFunctions, List.map_map]
    apply List.map_congr_left
    intro row _
    exact functionContentOf_specManual env row
  simp only [zomeContentOf, JsVal.prop, JsVal.lookup, JsVal.items, toValue, ZomeElem.content,
    dropBlankRows]
  simp [he, hf]

/-! ## Round trip (C1) -/

theorem toValue_orElse_empty (env : Env) (s : String) :
    toValue env ((JsVal.str s).orElse (.str "")) = s := by
  by_cases h : s = ""
  · subst h
    simp [JsVal.orElse, JsVal.truthy, toValue, jsLength]
  · simp [JsVal.orElse, truthy_str_of_ne_empty s h, toValue]

/-- C1, as amended: for every document that the form itself produces (the
JSON that `_genYaml` builds from a form state `u` whose entry rows of
non-blank name have a non-empty data format and sharing) and whose language
is the active locale, loading it into an empty form with `_loadJson`
completes, and the document then derived from the form, which `_genYaml`
also saves, is that same document; this provided the identifiers handed out
to the template instances created by the load are pairwise different. -/
theorem loadJson_roundTrip (env : Env) (s0 u : QuickStart)
    (hpage : s0.pageReady = true) (hempty : s0.zomes = []) (hloc : u.locale = s0.locale)
    (hfmt : ∀ z ∈ u.zomes, ∀ r ∈ z.entryRows,
      nonBlank r.name = true → r.dataFormat ≠ "" ∧ r.sharing ≠ "")
    (hdist : DistinctIds env s0 (loadCount (_genZomesJson u.zomes))) :
    ∃ s1, _loadJson env (documentOf u) s0 = .ok () s1
      ∧ documentOf s1 = documentOf u
      ∧ s1.storage = some (env.jsonStringify (documentOf u)) := by
  obtain ⟨s1, hrun, h1, h2, h3, h4, h5, h6, _⟩ :=
    loadJson_ok env s0 (documentOf u) (_genZomesJson u.zomes) hpage
      (by rw [hempty]; intro e he; simp at he) rfl
      (by simp [documentOf, JsVal.prop, JsVal.lookup])
      (wellShaped_genZomesJson u.zomes)
      (by rw [hempty]; intro e he; simp at he) hdist
  have hdoc : documentOf s1 = documentOf u := by
    have hz : _genZomesJson s1.zomes = _genZomesJson u.zomes := by
      rw [← genZomesJson_dropBlankRows u.zomes]
      apply genZomesJson_congr
      rw [h5, hempty, genZomesJson_eq_map, List.map_map, List.map_map]
      simp only [List.map_nil, List.nil_append]
      apply List.map_congr_left
      intro z hz
      exact zomeContentOf_genZome env z (hfmt z hz)
    have hu : s1.uuid = u.uuid := by
      rw [h1]; simp [documentOf, JsVal.prop, JsVal.lookup]
    have hn : s1.appName = u.appName := by
      rw [h2]
      have : (documentOf u).prop "Name" = .str u.appName := by
        simp [documentOf, JsVal.prop, JsVal.lookup]
      rw [this, toValue_orElse_empty]
    have hd : s1.appDesc = u.appDesc := by
      rw [h3]
      simp [documentOf, JsVal.prop, JsVal.lookup, JsVal.truthy, toValue]
    simp only [documentOf, hu, hn, hd, h4, hloc, hz]
  exact ⟨s1, hrun, hdoc, by rw [h6, hdoc]⟩

theorem loadJson_roundTrip_witness :
    (emptyUi.pageReady = true ∧ emptyUi.zomes = [] ∧ fixtureForm.locale = emptyUi.locale
      ∧ (∀ z ∈ fixtureForm.zomes, ∀ r ∈ z.entryRows,
          nonBlank r.name = true → r.dataFormat ≠ "" ∧ r.sharing ≠ "")
      ∧ DistinctIds refEnv emptyUi (loadCount (_genZomesJson fixtureForm.zomes)))
    ∧ ∃ s1, _loadJson refEnv (documentOf fixtureForm) emptyUi = .ok () s1
      ∧ documentOf s1 = documentOf fixtureForm
      ∧ s1.storage = some (refEnv.jsonStringify (documentOf fixtureForm)) :=
  ⟨⟨by decide, by decide, by decide, by decide, by decide⟩,
    loadJson_roundTrip refEnv emptyUi fixtureForm (by decide) (by decide) (by decide)
      (by decide) (by decide)⟩

/-- C1 as stated fails: the document `loneCreateDoc` is well formed (every
Entry and Function has a non-blank name, its language is the active locale)
and loads into the empty form without error, but the document then derived
from the form is `loneCreateReloaded`, which is not deep-equal to it: its
zome has the Function `test-entryCreate` with hint `c:test-entry`, where the
loaded document has none. -/
theorem roundTrip_fails_on_loneCreateDoc :
    wellFormedDocument emptyUi.locale loneCreateDoc = true
      ∧ emptyUi.pageReady = true ∧ emptyUi.zomes = []
      ∧ ∃ s1, _loadJson refEnv loneCreateDoc emptyUi = .ok () s1
        ∧ documentOf s1 = loneCreateReloaded
        ∧ (documentOf s1).deepEq loneCreateDoc = false := by
  have hzs : emptyUi.zomes = [] := by decide
  refine ⟨by decide, by decide, hzs, ?_⟩
  obtain ⟨s1, hrun, h1, h2, h3, h4, h5, _, _⟩ :=
    loadJson_ok refEnv emptyUi loneCreateDoc (loneCreateDoc.prop "Zomes").items (by decide)
      (by rw [hzs]; intro e he; simp at he) rfl rfl
      (by
        intro z hz
        have : z = JsVal.obj [("Name", .str "test-zome-name"),
            ("Description", .str "test-zome-description"),
            ("Entries", .arr [.obj [("Name", .str "test-entry"), ("DataFormat", .str "json"),
              ("Sharing", .str "public"), ("_", .str "c")]]),
            ("Functions", .arr [])] := by
          simpa [loneCreateDoc, JsVal.prop, JsVal.lookup, JsVal.items] using hz
        subst this
        exact ⟨rfl, ⟨_, rfl, by simp [JsVal.isNullish]⟩, ⟨_, rfl, by simp⟩⟩)
      (by rw [hzs]; intro e he; simp at he) (by decide)
  have hdoc : documentOf s1 = loneCreateReloaded := by
    have hz : _genZomesJson s1.zomes = _genZomesJson
        [ZomeElem.mk 0 "" "test-zome-name" "test-zome-description"
          [EntryRow.mk 0 "" "test-entry" "json" "public" true false false false] []] := by
      apply genZomesJson_congr
      rw [h5, hzs]
      rfl
    have hu : s1.uuid = .str "test-uuid" := h1
    have hn : s1.appName = "test-name" := h2
    have hd : s1.appDesc = "test-description" := h3
    have hl : s1.locale = "en" := by rw [h4]; decide
    simp only [documentOf, hu, hn, hd, hl, hz]
    rfl
  exact ⟨s1, hrun, hdoc, by rw [hdoc]; decide⟩

/-! ## Functions passed over by the loader (C5) -/

theorem indexOfFrom_ge (c : Char) (l : List Char) (i : Nat) :
    indexOfFrom c l i = -1 ∨ (i : Int) ≤ indexOfFrom c l i := by
  induction l generalizing i with
  | nil => left; rfl
  | cons d ds ih =>
    unfold indexOfFrom
    split
    · right; exact le_refl _
    · rcases ih (i + utf16Units d) with h | h
      · left; exact h
      · right
        have : (i : Int) ≤ ((i + utf16Units d : Nat) : Int) := by
          exact_mod_cast Nat.le_add_right i (utf16Units d)
        exact le_trans this h

/-- The test of the loop holds of a string exactly when it starts with one
character of one UTF-16 code unit that is not a colon, followed by a colon. -/
theorem skipsHint_str_iff (hint : String) :
    skipsHint (.str hint) = true
      ↔ ∃ c rest, hint.data = c :: ':' :: rest ∧ c ≠ ':' ∧ utf16Units c = 1 := by
  simp only [skipsHint, decide_eq_true_eq, jsIndexOf]
  cases hd : hint.data with
  | nil => simp [indexOfFrom]
  | cons d ds =>
    by_cases h1 : d = ':'
    · simp [indexOfFrom, h1]
    · cases ds with
      | nil => simp [indexOfFrom, h1]
      | cons e es =>
        by_cases h2 : e = ':'
        · subst h2
          simp only [indexOfFrom, h1, if_false, if_true, Nat.zero_add]
          constructor
          · intro h
            exact ⟨d, es, rfl, h1, by exact_mod_cast h⟩
          · rintro ⟨c, rest, hc, _, hu⟩
            simp only [List.cons.injEq] at hc
            rw [hc.1]
            exact_mod_cast hu
        · simp only [indexOfFrom, h1, h2, if_false, Nat.zero_add]
          constructor
          · intro h
            exfalso
            rcases indexOfFrom_ge ':' es (utf16Units d + utf16Units e) with h3 | h3
            · rw [h3] at h; simp at h
            · rw [h] at h3
              have hd1 := utf16Units_pos d
              have he1 := utf16Units_pos e
              have : ((utf16Units d + utf16Units e : Nat) : Int) ≤ 1 := h3
              have : utf16Units d + utf16Units e ≤ 1 := by exact_mod_cast this
              omega
          · rintro ⟨c, rest, hc, _, _⟩
            simp only [List.cons.injEq] at hc
            exact absurd hc.2.1 h2

theorem skipsHint_of_isCrudHint (hint : JsVal) (h : isCrudHint hint = true) :
    skipsHint hint = true := by
  cases hint with
  | str s =>
    rw [skipsHint_str_iff]
    unfold isCrudHint at h
    simp only at h
    split at h
    · rename_i letter rest hdata
      refine ⟨letter, rest, hdata, ?_, ?_⟩
      · intro hl
        subst hl
        simp at h
      · simp only [Bool.or_eq_true, beq_iff_eq] at h
        rcases h with ((h | h) | h) | h <;> subst h <;> decide
    · simp at h
  | _ => simp [isCrudHint] at h

/-- C5, as amended: for a zome of a loaded document whose Functions are an
array of values other than `null`, `_loadJsonFunctions` completes and
appends to the functions table of the zome's block one row per function
that is not passed over, in document order, carrying its name, calling type
and exposure. A function is passed over exactly when its hint is a string
that starts with one character (one UTF-16 code unit) other than a colon,
followed by a colon: every hint `<op-letter>:<name>` is of this kind, and so
are hints such as `x:y`. This for a block that is tracked and provided the
new identifiers differ from the block's. -/
theorem loadJsonFunctions_rows (env : Env) (s : QuickStart) (zid : String) (zn : Nat)
    (json : JsVal) (fs : List JsVal)
    (ht : Tracked s zid zn) (hj : json.isNullish = false)
    (hfs : json.prop "Functions" = .arr fs) (hne : ∀ f ∈ fs, f.isNullish = false)
    (hfresh : ∀ i < (fs.filter loadsFunction).length,
      "zome-function" ++ "-" ++ genIdAt env s i ≠ zid) :
    (∃ s1 rows, _loadJsonFunctions env json zid s = .ok () s1
      ∧ s1.zomes = mapZome zn (ZomeElem.pushFunctions rows) s.zomes
      ∧ rows.map FunctionRow.content = (fs.filter loadsFunction).map (functionContentOf env))
    ∧ (∀ f : JsVal, loadsFunction f = false ↔
        ∃ c rest, f.prop "_" = .str ⟨c :: ':' :: rest⟩ ∧ c ≠ ':' ∧ utf16Units c = 1)
    ∧ (∀ f : JsVal, isCrudHint (f.prop "_") = true → loadsFunction f = false) := by
  refine ⟨?_, ?_, ?_⟩
  · obtain ⟨s1, rows, hrun, hz, hc, _, _⟩ := loadFunctions_ok env zid zn fs s ht hne hfresh
    refine ⟨s1, rows, ?_, hz, hc⟩
    simp [_loadJsonFunctions, getProp_of_not_nullish _ _ hj, hfs, JsVal.iterate, hrun]
  · intro f
    simp only [loadsFunction, Bool.not_eq_false']
    cases hp : f.prop "_" with
    | str hint =>
      rw [skipsHint_str_iff]
      constructor
      · rintro ⟨c, rest, hd, h1, h2⟩
        refine ⟨c, rest, ?_, h1, h2⟩
        cases hint
        simp_all
      · rintro ⟨c, rest, hd, h1, h2⟩
        refine ⟨c, rest, ?_, h1, h2⟩
        simp only [JsVal.str.injEq] at hd
        rw [hd]
    | _ => simp [skipsHint]
  · intro f hf
    simp [loadsFunction, skipsHint_of_isCrudHint _ hf]

theorem tracked_oneZomeUi : Tracked oneZomeUi "zome-1" 1 :=
  ⟨by decide, ⟨Template.mk "zome-1" "zome" .zomesDiv [1] [], by decide, rfl⟩, by decide,
    by decide⟩

theorem loadJsonFunctions_rows_witness :
    (Tracked oneZomeUi "zome-1" 1 ∧ oddHintZome.isNullish = false
      ∧ oddHintZome.prop "Functions" = .arr (oddHintZome.prop "Functions").items
      ∧ (∀ f ∈ (oddHintZome.prop "Functions").items, f.isNullish = false)
      ∧ (∀ i < (((oddHintZome.prop "Functions").items).filter loadsFunction).length,
          "zome-function" ++ "-" ++ genIdAt refEnv oneZomeUi i ≠ "zome-1"))
    ∧ ((∃ s1 rows, _loadJsonFunctions refEnv oddHintZome "zome-1" oneZomeUi = .ok () s1
        ∧ s1.zomes = mapZome 1 (ZomeElem.pushFunctions rows) oneZomeUi.zomes
        ∧ rows.map FunctionRow.content
            = (((oddHintZome.prop "Functions").items).filter loadsFunction).map
                (functionContentOf refEnv))
      ∧ (∀ f : JsVal, loadsFunction f = false ↔
          ∃ c rest, f.prop "_" = .str ⟨c :: ':' :: rest⟩ ∧ c ≠ ':' ∧ utf16Units c = 1)
      ∧ (∀ f : JsVal, isCrudHint (f.prop "_") = true → loadsFunction f = false)) :=
  ⟨⟨tracked_oneZomeUi, rfl, rfl, by decide, by decide⟩,
    loadJsonFunctions_rows refEnv oneZomeUi "zome-1" 1 oddHintZome
      (oddHintZome.prop "Functions").items tracked_oneZomeUi rfl rfl (by decide) (by decide)⟩

/-- C5 as stated fails: the first function of `oddHintZome` has the hint
`x:y`, which is not of the form `<op-letter>:<name>`, yet loading the zome
into the block of the one-zome form gives a row to the second function
only. -/
theorem loadJsonFunctions_skips_hint_without_op_letter :
    isCrudHint (.str "x:y") = false
      ∧ (oddHintZome.prop "Functions").items.map (fun f => (f.prop "_").deepEq (.str "x:y"))
          = [true, false]
      ∧ oneZomeUi.zomes = [ZomeElem.mk 1 "zome-1" "" "" [] []]
      ∧ ∃ s1, _loadJsonFunctions refEnv oddHintZome "zome-1" oneZomeUi = .ok () s1
        ∧ s1.zomes.map (fun z => z.functionRows.map FunctionRow.content)
            = [[("second", "json", "public")]] := by
  have hz0 : oneZomeUi.zomes = [ZomeElem.mk 1 "zome-1" "" "" [] []] := by decide
  refine ⟨by decide, by decide, hz0, ?_⟩
  obtain ⟨s1, rows, hrun, hz, hc, _, _⟩ := loadFunctions_ok refEnv "zome-1" 1
    (oddHintZome.prop "Functions").items oneZomeUi tracked_oneZomeUi (by decide) (by decide)
  refine ⟨s1, ?_, ?_⟩
  · have hrun1 : M.forEach [JsVal.obj [("Name", .str "first"), ("CallingType", .str "json"),
          ("Exposure", .str "public"), ("_", .str "x:y")],
        JsVal.obj [("Name", .str "second"), ("CallingType", .str "json"),
          ("Exposure", .str "public")]] (loadJsonFunction refEnv "zome-1") oneZomeUi
        = .ok () s1 := hrun
    simp [_loadJsonFunctions, oddHintZome, JsVal.getProp, JsVal.lookup, JsVal.iterate, hrun1]
  · rw [hz, hz0]
    have hc1 : rows.map FunctionRow.content = [("second", "json", "public")] := by
      rw [hc]
      decide
    simp [mapZome, ZomeElem.pushFunctions, hc1]

/-! ## Upload (C6, C7) -/

/-- When both parsers accept the content, the value of the YAML parser is
the one that is kept. -/
theorem uploadOnload_of_yaml (env : Env) (s : QuickStart) (result fileName : String)
    (y : JsVal) (hy : env.yamlLoad result = some y) (hty : y.truthy = true) :
    uploadOnload env result fileName s = .ok ()
      { s with storage := some (env.jsonStringify y), reloads := s.reloads + 1 } := by
  cases hj : env.jsonParse result <;> simp [uploadOnload, hj, hy, hty]

/-- When the YAML parser rejects the content, the value of the JSON parser
is kept. -/
theorem uploadOnload_of_json_only (env : Env) (s : QuickStart) (result fileName : String)
    (j : JsVal) (hj : env.jsonParse result = some j) (hy : env.yamlLoad result = none)
    (htj : j.truthy = true) :
    uploadOnload env result fileName s = .ok ()
      { s with storage := some (env.jsonStringify j), reloads := s.reloads + 1 } := by
  simp [uploadOnload, hj, hy, htj]

/-- C6, the code at the failing input: on the content `1e5` the JSON parser
succeeds with the number 100000 and the YAML parser with the string `1e5`;
what is saved under the save key is the serialization of the YAML value,
`"1e5"`, not that of the JSON value, `100000`. -/
theorem uploadOnload_saves_yaml_value_over_json :
    refEnv.jsonParse "1e5" = some (.num ⟨0x40F86A0000000000⟩)
      ∧ refEnv.yamlLoad "1e5" = some (.str "1e5")
      ∧ refEnv.jsonStringify (.num ⟨0x40F86A0000000000⟩) = "100000"
      ∧ (uploadOnload refEnv "1e5" "dna.json" emptyUi).thrown = none
      ∧ (uploadOnload refEnv "1e5" "dna.json" emptyUi).state.storage = some "\"1e5\"" := by
  have h := uploadOnload_of_yaml refEnv emptyUi "1e5" "dna.json" (.str "1e5") rfl
    (by decide)
  refine ⟨rfl, rfl, by decide, ?_, ?_⟩
  · rw [h]; rfl
  · rw [h]; decide

/-- C7: when both parsers reject the content, the `onload` step raises an
error whose message is `Error Parsing File: ` followed by the name of the
file, and the state is the one before the step: nothing was written under
the save key and no reload was asked for. -/
theorem uploadOnload_rejected (env : Env) (s : QuickStart) (result fileName : String)
    (hj : env.jsonParse result = none) (hy : env.yamlLoad result = none) :
    uploadOnload env result fileName s
        = .threw (.error ("Error Parsing File: " ++ fileName)) s
      ∧ (∃ before, "Error Parsing File: " ++ fileName = before ++ fileName)
      ∧ (uploadOnload env result fileName s).state.storage = s.storage
      ∧ (uploadOnload env result fileName s).state.reloads = s.reloads := by
  have h : uploadOnload env result fileName s
      = .threw (.error ("Error Parsing File: " ++ fileName)) s := by
    simp [uploadOnload, hj, hy, JsVal.truthy]
  exact ⟨h, ⟨_, rfl⟩, by rw [h]; rfl, by rw [h]; rfl⟩

theorem uploadOnload_rejected_witness :
    (refEnv.jsonParse "@oops" = none ∧ refEnv.yamlLoad "@oops" = none)
      ∧ (uploadOnload refEnv "@oops" "dna.yml" emptyUi
          = .threw (.error ("Error Parsing File: " ++ "dna.yml")) emptyUi
        ∧ (∃ before, "Error Parsing File: " ++ "dna.yml" = before ++ "dna.yml")
        ∧ (uploadOnload refEnv "@oops" "dna.yml" emptyUi).state.storage = emptyUi.storage
        ∧ (uploadOnload refEnv "@oops" "dna.yml" emptyUi).state.reloads = emptyUi.reloads) :=
  ⟨⟨rfl, rfl⟩, uploadOnload_rejected refEnv emptyUi "@oops" "dna.yml" rfl rfl⟩

/-! ## Startup (C8, C9) -/

theorem matchLangHere_ne_nil (l capture : List Char) (h : matchLangHere l = some capture) :
    capture ≠ [] := by
  unfold matchLangHere at h
  split at h
  · split at h
    · simp at h
    · rename_i hne
      simp only [Option.some.injEq] at h
      rw [← h]
      exact fun hnil => hne hnil
  · simp at h

theorem matchLang_truthy (l : List Char) (capture : String) (h : matchLang l = some capture) :
    (JsVal.str capture).truthy = true := by
  induction l with
  | nil => simp [matchLang] at h
  | cons c cs ih =>
    unfold matchLang at h
    split at h
    · rename_i cap hcap
      simp only [Option.some.injEq] at h
      subst h
      have := matchLangHere_ne_nil _ _ hcap
      simp only [JsVal.truthy, decide_eq_true_eq, ne_eq, jsLength_eq_zero_iff]
      exact this
    · exact ih h

theorem run_recognized (env : Env) (s : QuickStart) (search capture decoded : String)
    (hm : matchLang search.data = some capture)
    (hd : decodeURIComponent capture = .ok decoded)
    (hl : jsTrim decoded ∈ env.locales) (hroot : s.root = []) :
    (∀ v, env.jsonParse (s.storage.getD "null") = some v → v.truthy = false) →
      ∃ s1, run env search s = .ok () s1 ∧ s1.locale = jsTrim decoded
        ∧ s1.root = [.page s.nextNode] ∧ s1.pageReady = true ∧ s1.zomes = []
        ∧ s1.appName = env.pageAppName ∧ s1.appDesc = env.pageAppDesc ∧ s1.uuid = s.uuid
        ∧ s1.storage = some (env.jsonStringify (documentOf s1))
        ∧ s1.yamlDisplay = env.toYaml (documentOf s1) := by
  intro hfalsy
  have ht := matchLang_truthy _ _ hm
  cases hp : env.jsonParse (s.storage.getD "null") with
  | none =>
    have hu : JsVal.undefined.truthy = false := rfl
    simp [run, hm, ht, hd, hl, setLocale, _genTemplates, _genId, renderInto, hroot, hp, hu,
      RootChild.isPage, _displayYaml, _genYaml, requirePage, documentOf]
  | some v =>
    have hv := hfalsy v hp
    simp [run, hm, ht, hd, hl, setLocale, _genTemplates, _genId, renderInto, hroot, hp, hv,
      RootChild.isPage, _displayYaml, _genYaml, requirePage, documentOf]

theorem run_raises_of_bad_zomes (env : Env) (s : QuickStart) (search capture decoded : String)
    (v : JsVal) (hm : matchLang search.data = some capture)
    (hd : decodeURIComponent capture = .ok decoded)
    (hl : jsTrim decoded ∈ env.locales) (hroot : s.root = [])
    (hp : env.jsonParse (s.storage.getD "null") = some v) (hv : v.truthy = true)
    (hz : (v.prop "Zomes").iterate = .error .typeError) :
    (run env search s).thrown = some .typeError := by
  have ht := matchLang_truthy _ _ hm
  have hn := not_nullish_of_truthy v hv
  by_cases hprops : (v.prop "Properties").truthy = true
  · simp [run, hm, ht, hd, hl, setLocale, _genTemplates, _genId, renderInto, hroot, hp, hv,
      RootChild.isPage, _loadJson, requirePage, getProp_of_not_nullish _ _ hn, hprops,
      getProp_of_not_nullish _ _ (not_nullish_of_truthy _ hprops), hz, Res.thrown]
  · simp [run, hm, ht, hd, hl, setLocale, _genTemplates, _genId, renderInto, hroot, hp, hv,
      RootChild.isPage, _loadJson, requirePage, getProp_of_not_nullish _ _ hn, hprops, hz,
      Res.thrown]

theorem run_decode_error (env : Env) (s : QuickStart) (search capture : String) (e : JsError)
    (hm : matchLang search.data = some capture)
    (hd : decodeURIComponent capture = .error e) :
    run env search s = .threw e s := by
  have ht := matchLang_truthy _ _ hm
  simp [run, hm, ht, hd]

theorem forEach_languageButtons (env : Env) (locales : List String) :
    ∀ s : QuickStart, ∃ s1,
      M.forEach locales (fun locale => do
        setLocale locale
        let _ ← _genTemplates env (some .root) "lang-button"
          [("locale", locale), ("langName", env.getText locale "langName")]) s = .ok () s1
      ∧ s1.root = s.root ++ languageButtons env s.nextNode locales
      ∧ s1.pageReady = s.pageReady ∧ s1.zomes = s.zomes ∧ s1.storage = s.storage := by
  induction locales with
  | nil =>
    intro s
    exact ⟨s, rfl, by simp [languageButtons], rfl, rfl, rfl⟩
  | cons locale rest ih =>
    intro s
    rw [M.forEach_cons]
    simp only [M.bind_apply, setLocale, M.modify_apply, _genTemplates, _genId, renderInto,
      M.pure_apply, dataValue]
    simp only [String.reduceEq, if_true, if_false, reduceIte]
    generalize hsA : QuickStart.mk _ _ _ _ _ _ _ _ _ _ _ _ _ _ _ = sA
    obtain ⟨s1, hrun, hr, hp, hz, hst⟩ := ih sA
    refine ⟨s1, hrun, ?_, ?_, ?_, ?_⟩
    · rw [hr, ← hsA]
      simp [languageButtons]
    · rw [hp, ← hsA]
    · rw [hz, ← hsA]
    · rw [hst, ← hsA]

/-- When the query string has no `lang=` match, or the decoded and trimmed
capture is not a locale of the list, `run` renders one language button per
locale, in the order of the list, and no page. -/
theorem run_selection_view (env : Env) (s : QuickStart) (search : String)
    (h : matchLang search.data = none
      ∨ ∃ capture decoded, matchLang search.data = some capture
          ∧ decodeURIComponent capture = .ok decoded ∧ jsTrim decoded ∉ env.locales) :
    ∃ s1, run env search s = .ok () s1
      ∧ s1.root = s.root ++ languageButtons env s.nextNode env.locales
      ∧ s1.pageReady = s.pageReady ∧ s1.zomes = s.zomes ∧ s1.storage = s.storage := by
  obtain ⟨s1, hrun, hrest⟩ := forEach_languageButtons env env.locales s
  refine ⟨s1, ?_, hrest⟩
  rcases h with hm | ⟨capture, decoded, hm, hd, hl⟩
  · simp only [run, hm, M.bind_apply, M.pure_apply, Option.any_none, Bool.false_eq_true,
      if_false]
    exact hrun
  · have ht := matchLang_truthy _ _ hm
    simp only [run, hm, ht, hd, if_true, M.bind_apply, M.lift_ok, M.pure_apply, Option.any_some,
      decide_eq_true_eq, hl, if_false]
    exact hrun

/-- C8, as amended: at startup with a recognized locale, a stored value that
is absent, is not parseable JSON, or parses to a value that counts as false
is treated as no saved state: `run` completes, the empty document is shown
and saved. A stored value that parses to any other value is handed to
`_loadJson` as it is, and when that value has no iterable `Zomes`, `run`
raises a `TypeError`. -/
theorem run_stored_state (env : Env) (s : QuickStart) (search capture decoded : String)
    (hm : matchLang search.data = some capture)
    (hd : decodeURIComponent capture = .ok decoded)
    (hl : jsTrim decoded ∈ env.locales) (hroot : s.root = []) :
    ((∀ v, env.jsonParse (s.storage.getD "null") = some v → v.truthy = false) →
      ∃ s1, run env search s = .ok () s1 ∧ s1.locale = jsTrim decoded
        ∧ s1.root = [.page s.nextNode] ∧ s1.pageReady = true ∧ s1.zomes = []
        ∧ s1.appName = env.pageAppName ∧ s1.appDesc = env.pageAppDesc ∧ s1.uuid = s.uuid
        ∧ s1.storage = some (env.jsonStringify (documentOf s1))
        ∧ s1.yamlDisplay = env.toYaml (documentOf s1))
    ∧ (∀ v, env.jsonParse (s.storage.getD "null") = some v → v.truthy = true →
        (v.prop "Zomes").iterate = .error .typeError →
        (run env search s).thrown = some .typeError) :=
  ⟨run_recognized env s search capture decoded hm hd hl hroot,
    fun v hp hv hz => run_raises_of_bad_zomes env s search capture decoded v hm hd hl hroot
      hp hv hz⟩

theorem run_stored_state_witness :
    (matchLang "?lang=en".data = some "en" ∧ decodeURIComponent "en" = .ok "en"
      ∧ jsTrim "en" ∈ refEnv.locales ∧ bootState.root = []
      ∧ ∀ v, refEnv.jsonParse (bootState.storage.getD "null") = some v → v.truthy = false)
    ∧ ∃ s1, run refEnv "?lang=en" bootState = .ok () s1 ∧ s1.locale = jsTrim "en"
        ∧ s1.root = [.page bootState.nextNode] ∧ s1.pageReady = true ∧ s1.zomes = []
        ∧ s1.appName = refEnv.pageAppName ∧ s1.appDesc = refEnv.pageAppDesc
        ∧ s1.uuid = bootState.uuid
        ∧ s1.storage = some (refEnv.jsonStringify (documentOf s1))
        ∧ s1.yamlDisplay = refEnv.toYaml (documentOf s1) :=
  have hnull : ∀ v, refEnv.jsonParse (bootState.storage.getD "null") = some v →
      v.truthy = false := by
    intro v hv
    have h : refEnv.jsonParse (bootState.storage.getD "null") = some .null := rfl
    rw [h] at hv
    simp only [Option.some.injEq] at hv
    rw [← hv]
    rfl
  ⟨⟨by decide, rfl, by decide, rfl, hnull⟩,
    (run_stored_state refEnv bootState "?lang=en" "en" "en" (by decide) rfl (by decide)
      rfl).1 hnull⟩

/-- C8 as stated fails: with the text `{}` stored under the save key, which
parses to an object that is no loadable document, startup in the recognized
locale `en` raises a `TypeError` instead of starting fresh. -/
theorem run_raises_on_stored_empty_object :
    storedEmptyObject.storage = some "\x7b\x7d"
      ∧ "en" ∈ refEnv.locales
      ∧ (run refEnv "?lang=en" storedEmptyObject).thrown = some .typeError :=
  ⟨rfl, by decide,
    run_raises_of_bad_zomes refEnv storedEmptyObject "?lang=en" "en" "en" (.obj [])
      (by decide) rfl (by decide) rfl rfl rfl rfl⟩

/-- C9, the code at the failing input: on the query string `?lang=%` the
capture `%` is a malformed escape sequence, `decodeURIComponent` throws and
`run` ends with that `URIError` in the state it started from: no language
button and no page is rendered. On `?xlang=en`, which has no `lang`
parameter, the pattern still matches and the page is rendered in `en`. -/
theorem run_raises_on_malformed_escape :
    matchLang "?lang=%".data = some "%"
      ∧ decodeURIComponent "%" = .error .uriError
      ∧ run refEnv "?lang=%" bootState = .threw .uriError bootState
      ∧ bootState.root = []
      ∧ ∃ s1, run refEnv "?xlang=en" bootState = .ok () s1 ∧ s1.root = [.page 0]
          ∧ s1.locale = "en" := by
  refine ⟨by decide, rfl, run_decode_error refEnv bootState "?lang=%" "%" .uriError
    (by decide) rfl, rfl, ?_⟩
  obtain ⟨s1, hrun, hloc, hroot, _⟩ := run_recognized refEnv bootState "?xlang=en" "en" "en"
    (by decide) rfl (by decide) rfl (by
      intro v hv
      have h : refEnv.jsonParse (bootState.storage.getD "null") = some .null := rfl
      rw [h] at hv
      simp only [Option.some.injEq] at hv
      rw [← hv]
      rfl)
  exact ⟨s1, hrun, hroot, by rw [hloc]; decide⟩

/-! ## Removing the only entry, then adding a function (C10) -/

theorem lookupTemplate_filter_ne (id k : String) (ts : List (String × Template))
    (h : id ≠ k) :
    lookupTemplate id (ts.filter fun kt => kt.1 ≠ k) = lookupTemplate id ts := by
  induction ts with
  | nil => rfl
  | cons kt rest ih =>
    obtain ⟨k1, t⟩ := kt
    rw [List.filter_cons]
    by_cases h1 : k1 = k
    · have hp : decide ((k1, t).1 ≠ k) = false := by simp [h1]
      have hne : k1 ≠ id := fun h2 => h (h2.symm.trans h1)
      rw [hp, lookupTemplate_cons_ne _ _ _ _ hne]
      simpa using ih
    · have hp : decide ((k1, t).1 ≠ k) = true := by simp [h1]
      rw [hp]
      simp only [if_true]
      by_cases h2 : k1 = id
      · subst h2
        rw [lookupTemplate_cons_self, lookupTemplate_cons_self]
      · rw [lookupTemplate_cons_ne _ _ _ _ h2, lookupTemplate_cons_ne _ _ _ _ h2]
        exact ih

theorem nodesBelow_mapZome_of_sub (n z : Nat) (f : ZomeElem → ZomeElem) (zs : List ZomeElem)
    (hb : NodesBelow n zs) (hn : ∀ e, (f e).node = e.node)
    (he : ∀ e, ∀ r ∈ (f e).entryRows, r ∈ e.entryRows)
    (hf : ∀ e, ∀ r ∈ (f e).functionRows, r ∈ e.functionRows) :
    NodesBelow n (mapZome z f zs) := by
  intro e hmem
  unfold mapZome at hmem
  obtain ⟨e0, he0, rfl⟩ := List.mem_map.mp hmem
  obtain ⟨h1, h2, h3⟩ := hb e0 he0
  by_cases hz : e0.node = z
  · simp only [hz, if_true]
    exact ⟨by rw [hn]; exact h1, fun r hr => h2 r (he e0 r hr), fun r hr => h3 r (hf e0 r hr)⟩
  · simp only [hz, if_false]
    exact ⟨h1, h2, h3⟩

theorem deleteZomeEntry_ok (env : Env) (s : QuickStart) (zid eid : String) (zn : Nat)
    (row : EntryRow) (ht : Tracked s zid zn)
    (hblock : ∀ e ∈ s.zomes, e.node = zn → e.entryRows = [row] ∧ e.functionRows = [])
    (hrec : ∃ t, lookupTemplate eid s.templates = some t ∧ t.parent = .entriesTable zn
      ∧ t.elems = [row.node] ∧ t.id = eid) :
    ∃ sA, deleteZomeEntry env eid s = .ok () sA
      ∧ Tracked sA zid zn
      ∧ sA.nextNode = s.nextNode
      ∧ sA.zomes = mapZome zn (ZomeElem.dropEntry row.node) s.zomes := by
  obtain ⟨t, hlook, hpar, helems, hid⟩ := hrec
  obtain ⟨tz, hlookz, hparz⟩ := ht.recorded
  have hne : zid ≠ eid := by
    intro h
    rw [h, hlook] at hlookz
    simp only [Option.some.injEq] at hlookz
    rw [← hlookz, hpar] at hparz
    simp at hparz
  obtain ⟨e0, he0, hz0⟩ := exists_node_of_first ht.first
  have hany : (s.zomes ++ s.detached).any
      (fun e => e.node = zn ∧ e.entryRows.any (fun r => r.node = row.node)) = true := by
    rw [List.any_eq_true]
    refine ⟨e0, List.mem_append_left _ he0, ?_⟩
    simp [hz0, (hblock e0 he0 hz0).1]
  have hpage := ht.page
  simp only [deleteZomeEntry, _rmTemplate, M.bind_apply, M.read_apply, hlook, hpar, helems,
    M.forEach_cons, removeEntryRow, hany, if_true, M.forEach_nil, M.modify_apply, hid,
    _displayYaml, _genYaml, requirePage, hpage, M.pure_apply]
  refine ⟨_, rfl, ⟨rfl, ⟨tz, ?_, hparz⟩, ?_, ?_⟩, rfl, rfl⟩
  · exact (lookupTemplate_filter_ne zid eid s.templates hne).trans hlookz
  · exact (find_mapZome zn (ZomeElem.dropEntry row.node) _ _ (fun _ => rfl)
      (fun _ => rfl)).trans ht.first
  · exact nodesBelow_mapZome_of_sub _ zn (ZomeElem.dropEntry row.node) _ ht.below
      (fun _ => rfl) (fun e r hr => (List.mem_filter.mp hr).1) (fun _ _ hr => hr)

theorem addFunctionNamed_ok (env : Env) (s : QuickStart) (zid : String) (zn : Nat)
    (text : String) (ht : Tracked s zid zn) :
    ∃ s1 row, (addZomeFunction env zid >>= fun _ =>
        editFunctionName s.nextNode text >>= fun _ => _displayYaml env) s = .ok () s1
      ∧ s1.zomes = mapZome zn (ZomeElem.pushFunction row) s.zomes
      ∧ row.content = (text, env.functionCallingType, env.functionExposure)
      ∧ s1.storage = some (env.jsonStringify (documentOf s1)) := by
  obtain ⟨t, hlook, hpar⟩ := ht.recorded
  have hex := exists_node_of_first ht.first
  have hfind : findZome s .zomesDiv zid = some zn := ht.first
  have hb := ht.below
  have hpage := ht.page
  have hfind2 : ∀ row : FunctionRow,
      Option.map (fun x => x.node) (List.find? (fun e => decide (e.tplId = zid))
        (mapZome zn (ZomeElem.pushFunction row) s.zomes)) = some zn :=
    fun row => (find_pushFunction zn row s.zomes zid).trans ht.first
  simp [addZomeFunction, _addZomeFunction, hlook, hpar, hfind, _genTemplates, _genId,
    renderInto, _displayYaml, _genYaml, requirePage, hpage, editFunctionName,
    updateFunctionRow, any_function_pushFunction _ _ _ _ hex,
    mapFunctionRow_pushFunction _ _ _ _ _ hb]
  refine ⟨_, rfl, ?_, ?_⟩
  · simp [FunctionRow.content]
  · simp [documentOf]

/-- C10: for a tracked zome block that holds exactly one entry row, whatever
its name and flags, and no function row: after the entry is removed with
`$deleteZomeEntry`, a function row is added and named `foo`, and the display
is rendered again, the zome has no Entry and exactly one Function, named
`foo`, without hint; the document saved is the one derived from that form. -/
theorem removeEntryThenAddFoo_document (env : Env) (s : QuickStart) (zid eid : String)
    (zn : Nat) (row : EntryRow) (ht : Tracked s zid zn)
    (hblock : ∀ e ∈ s.zomes, e.node = zn → e.entryRows = [row] ∧ e.functionRows = [])
    (hrec : ∃ t, lookupTemplate eid s.templates = some t ∧ t.parent = .entriesTable zn
      ∧ t.elems = [row.node] ∧ t.id = eid) :
    ∃ s1, removeEntryThenAddFoo env eid zid s = .ok () s1
      ∧ (∃ e ∈ s1.zomes, e.node = zn)
      ∧ (∀ e ∈ s1.zomes, e.node = zn →
          _genZomeEntryJson e = []
          ∧ _genZomeFunctionJson e = [JsVal.obj [("Name", .str "foo"),
              ("CallingType", .str env.functionCallingType),
              ("Exposure", .str env.functionExposure)]])
      ∧ s1.storage = some (env.jsonStringify (documentOf s1)) := by
  obtain ⟨sA, hrunA, htA, hnA, hzA⟩ := deleteZomeEntry_ok env s zid eid zn row ht hblock hrec
  obtain ⟨s1, frow, hrun1, hz1, hc1, hst1⟩ := addFunctionNamed_ok env sA zid zn "foo" htA
  simp only [M.bind_apply] at hrun1
  refine ⟨s1, ?_, ?_, ?_, hst1⟩
  · simp only [removeEntryThenAddFoo, M.bind_apply, hrunA, M.read_apply]
    exact hrun1
  · obtain ⟨e0, he0, hn0⟩ := exists_node_of_first ht.first
    refine ⟨ZomeElem.pushFunction frow (ZomeElem.dropEntry row.node e0), ?_, hn0⟩
    rw [hz1, hzA]
    unfold mapZome
    rw [List.map_map]
    exact List.mem_map.mpr ⟨e0, he0, by simp [hn0, ZomeElem.dropEntry]⟩
  · intro e he hn
    rw [hz1, hzA] at he
    unfold mapZome at he
    rw [List.map_map] at he
    obtain ⟨e0, he0, rfl⟩ := List.mem_map.mp he
    by_cases h0 : e0.node = zn
    · obtain ⟨hrows, hfuns⟩ := hblock e0 he0 h0
      simp only [FunctionRow.content, Prod.mk.injEq] at hc1
      have hfoo : nonBlank "foo" = true := by decide
      constructor
      · rw [genZomeEntryJson_eq_map]
        simp [h0, ZomeElem.dropEntry, ZomeElem.pushFunction, hrows]
      · rw [genZomeFunctionJson_eq_spec]
        simp [specFunctions, h0, ZomeElem.dropEntry, ZomeElem.pushFunction, hrows, hfuns,
          specManual, hc1.1, hc1.2.1, hc1.2.2, hfoo]
    · simp [h0] at hn

theorem tracked_oneEntryUi : Tracked oneEntryUi "zome-1" 1 :=
  ⟨by decide, ⟨Template.mk "zome-1" "zome" .zomesDiv [1] [], by decide, rfl⟩, by decide,
    by decide⟩

theorem removeEntryThenAddFoo_document_witness :
    (Tracked oneEntryUi "zome-1" 1
      ∧ (∀ e ∈ oneEntryUi.zomes, e.node = 1 →
          e.entryRows = [EntryRow.mk 2 "zome-entry-1-i" "post" "json" "public"
            true false false true] ∧ e.functionRows = [])
      ∧ (∃ t, lookupTemplate "zome-entry-1-i" oneEntryUi.templates = some t
          ∧ t.parent = .entriesTable 1
          ∧ t.elems = [(EntryRow.mk 2 "zome-entry-1-i" "post" "json" "public"
              true false false true).node]
          ∧ t.id = "zome-entry-1-i"))
    ∧ ∃ s1, removeEntryThenAddFoo refEnv "zome-entry-1-i" "zome-1" oneEntryUi = .ok () s1
      ∧ (∃ e ∈ s1.zomes, e.node = 1)
      ∧ (∀ e ∈ s1.zomes, e.node = 1 →
          _genZomeEntryJson e = []
          ∧ _genZomeFunctionJson e = [JsVal.obj [("Name", .str "foo"),
              ("CallingType", .str refEnv.functionCallingType),
              ("Exposure", .str refEnv.functionExposure)]])
      ∧ s1.storage = some (refEnv.jsonStringify (documentOf s1)) :=
  have hblock : ∀ e ∈ oneEntryUi.zomes, e.node = 1 →
      e.entryRows = [EntryRow.mk 2 "zome-entry-1-i" "post" "json" "public"
        true false false true] ∧ e.functionRows = [] := by decide
  have hrec : ∃ t, lookupTemplate "zome-entry-1-i" oneEntryUi.templates = some t
      ∧ t.parent = .entriesTable 1
      ∧ t.elems = [(EntryRow.mk 2 "zome-entry-1-i" "post" "json" "public"
          true false false true).node]
      ∧ t.id = "zome-entry-1-i" :=
    ⟨Template.mk "zome-entry-1-i" "zome-entry" (.entriesTable 1) [2] [], by decide, rfl, rfl,
      rfl⟩
  ⟨⟨tracked_oneEntryUi, hblock, hrec⟩,
    removeEntryThenAddFoo_document refEnv oneEntryUi "zome-1" "zome-entry-1-i" 1
      (EntryRow.mk 2 "zome-entry-1-i" "post" "json" "public" true false false true)
      tracked_oneEntryUi hblock hrec⟩

/-! ## Which nodes `_genTemplates` moves (C11) -/

theorem everyOther_cons {α : Type} (y : α) (r : List α) :
    everyOther (y :: r) = y :: everyOther r.tail := by
  cases r <;> rfl

theorem everyOther_length_lt {α : Type} :
    ∀ (x y : α) (r : List α), (everyOther (x :: y :: r)).length < (x :: y :: r).length
  | x, y, [] => by simp [everyOther]
  | x, y, [z] => by simp [everyOther]
  | x, y, z :: w :: r => by
    have := everyOther_length_lt z w r
    simp only [everyOther, List.length_cons] at this ⊢
    omega

theorem getElem_length_append {α : Type} (pre : List α) (x : α) (r : List α)
    (h : pre.length < (pre ++ x :: r).length) : (pre ++ x :: r)[pre.length] = x := by
  induction pre with
  | nil => rfl
  | cons p pre ih => exact ih (by simp)

/-- The `for ... of` loop over the live `childNodes`: started at an index
with the nodes `pre` before it and the nodes `rest` from it on, it takes
every other node of `rest` and leaves the others in the scratch element. -/
theorem moveChildNodes_eq (n : Nat) :
    ∀ (rest pre elems : List Node) (parent : Node), rest.length ≤ n →
      Nodes.moveChildNodes pre.length (pre ++ rest) elems parent
        = (pre ++ everyOther rest.tail, elems ++ everyOther rest,
            parent.withChildNodes (parent.childNodes ++ everyOther rest)) := by
  induction n with
  | zero =>
    intro rest pre elems parent h
    have : rest = [] := List.length_eq_zero.mp (Nat.le_zero.mp h)
    subst this
    rw [Nodes.moveChildNodes]
    cases parent
    simp [everyOther, Node.withChildNodes, Node.id, Node.nodeName, Node.childNodes]
  | succ n ih =>
    intro rest pre elems parent h
    match rest, h with
    | [], _ =>
      rw [Nodes.moveChildNodes]
      cases parent
      simp [everyOther, Node.withChildNodes, Node.id, Node.nodeName, Node.childNodes]
    | x :: r, h =>
      rw [Nodes.moveChildNodes]
      have hlt : pre.length < (pre ++ x :: r).length := by
        rw [List.length_append, List.length_cons]; omega
      rw [dif_pos hlt]
      have hget : (pre ++ x :: r)[pre.length] = x := getElem_length_append pre x r hlt
      have herase : (pre ++ x :: r).eraseIdx pre.length = pre ++ r := by
        rw [List.eraseIdx_append_of_length_le (Nat.le_refl _)]
        simp
      simp only [hget, herase]
      cases r with
      | nil =>
        rw [Nodes.moveChildNodes]
        cases parent
        simp [everyOther, Node.withChildNodes, Node.id, Node.nodeName, Node.childNodes,
          Node.appendChild]
      | cons y r =>
        have hlen : r.length ≤ n := by simp at h; omega
        have := ih r (pre ++ [y]) (elems ++ [x]) (parent.appendChild x) hlen
        simp only [List.length_append, List.length_singleton, List.append_assoc,
          List.singleton_append] at this
        rw [this]
        cases parent
        simp [everyOther, everyOther_cons, Node.withChildNodes, Node.id, Node.nodeName,
          Node.childNodes, Node.appendChild]
/-- The method `_genId` over a session returns what it returns over the
form-level state, and moves the counter in the same way. -/
theorem nodes_genId_agrees (env : Env) (s : QuickStart) (ts : List (String × Instance)) :
    ∃ s1, _genId env s = .ok (Nodes._genId env ⟨s.nextTemplateId, s.randomCalls, ts⟩).1 s1
      ∧ s1.nextTemplateId
          = (Nodes._genId env ⟨s.nextTemplateId, s.randomCalls, ts⟩).2.nextTemplateId
      ∧ s1.randomCalls = (Nodes._genId env ⟨s.nextTemplateId, s.randomCalls, ts⟩).2.randomCalls :=
  ⟨_, rfl, rfl, rfl⟩
theorem genTemplates_generic (env : Env) (rendering : Rendering) (parent : Node)
    (name : String) (data : List (String × String)) (s : Session)
    (h : parent.nodeName ≠ "TABLE") :
    ∃ t s1, Nodes._genTemplates env rendering parent name data s
        = .ok (t, parent.withChildNodes (parent.childNodes ++ everyOther
            (rendering false name (name ++ "-" ++ replaceDots (env.toString36 s.nextTemplateId))
              data)), s1)
      ∧ t.id = name ++ "-" ++ replaceDots (env.toString36 s.nextTemplateId)
      ∧ t.elems = everyOther
          (rendering false name (name ++ "-" ++ replaceDots (env.toString36 s.nextTemplateId))
            data)
      ∧ s1.lookup t.id = some t := by
  have hloop := fun frag => moveChildNodes_eq (List.length frag) frag [] [] parent (Nat.le_refl _)
  simp only [List.length_nil, List.nil_append] at hloop
  refine ⟨Instance.mk (name ++ "-" ++ replaceDots (env.toString36 s.nextTemplateId)) parent.id
      (everyOther (rendering false name
        (name ++ "-" ++ replaceDots (env.toString36 s.nextTemplateId)) data)) data,
    Session.mk (env.numAdd s.nextTemplateId (env.random s.randomCalls)) (s.randomCalls + 1)
      ((name ++ "-" ++ replaceDots (env.toString36 s.nextTemplateId),
        Instance.mk (name ++ "-" ++ replaceDots (env.toString36 s.nextTemplateId)) parent.id
          (everyOther (rendering false name
            (name ++ "-" ++ replaceDots (env.toString36 s.nextTemplateId)) data)) data)
        :: s.templates), ?_, rfl, rfl, ?_⟩
  · simp [Nodes._genTemplates, Nodes._genId, h, hloop]
  · simp [Session.lookup]

theorem filter_tr_dropFirstTr : ∀ cs : List Node,
    (dropFirstTr cs).filter (fun c => c.nodeName = "TR")
      = (cs.filter fun c => c.nodeName = "TR").tail
  | [] => rfl
  | c :: cs => by
    by_cases h : c.nodeName = "TR"
    · simp [dropFirstTr, h]
    · simp [dropFirstTr, h, filter_tr_dropFirstTr cs]

theorem trChildren_dropFirstTr (c : Node) :
    (c.withChildNodes (dropFirstTr c.childNodes)).trChildren = c.trChildren.tail := by
  cases c
  simp [Node.trChildren, Node.withChildNodes, Node.childNodes, filter_tr_dropFirstTr]

theorem nodeName_withChildNodes (c : Node) (cs : List Node) :
    (c.withChildNodes cs).nodeName = c.nodeName := by
  cases c; rfl

theorem sectionRows_cons (tag : String) (c : Node) (cs : List Node) :
    sectionRows tag (c :: cs)
      = (if c.nodeName = tag then c.trChildren else []) ++ sectionRows tag cs := by
  by_cases h : c.nodeName = tag <;> simp [sectionRows, h, List.filter_cons]

theorem bodyRows_cons (c : Node) (cs : List Node) :
    bodyRows (c :: cs)
      = (if c.nodeName = "TR" then [c] else if c.nodeName = "TBODY" then c.trChildren else [])
          ++ bodyRows cs := by
  simp [bodyRows]

theorem isEmpty_eq_false_iff {α : Type} (l : List α) : l.isEmpty = false ↔ l ≠ [] := by
  cases l <;> simp

theorem tail_append_of_ne {α : Type} (a b : List α) (h : a ≠ []) :
    (a ++ b).tail = a.tail ++ b := by
  cases a with
  | nil => exact absurd rfl h
  | cons x a => rfl

theorem sectionRows_deleteSectionRow (tag : String) : ∀ cs : List Node,
    sectionRows tag (deleteSectionRow tag cs) = (sectionRows tag cs).tail
  | [] => rfl
  | c :: cs => by
    rw [deleteSectionRow]
    by_cases h : c.nodeName = tag
    · by_cases he : c.trChildren = []
      · simp [h, he, sectionRows_cons, sectionRows_deleteSectionRow tag cs]
      · have he2 : c.trChildren.isEmpty = false := (isEmpty_eq_false_iff _).mpr he
        simp [h, he2, sectionRows_cons, nodeName_withChildNodes, trChildren_dropFirstTr,
          tail_append_of_ne _ _ he]
    · simp [h, sectionRows_cons, sectionRows_deleteSectionRow tag cs]

theorem sectionRows_deleteSectionRow_ne (tag other : String) (h : other ≠ tag) :
    ∀ cs : List Node, sectionRows other (deleteSectionRow tag cs) = sectionRows other cs
  | [] => rfl
  | c :: cs => by
    rw [deleteSectionRow]
    by_cases hc : c.nodeName = tag
    · have hne : c.nodeName ≠ other := fun e => h (e.symm.trans hc)
      by_cases he : c.trChildren.isEmpty
      · simp [hc, he, sectionRows_cons, sectionRows_deleteSectionRow_ne tag other h cs, Ne.symm h]
      · simp [hc, he, sectionRows_cons, nodeName_withChildNodes, Ne.symm h]
    · simp [hc, sectionRows_cons, sectionRows_deleteSectionRow_ne tag other h cs]

theorem bodyRows_deleteSectionRow (tag : String) (h1 : tag ≠ "TR") (h2 : tag ≠ "TBODY") :
    ∀ cs : List Node, bodyRows (deleteSectionRow tag cs) = bodyRows cs
  | [] => rfl
  | c :: cs => by
    rw [deleteSectionRow]
    by_cases hc : c.nodeName = tag
    · by_cases he : c.trChildren.isEmpty
      · simp [hc, he, bodyRows_cons, bodyRows_deleteSectionRow tag h1 h2 cs, h1, h2]
      · simp [hc, he, bodyRows_cons, nodeName_withChildNodes, h1, h2]
    · simp [hc, bodyRows_cons, bodyRows_deleteSectionRow tag h1 h2 cs]
theorem bodyRows_deleteBodyRow : ∀ cs : List Node,
    bodyRows (deleteBodyRow cs) = (bodyRows cs).tail
  | [] => rfl
  | c :: cs => by
    rw [deleteBodyRow]
    by_cases h : c.nodeName = "TR"
    · simp [h, bodyRows_cons]
    · by_cases hb : c.nodeName = "TBODY"
      · by_cases he : c.trChildren = []
        · simp [h, hb, he, bodyRows_cons, bodyRows_deleteBodyRow cs]
        · have he2 : c.trChildren.isEmpty = false := (isEmpty_eq_false_iff _).mpr he
          simp [hb, he2, bodyRows_cons, nodeName_withChildNodes, trChildren_dropFirstTr,
            tail_append_of_ne _ _ he]
      · simp [h, hb, bodyRows_cons, bodyRows_deleteBodyRow cs]

theorem sectionRows_deleteBodyRow (tag : String) (h1 : tag ≠ "TR") (h2 : tag ≠ "TBODY") :
    ∀ cs : List Node, sectionRows tag (deleteBodyRow cs) = sectionRows tag cs
  | [] => rfl
  | c :: cs => by
    rw [deleteBodyRow]
    by_cases h : c.nodeName = "TR"
    · simp [h, sectionRows_cons, Ne.symm h1]
    · by_cases hb : c.nodeName = "TBODY"
      · by_cases he : c.trChildren.isEmpty
        · simp [hb, he, sectionRows_cons, sectionRows_deleteBodyRow tag h1 h2 cs, Ne.symm h2]
        · simp [hb, he, sectionRows_cons, nodeName_withChildNodes, Ne.symm h2]
      · simp [h, hb, sectionRows_cons, sectionRows_deleteBodyRow tag h1 h2 cs]

/-- Deleting row 0 of a table takes the first node off its `rows`. -/
theorem rows_deleteRow0 (cs : List Node) : rows (deleteRow0 cs) = (rows cs).tail := by
  unfold deleteRow0 rows
  by_cases hh : sectionRows "THEAD" cs = []
  · by_cases hb : bodyRows cs = []
    · simp [hh, hb, sectionRows_deleteSectionRow,
        sectionRows_deleteSectionRow_ne "TFOOT" "THEAD" (by decide),
        bodyRows_deleteSectionRow "TFOOT" (by decide) (by decide)]
    · have hb2 : (bodyRows cs).isEmpty = false := (isEmpty_eq_false_iff _).mpr hb
      simp [hh, hb2, bodyRows_deleteBodyRow,
        sectionRows_deleteBodyRow "THEAD" (by decide) (by decide),
        sectionRows_deleteBodyRow "TFOOT" (by decide) (by decide), tail_append_of_ne _ _ hb]
  · have hh2 : (sectionRows "THEAD" cs).isEmpty = false := (isEmpty_eq_false_iff _).mpr hh
    simp [hh2, sectionRows_deleteSectionRow,
      sectionRows_deleteSectionRow_ne "THEAD" "TFOOT" (by decide),
      bodyRows_deleteSectionRow "THEAD" (by decide) (by decide), tail_append_of_ne _ _ hh,
      List.append_assoc]

theorem childNodes_appendChild (b r : Node) :
    (b.appendChild r).childNodes = b.childNodes ++ [r] := by
  cases b; rfl

theorem nodeName_appendChild (b r : Node) : (b.appendChild r).nodeName = b.nodeName := by
  cases b; rfl

theorem nodeName_of_appendToBody (r n n1 : Node) (h : n.appendToBody r = some n1) :
    n1.nodeName = n.nodeName := by
  cases n with
  | mk i nm cs =>
    rw [Node.appendToBody] at h
    cases hcs : appendToBodyIn cs r with
    | none => rw [hcs] at h; cases h
    | some cs1 =>
      rw [hcs] at h
      cases h
      rfl

mutual
/-- Without a `tbody` below a node, nothing can be appended to one. -/
theorem appendToBody_none (r : Node) : ∀ n : Node, n.body? = none → n.appendToBody r = none
  | .mk i nm cs, h => by
    rw [Node.body?] at h
    rw [Node.appendToBody, appendToBodyIn_none r cs h]
    rfl
theorem appendToBodyIn_none (r : Node) : ∀ cs : List Node, bodyIn? cs = none →
    appendToBodyIn cs r = none
  | [], _ => rfl
  | c :: cs, h => by
    rw [bodyIn?] at h
    rw [appendToBodyIn]
    by_cases hc : c.nodeName = "TBODY"
    · rw [if_pos hc] at h
      cases h
    · rw [if_neg hc] at h
      rw [if_neg hc]
      cases hcb : c.body? with
      | some b1 => rw [hcb] at h; cases h
      | none =>
        rw [hcb] at h
        rw [appendToBody_none r c hcb, appendToBodyIn_none r cs h]
        rfl
end

mutual
/-- Appending to the first `tbody` below a node succeeds when there is one,
and that `tbody`, with the new last child, is still the first. -/
theorem appendToBody_body (r : Node) : ∀ (n b : Node), n.body? = some b →
    ∃ n1, n.appendToBody r = some n1 ∧ n1.body? = some (b.appendChild r)
  | .mk i nm cs, b, h => by
    rw [Node.body?] at h
    obtain ⟨cs1, h1, h2⟩ := appendToBodyIn_body r cs b h
    refine ⟨.mk i nm cs1, ?_, ?_⟩
    · rw [Node.appendToBody, h1]; rfl
    · rw [Node.body?]; exact h2
theorem appendToBodyIn_body (r : Node) : ∀ (cs : List Node) (b : Node), bodyIn? cs = some b →
    ∃ cs1, appendToBodyIn cs r = some cs1 ∧ bodyIn? cs1 = some (b.appendChild r)
  | [], b, h => by rw [bodyIn?] at h; cases h
  | c :: cs, b, h => by
    rw [bodyIn?] at h
    rw [appendToBodyIn]
    by_cases hc : c.nodeName = "TBODY"
    · rw [if_pos hc] at h
      cases h
      refine ⟨c.appendChild r :: cs, by rw [if_pos hc], ?_⟩
      rw [bodyIn?, if_pos ((nodeName_appendChild c r).trans hc)]
    · rw [if_neg hc] at h
      rw [if_neg hc]
      cases hcb : c.body? with
      | some b1 =>
        rw [hcb] at h
        have hb : b1 = b := Option.some.inj h
        subst hb
        obtain ⟨c1, h1, h2⟩ := appendToBody_body r c b1 hcb
        refine ⟨c1 :: cs, by rw [h1], ?_⟩
        have hn : ¬ c1.nodeName = "TBODY" := by
          rw [nodeName_of_appendToBody r c c1 h1]; exact hc
        rw [bodyIn?, if_neg hn, h2]
      | none =>
        rw [hcb] at h
        obtain ⟨cs1, h1, h2⟩ := appendToBodyIn_body r cs b h
        refine ⟨c :: cs1, by rw [appendToBody_none r c hcb, h1]; rfl, ?_⟩
        rw [bodyIn?, if_neg hc, hcb]
        exact h2
end
theorem withChildNodes_childNodes (b : Node) : b.withChildNodes b.childNodes = b := by
  cases b; rfl

theorem appendChild_withChildNodes (b r : Node) (rs : List Node) :
    (b.appendChild r).withChildNodes ((b.appendChild r).childNodes ++ rs)
      = b.withChildNodes (b.childNodes ++ r :: rs) := by
  cases b
  simp [Node.appendChild, Node.withChildNodes, Node.id, Node.nodeName, Node.childNodes]

/-- The `while` loop over the live `rows`: with a `tbody` below the parent
it moves every row, in the order of `rows`, and ends with no row left in
the scratch table. -/
theorem moveRows_ok : ∀ (fuel : Nat) (d elems : List Node) (parent b : Node),
    (rows d).length ≤ fuel → parent.body? = some b →
    ∃ d1 parent1, Nodes.moveRows fuel d elems parent = .ok (d1, elems ++ rows d, parent1)
      ∧ rows d1 = []
      ∧ parent1.body? = some (b.withChildNodes (b.childNodes ++ rows d))
  | 0, d, elems, parent, b, hlen, hb => by
    have hr : rows d = [] := List.length_eq_zero.mp (Nat.le_zero.mp hlen)
    exact ⟨d, parent, by simp [Nodes.moveRows, hr], hr,
      by rw [hr, List.append_nil, withChildNodes_childNodes]; exact hb⟩
  | fuel + 1, d, elems, parent, b, hlen, hb => by
    cases hr : rows d with
    | nil =>
      exact ⟨d, parent, by simp [Nodes.moveRows, hr], hr,
        by rw [List.append_nil, withChildNodes_childNodes]; exact hb⟩
    | cons r rs =>
      obtain ⟨parent1, h1, h2⟩ := appendToBody_body r parent b hb
      have htail : rows (deleteRow0 d) = rs := by rw [rows_deleteRow0, hr]; rfl
      have hlen1 : (rows (deleteRow0 d)).length ≤ fuel := by
        rw [htail]; rw [hr] at hlen; simpa using hlen
      obtain ⟨d1, parent2, h3, h4, h5⟩ :=
        moveRows_ok fuel (deleteRow0 d) (elems ++ [r]) parent1 (b.appendChild r) hlen1 h2
      refine ⟨d1, parent2, ?_, h4, ?_⟩
      · simp [Nodes.moveRows, hr, h1, h3, htail]
      · rw [h5, htail, appendChild_withChildNodes]

/-- The `while` loop throws on its first round when the parent has no
`tbody` below it. -/
theorem moveRows_no_body (fuel : Nat) (d elems : List Node) (parent r : Node) (rs : List Node)
    (hr : rows d = r :: rs) (hb : parent.body? = none) :
    Nodes.moveRows (fuel + 1) d elems parent = .error .typeError := by
  simp [Nodes.moveRows, hr, appendToBody_none r parent hb]

/-- Into a table with a `tbody`, `_genTemplates` moves every row of what the
template rendered to the end of that `tbody`, and records them all. -/
theorem genTemplates_table (env : Env) (rendering : Rendering) (parent b : Node)
    (name : String) (data : List (String × String)) (s : Session)
    (h : parent.nodeName = "TABLE") (hb : parent.body? = some b) :
    ∃ t parent1 s1, Nodes._genTemplates env rendering parent name data s = .ok (t, parent1, s1)
      ∧ t.id = name ++ "-" ++ replaceDots (env.toString36 s.nextTemplateId)
      ∧ t.elems = rows (rendering true name t.id data)
      ∧ parent1.body? = some (b.withChildNodes (b.childNodes ++ rows (rendering true name t.id data)))
      ∧ s1.lookup t.id = some t := by
  obtain ⟨d1, parent1, h1, _, h3⟩ := moveRows_ok _
    (rendering true name (name ++ "-" ++ replaceDots (env.toString36 s.nextTemplateId)) data)
    [] parent b (Nat.le_refl _) hb
  refine ⟨Instance.mk (name ++ "-" ++ replaceDots (env.toString36 s.nextTemplateId)) parent.id
      (rows (rendering true name
        (name ++ "-" ++ replaceDots (env.toString36 s.nextTemplateId)) data)) data,
    parent1, Session.mk (env.numAdd s.nextTemplateId (env.random s.randomCalls))
      (s.randomCalls + 1)
      ((name ++ "-" ++ replaceDots (env.toString36 s.nextTemplateId),
        Instance.mk (name ++ "-" ++ replaceDots (env.toString36 s.nextTemplateId)) parent.id
          (rows (rendering true name
            (name ++ "-" ++ replaceDots (env.toString36 s.nextTemplateId)) data)) data)
        :: s.templates), ?_, rfl, rfl, h3, ?_⟩
  · simp [Nodes._genTemplates, Nodes._genId, h, h1]
  · simp [Session.lookup]

/-- C11, at a parent that is not a table and a template that renders two
sibling blocks: `_genTemplates` appends the first block to the parent and
records it alone under the new identifier; the second block is neither
inserted nor recorded. -/
theorem genTemplates_leaves_second_node_behind :
    twoBlocks false "zome" "zome-0-i" [] = [firstBlock, secondBlock]
      ∧ ∃ t parent1 s1,
        Nodes._genTemplates refEnv twoBlocks emptyContainer "zome" [] bootSession
            = .ok (t, parent1, s1)
          ∧ t.id = "zome-0-i"
          ∧ t.elems = [firstBlock]
          ∧ parent1.childNodes = [firstBlock]
          ∧ s1.lookup "zome-0-i" = some t := by
  obtain ⟨t, s1, h1, h2, h3, h4⟩ :=
    genTemplates_generic refEnv twoBlocks emptyContainer "zome" [] bootSession (by decide)
  have hid : "zome" ++ "-" ++ replaceDots (refEnv.toString36 bootSession.nextTemplateId)
      = "zome-0-i" := by decide
  rw [hid] at h1 h2 h3
  rw [h2] at h4
  exact ⟨rfl, t, _, s1, h1, h2, h3, rfl, h4⟩

/-! ## The identifiers of a session (C12) -/

theorem assignedIds_cons (env : Env) (a : String) (rest : List String) (s : QuickStart) :
    assignedIds env (a :: rest) s
      = (a ++ "-" ++ genIdAt env s 0) :: assignedIds env rest
          { s with
            nextTemplateId := env.numAdd s.nextTemplateId (env.random s.randomCalls)
            randomCalls := s.randomCalls + 1 } := rfl

theorem mem_assignedIds (env : Env) : ∀ (names : List String) (s : QuickStart) (y : String),
    y ∈ assignedIds env names s →
      ∃ j, j < names.length ∧ ∃ b ∈ names, y = b ++ "-" ++ genIdAt env s j
  | [], _, y, h => by simp [assignedIds] at h
  | a :: rest, s, y, h => by
    rw [assignedIds_cons, List.mem_cons] at h
    rcases h with h | h
    · exact ⟨0, by simp, a, by simp, h⟩
    · obtain ⟨j, hj, b, hb, hy⟩ := mem_assignedIds env rest _ y h
      exact ⟨j + 1, by simpa using hj, b, List.mem_cons_of_mem _ hb, hy⟩

/-- Two identifiers built from names of the source's templates are equal
only if names and suffixes are equal, or one suffix begins with `entry-` or
`function-`. -/
theorem id_eq_cases (a b x y : String) (ha : a ∈ sourceTemplateNames)
    (hb : b ∈ sourceTemplateNames) (h : a ++ "-" ++ x = b ++ "-" ++ y) :
    (a = b ∧ x = y)
      ∨ "entry-".data <+: x.data ∨ "function-".data <+: x.data
      ∨ "entry-".data <+: y.data ∨ "function-".data <+: y.data := by
  have hd := congrArg String.data h
  simp only [String.data_append] at hd
  simp only [sourceTemplateNames, List.mem_cons, List.mem_singleton, List.not_mem_nil,
    or_false] at ha hb
  rcases ha with rfl | rfl | rfl | rfl | rfl | rfl | rfl <;>
    rcases hb with rfl | rfl | rfl | rfl | rfl | rfl | rfl <;>
    simp at hd <;>
    first
      | exact Or.inl ⟨rfl, String.ext hd⟩
      | exact Or.inr (Or.inl ⟨y.data, hd.symm⟩)
      | exact Or.inr (Or.inr (Or.inl ⟨y.data, hd.symm⟩))
      | exact Or.inr (Or.inr (Or.inr (Or.inl ⟨x.data, hd⟩)))
      | exact Or.inr (Or.inr (Or.inr (Or.inr ⟨x.data, hd⟩)))

theorem counterAt_bits_lt (env : Env) (s : QuickStart) (n : Nat)
    (hinc : ∀ k, k + 1 < n → (counterAt env s k).bits < (counterAt env s (k + 1)).bits) :
    ∀ j, j < n → ∀ i, i < j → (counterAt env s i).bits < (counterAt env s j).bits
  | 0, _, i, hi => absurd hi (Nat.not_lt_zero i)
  | j + 1, hj, i, hi => by
    have hstep := hinc j hj
    rcases Nat.lt_succ_iff_lt_or_eq.mp hi with h | h
    · exact Nat.lt_trans (counterAt_bits_lt env s n hinc j (by omega) i h) hstep
    · rw [h]; exact hstep

/-- An identifier assigned earlier differs from one assigned later when the
counter grew at each step in between, different counters are rendered
differently, and no rendered counter begins with `entry-` or `function-`. -/
theorem ids_ne (env : Env) (s : QuickStart) (n : Nat)
    (hinc : ∀ k, k + 1 < n → (counterAt env s k).bits < (counterAt env s (k + 1)).bits)
    (hinj : ∀ i j, i < n → j < n → genIdAt env s i = genIdAt env s j →
      counterAt env s i = counterAt env s j)
    (hpre : ∀ k, k < n → ¬ "entry-".data <+: (genIdAt env s k).data
      ∧ ¬ "function-".data <+: (genIdAt env s k).data)
    (i j : Nat) (hij : i < j) (hj : j < n) (a b : String) (ha : a ∈ sourceTemplateNames)
    (hb : b ∈ sourceTemplateNames) :
    a ++ "-" ++ genIdAt env s i ≠ b ++ "-" ++ genIdAt env s j := by
  intro h
  have hi : i < n := Nat.lt_trans hij hj
  rcases id_eq_cases a b _ _ ha hb h with ⟨_, hg⟩ | hp | hp | hp | hp
  · have hc := hinj i j hi hj hg
    have hlt := counterAt_bits_lt env s n hinc j hj i hij
    rw [hc] at hlt
    exact Nat.lt_irrefl _ hlt
  · exact (hpre i hi).1 hp
  · exact (hpre i hi).2 hp
  · exact (hpre j hj).1 hp
  · exact (hpre j hj).2 hp

theorem renderInto_counter (env : Env) (p : Parent) (name id : String)
    (data : List (String × String)) (s : QuickStart) :
    (renderInto env p name id data s).state.nextTemplateId = s.nextTemplateId
      ∧ (renderInto env p name id data s).state.randomCalls = s.randomCalls := by
  unfold renderInto
  split <;> (try split) <;> exact ⟨rfl, rfl⟩

/-- An instantiation that completes takes the identifier `assignedIds`
gives it and moves the counter by one `_genId()`. -/
theorem genTemplates_id (env : Env) (parent : Option Parent) (name : String)
    (data : List (String × String)) (s s1 : QuickStart) (t : Template)
    (h : _genTemplates env parent name data s = .ok t s1) :
    assignedIds env [name] s = [t.id]
      ∧ (s1.nextTemplateId, s1.randomCalls) = advanceId env (s.nextTemplateId, s.randomCalls) := by
  cases parent with
  | none => simp [_genTemplates, _genId, M.bind_apply, M.raise] at h
  | some p =>
    have hc := renderInto_counter env p name
      (name ++ "-" ++ replaceDots (env.toString36 s.nextTemplateId)) data
      { s with
        nextTemplateId := env.numAdd s.nextTemplateId (env.random s.randomCalls)
        randomCalls := s.randomCalls + 1 }
    simp only [_genTemplates, _genId, M.bind_apply] at h
    cases hr : renderInto env p name
      (name ++ "-" ++ replaceDots (env.toString36 s.nextTemplateId)) data
      { s with
        nextTemplateId := env.numAdd s.nextTemplateId (env.random s.randomCalls)
        randomCalls := s.randomCalls + 1 } with
    | threw e s2 => simp [hr] at h
    | ok elems s2 =>
      rw [hr] at hc
      simp [hr, M.modify, M.pure_apply] at h
      obtain ⟨ht, hs⟩ := h
      subst ht hs
      exact ⟨rfl, by simp [advanceId, Res.state] at hc ⊢; exact hc⟩

/-- C12, amended: the identifiers assigned to successive instantiations of
the source's templates are pairwise different provided the counter grew at
each `_genId()` in between (for numbers that are not negative the order of
the bit patterns is the order of the values), different counters are
rendered differently, and no rendered counter begins with `entry-` or
`function-`. -/
theorem assignedIds_nodup (env : Env) (names : List String) (s : QuickStart)
    (hnames : ∀ a ∈ names, a ∈ sourceTemplateNames)
    (hinc : ∀ k, k + 1 < names.length →
      (counterAt env s k).bits < (counterAt env s (k + 1)).bits)
    (hinj : ∀ i j, i < names.length → j < names.length →
      genIdAt env s i = genIdAt env s j → counterAt env s i = counterAt env s j)
    (hpre : ∀ k, k < names.length → ¬ "entry-".data <+: (genIdAt env s k).data
      ∧ ¬ "function-".data <+: (genIdAt env s k).data) :
    (assignedIds env names s).Nodup := by
  induction names generalizing s with
  | nil => simp [assignedIds]
  | cons a rest ih =>
    rw [assignedIds_cons, List.nodup_cons]
    constructor
    · intro hmem
      obtain ⟨j, hj, b, hb, hy⟩ := mem_assignedIds env rest _ _ hmem
      exact ids_ne env s (a :: rest).length hinc hinj hpre 0 (j + 1) (Nat.succ_pos j)
        (by simpa using hj) a b (hnames a (List.mem_cons_self a rest))
        (hnames b (List.mem_cons_of_mem a hb)) hy
    · refine ih _ (fun b hb => hnames b (List.mem_cons_of_mem a hb)) ?_ ?_ ?_
      · intro k hk
        exact hinc (k + 1) (by simpa using hk)
      · intro i j hi hj h
        exact hinj (i + 1) (j + 1) (by simpa using hi) (by simpa using hj) h
      · intro k hk
        exact hpre (k + 1) (by simpa using hk)

theorem assignedIds_nodup_witness :
    ((∀ a ∈ ["zome", "zome-entry", "zome"], a ∈ sourceTemplateNames)
      ∧ (∀ k, k + 1 < ["zome", "zome-entry", "zome"].length →
          (counterAt refEnv bootState k).bits < (counterAt refEnv bootState (k + 1)).bits)
      ∧ (∀ i j, i < ["zome", "zome-entry", "zome"].length →
          j < ["zome", "zome-entry", "zome"].length →
          genIdAt refEnv bootState i = genIdAt refEnv bootState j →
          counterAt refEnv bootState i = counterAt refEnv bootState j)
      ∧ (∀ k, k < ["zome", "zome-entry", "zome"].length →
          ¬ "entry-".data <+: (genIdAt refEnv bootState k).data
            ∧ ¬ "function-".data <+: (genIdAt refEnv bootState k).data))
    ∧ (assignedIds refEnv ["zome", "zome-entry", "zome"] bootState).Nodup := by
  have h1 : ∀ a ∈ ["zome", "zome-entry", "zome"], a ∈ sourceTemplateNames := by decide
  have h2 : ∀ k, k + 1 < ["zome", "zome-entry", "zome"].length →
      (counterAt refEnv bootState k).bits < (counterAt refEnv bootState (k + 1)).bits := by
    have hb : ∀ k, k < 2 →
        (counterAt refEnv bootState k).bits < (counterAt refEnv bootState (k + 1)).bits := by
      decide
    intro k hk
    exact hb k (Nat.lt_of_succ_lt_succ hk)
  have h3 : ∀ i j, i < ["zome", "zome-entry", "zome"].length →
      j < ["zome", "zome-entry", "zome"].length →
      genIdAt refEnv bootState i = genIdAt refEnv bootState j →
      counterAt refEnv bootState i = counterAt refEnv bootState j := by
    have hb : ∀ i, i < 3 → ∀ j, j < 3 → genIdAt refEnv bootState i = genIdAt refEnv bootState j →
        counterAt refEnv bootState i = counterAt refEnv bootState j := by
      decide
    intro i j hi hj
    exact hb i hi j hj
  have h4 : ∀ k, k < ["zome", "zome-entry", "zome"].length →
      ¬ "entry-".data <+: (genIdAt refEnv bootState k).data
        ∧ ¬ "function-".data <+: (genIdAt refEnv bootState k).data := by
    decide
  exact ⟨⟨h1, h2, h3, h4⟩,
    assignedIds_nodup refEnv ["zome", "zome-entry", "zome"] bootState h1 h2 h3 h4⟩

/-- C12 as stated fails: when the random source returns 0 at every call, the
seed is 0 and so is every increment; two instantiations of the `zome`
template then get the same identifier `zome-0`, and the record of the first
(node 0) is replaced in the templates map by the record of the second
(node 1). -/
theorem zero_increments_repeat_identifier :
    (∀ k, zeroRandomEnv.random k = ⟨0⟩)
      ∧ zeroBoot.nextTemplateId = ⟨0⟩
      ∧ assignedIds zeroRandomEnv ["zome", "zome"] zeroBoot = ["zome-0", "zome-0"]
      ∧ ¬ (assignedIds zeroRandomEnv ["zome", "zome"] zeroBoot).Nodup
      ∧ ∃ t1 s1 t2 s2,
          _genTemplates zeroRandomEnv (some .zomesDiv) "zome" [] zeroBoot = .ok t1 s1
            ∧ _genTemplates zeroRandomEnv (some .zomesDiv) "zome" [] s1 = .ok t2 s2
            ∧ t1.id = "zome-0" ∧ t2.id = "zome-0"
            ∧ t1.elems = [0] ∧ t2.elems = [1]
            ∧ lookupTemplate "zome-0" s1.templates = some t1
            ∧ lookupTemplate "zome-0" s2.templates = some t2 :=
  ⟨fun _ => rfl, rfl, by decide, by decide,
    ⟨_, _, _, _, rfl, rfl, rfl, rfl, rfl, rfl, rfl, rfl⟩⟩

end Scaffold
